import Mathlib

/-!
# Pogo: quadruple virtual machine and single-pass parser

A shallow embedding of `src/virtualmachine/VirtualMachine.go` and of the
expression / statement part of `src/parser/parser.go`, together with the
properties of the natural-language specification that concern them.

Conventions of the embedding

* Go `int` is modelled by `Int`; every arithmetic operation of the source is
  followed by `wrap64`, the reduction to 64-bit two's complement.
* Go `float64` is modelled by `Float64`, a software model of IEEE-754 binary64
  (round to nearest, ties to even).
* Go `interface{}` values are modelled by the tagged sum `Value`.
* A Go function that returns `error` is modelled by a function into `Outcome`:
  the state after the call, plus either nothing, a returned error, or a
  run-time panic (failed type assertion, index out of range).
* Standard output is the list of `fmt.Println` calls made so far, each with its
  operands.
-/

namespace Pogo

/-! ## Machine integers -/

/-- Reduction of a mathematical integer to the Go `int` (64-bit two's complement). -/
def wrap64 (i : Int) : Int :=
  (i + 9223372036854775808) % 18446744073709551616 - 9223372036854775808

/-- The values a Go `int` can hold. -/
def inInt64 (i : Int) : Prop :=
  -9223372036854775808 ≤ i ∧ i < 9223372036854775808

instance (i : Int) : Decidable (inInt64 i) := by
  unfold inInt64; infer_instance

/-! ## IEEE-754 binary64 -/

/-- A binary64 datum.  `finite neg m e` stands for `(-1)^neg * m * 2^e` and is kept
normalised: `m < 2^53`, `-1074 ≤ e ≤ 971`, and `m < 2^52` only when `e = -1074`
(zero and the subnormal numbers). -/
inductive Float64 where
  | finite (neg : Bool) (m : Nat) (e : Int)
  | inf (neg : Bool)
  | nan
  deriving DecidableEq, Repr

namespace Float64

/-- Number of binary digits of `m`, computed with at most `fuel` halvings. -/
def bitLength : Nat → Nat → Nat
  | 0, _ => 0
  | fuel + 1, m => if m = 0 then 0 else bitLength fuel (m / 2) + 1

/-- Round `(-1)^neg * (m + δ) * 2^e` to the nearest binary64, ties to even, where
`0 < δ < 1` when `sticky` is set and `δ = 0` otherwise. -/
def round (neg : Bool) (m : Nat) (e : Int) (sticky : Bool) : Float64 :=
  if m = 0 then finite neg 0 (-1074)
  else
    let len : Int := (bitLength m m : Int)
    let e1 : Int := max (e + len - 53) (-1074)
    if e1 ≤ e then
      if e1 > 971 then inf neg else finite neg (m * 2 ^ (e - e1).toNat) e1
    else
      let s : Nat := (e1 - e).toNat
      let q : Nat := m / 2 ^ s
      let r : Nat := m % 2 ^ s
      let half : Nat := 2 ^ (s - 1)
      let up : Bool := decide (half < r) || (decide (r = half) && (sticky || decide (q % 2 = 1)))
      let q1 : Nat := if up then q + 1 else q
      if q1 = 9007199254740992 then
        (if e1 + 1 > 971 then inf neg else finite neg 4503599627370496 (e1 + 1))
      else if e1 > 971 then inf neg
      else finite neg q1 e1

/-- Go conversion `float64(i)` of an `int`. -/
def ofInt (i : Int) : Float64 := round (decide (i < 0)) i.natAbs 0 false

/-- The signed integer `k` with `x = k * 2^base` for a finite `x` whose exponent is at
least `base`. -/
def scaled (neg : Bool) (m : Nat) (e base : Int) : Int :=
  (if neg then -1 else 1) * ((m : Int) * 2 ^ (e - base).toNat)

/-- IEEE negation. -/
def neg : Float64 → Float64
  | finite s m e => finite (!s) m e
  | inf s => inf (!s)
  | nan => nan

/-- IEEE addition, `x + y` in Go. -/
def add : Float64 → Float64 → Float64
  | nan, _ => nan
  | _, nan => nan
  | inf s, inf t => if s = t then inf s else nan
  | inf s, finite _ _ _ => inf s
  | finite _ _ _, inf t => inf t
  | finite s m e, finite t n f =>
    let base := min e f
    let v := scaled s m e base + scaled t n f base
    if v = 0 then finite (s && t) 0 (-1074)
    else round (decide (v < 0)) v.natAbs base false

/-- IEEE subtraction, `x - y` in Go. -/
def sub (x y : Float64) : Float64 := add x (neg y)

/-- IEEE multiplication, `x * y` in Go. -/
def mul : Float64 → Float64 → Float64
  | nan, _ => nan
  | _, nan => nan
  | inf s, inf t => inf (xor s t)
  | inf s, finite t n _ => if n = 0 then nan else inf (xor s t)
  | finite s m _, inf t => if m = 0 then nan else inf (xor s t)
  | finite s m e, finite t n f => round (xor s t) (m * n) (e + f) false

/-- IEEE division, `x / y` in Go. -/
def div : Float64 → Float64 → Float64
  | nan, _ => nan
  | _, nan => nan
  | inf _, inf _ => nan
  | inf s, finite t _ _ => inf (xor s t)
  | finite s _ _, inf t => finite (xor s t) 0 (-1074)
  | finite s m e, finite t n f =>
    if n = 0 then (if m = 0 then nan else inf (xor s t))
    else
      let num := m * 2 ^ 128
      round (xor s t) (num / n) (e - f - 128) (decide (num % n ≠ 0))

/-- IEEE equality, `x == y` in Go: a NaN equals nothing, the two zeros are equal. -/
def eq : Float64 → Float64 → Bool
  | nan, _ => false
  | _, nan => false
  | inf s, inf t => s == t
  | inf _, finite _ _ _ => false
  | finite _ _ _, inf _ => false
  | finite s m e, finite t n f =>
    let base := min e f
    scaled s m e base == scaled t n f base

/-- IEEE order, `x < y` in Go: false as soon as an operand is a NaN. -/
def lt : Float64 → Float64 → Bool
  | nan, _ => false
  | _, nan => false
  | inf s, inf t => s && !t
  | inf s, finite _ _ _ => s
  | finite _ _ _, inf t => !t
  | finite s m e, finite t n f =>
    let base := min e f
    decide (scaled s m e base < scaled t n f base)

/-- The constant `0` converted to `float64`. -/
def zero : Float64 := finite false 0 (-1074)

end Float64

/-! ## Shared types (`pogo/src/shared`) -/

/-- A Go `interface{}` as the program uses it: the nil interface, an `int`, a
`float64` or a `string`. -/
inductive Value where
  | nil
  | int (i : Int)
  | float (f : Float64)
  | str (s : String)
  deriving DecidableEq, Repr

/-- What the verb `%T` prints for a value. -/
def goTypeName : Value → String
  | .nil => "<nil>"
  | .int _ => "int"
  | .float _ => "float64"
  | .str _ => "string"

/-- The record `shared.Quadruple`: an opcode and three `interface{}` fields. -/
structure Quadruple where
  Operator : String
  LeftOp : Value
  RightOp : Value
  Result : Value
  deriving DecidableEq, Repr

/-! ## Virtual machine (`src/virtualmachine/VirtualMachine.go`) -/

/-- The two run-time methods of `*MemoryManager` that the machine calls, over a
representation `M` of the manager's state.  Their bodies are not part of the machine;
every statement about the machine holds for whatever they compute.  `Load` returns the
pair `(value, err)` of the Go method and leaves the manager as it is; `Store` returns the
manager after the call and its `error`. -/
structure MemoryManager (M : Type) where
  Load : M → Int → Value × Option String
  Store : M → Int → Value → M × Option String

/-- The struct `VirtualMachine`, with the standard output of the process next to it:
`stdout` lists the calls of `fmt.Println` made so far, oldest first, each with its
operands. -/
structure VirtualMachine (M : Type) where
  quads : List Quadruple
  memoryManager : M
  instructionPointer : Int
  returnPointer : Int
  stdout : List (List Value)
  deriving DecidableEq

/-- How a call ends: it returns `nil`, it returns an error, or it panics.  The state is
the one the call leaves behind. -/
inductive Outcome (σ : Type) where
  | ok (s : σ)
  | error (s : σ) (err : String)
  | panic (s : σ) (msg : String)
  deriving DecidableEq

/-- The state a call leaves behind. -/
def Outcome.state {σ : Type} : Outcome σ → σ
  | .ok s => s
  | .error s _ => s
  | .panic s _ => s

/-- The constructor `NewVirtualMachine`; nothing has been printed yet. -/
def NewVirtualMachine {M : Type} (quads : List Quadruple) (memManager : M) : VirtualMachine M :=
  { quads := quads
    memoryManager := memManager
    instructionPointer := 1
    returnPointer := -1
    stdout := [] }

/-- The message of the panic raised by the type assertion `v.(int)` on a non-`int`; the
run time writes `nil` for the nil interface and the name of the dynamic type otherwise. -/
def assertIntPanic (v : Value) : String :=
  "interface conversion: interface \x7b\x7d is " ++
    (match v with
     | .nil => "nil"
     | w => goTypeName w) ++ ", not int"

/-- The type switch of `executeArithmetic` (lines 69–116): the value left in `result`,
or the error returned from inside the switch.  When no case applies `result` keeps its
zero value, the nil interface. -/
def arithmeticResult (op : String) (leftVal rightVal : Value) : Except String Value :=
  match leftVal with
  | .int left =>
    match rightVal with
    | .int right =>
      if op = "+" then .ok (.int (wrap64 (left + right)))
      else if op = "-" then .ok (.int (wrap64 (left - right)))
      else if op = "*" then .ok (.int (wrap64 (left * right)))
      else if op = "/" then
        (if right = 0 then .error "division by zero"
         else .ok (.int (wrap64 (Int.tdiv left right))))
      else .ok .nil
    | _ =>
      .error ("type mismatch: cannot perform integer operation with " ++ goTypeName rightVal)
  | .float left =>
    let right? : Option Float64 :=
      match rightVal with
      | .float r => some r
      | .int r => some (Float64.ofInt r)
      | _ => none
    match right? with
    | none =>
      .error ("type mismatch: cannot perform float operation with " ++ goTypeName rightVal)
    | some right =>
      if op = "+" then .ok (.float (Float64.add left right))
      else if op = "-" then .ok (.float (Float64.sub left right))
      else if op = "*" then .ok (.float (Float64.mul left right))
      else if op = "/" then
        (if Float64.eq right Float64.zero then .error "division by zero"
         else .ok (.float (Float64.div left right)))
      else .ok .nil
  | _ => .ok .nil

/-- The call `vm.memoryManager.Store(quad.Result.(int), value)` followed by `return`. -/
def storeResult {M : Type} (mm : MemoryManager M) (quad : Quadruple) (value : Value)
    (vm : VirtualMachine M) : Outcome (VirtualMachine M) :=
  match quad.Result with
  | .int addr =>
    match mm.Store vm.memoryManager addr value with
    | (m, none) => .ok { vm with memoryManager := m }
    | (m, some err) => .error { vm with memoryManager := m } err
  | r => .panic vm (assertIntPanic r)

/-- The method `executeArithmetic`. -/
def executeArithmetic {M : Type} (mm : MemoryManager M) (quad : Quadruple)
    (vm : VirtualMachine M) : Outcome (VirtualMachine M) :=
  match quad.LeftOp with
  | .int la =>
    match mm.Load vm.memoryManager la with
    | (_, some err) => .error vm ("failed to load left operand: " ++ err)
    | (leftVal, none) =>
      match quad.RightOp with
      | .int ra =>
        match mm.Load vm.memoryManager ra with
        | (_, some err) => .error vm ("failed to load right operand: " ++ err)
        | (rightVal, none) =>
          match arithmeticResult quad.Operator leftVal rightVal with
          | .error err => .error vm err
          | .ok result => storeResult mm quad result vm
      | r => .panic vm (assertIntPanic r)
  | l => .panic vm (assertIntPanic l)

/-- The method `executeAssignment`. -/
def executeAssignment {M : Type} (mm : MemoryManager M) (quad : Quadruple)
    (vm : VirtualMachine M) : Outcome (VirtualMachine M) :=
  match quad.LeftOp with
  | .int la =>
    match mm.Load vm.memoryManager la with
    | (_, some err) => .error vm ("failed to load source value: " ++ err)
    | (value, none) => storeResult mm quad value vm
  | l => .panic vm (assertIntPanic l)

/-- The numeric promotion of `executeComparison`: `float64(v)` for an `int`, `v` for a
`float64`, nothing for any other value. -/
def toFloat : Value → Option Float64
  | .int v => some (Float64.ofInt v)
  | .float v => some v
  | _ => none

/-- The switch on the operator in `executeComparison` followed by the conversion of the
boolean to `1` or `0`; `result` is `false` when no case applies. -/
def comparisonResult (op : String) (leftFloat rightFloat : Float64) : Int :=
  let result : Bool :=
    if op = "<" then Float64.lt leftFloat rightFloat
    else if op = ">" then Float64.lt rightFloat leftFloat
    else if op = "==" then Float64.eq leftFloat rightFloat
    else if op = "!=" then !(Float64.eq leftFloat rightFloat)
    else false
  if result then 1 else 0

/-- The call `fmt.Println(a...)`: one more line on standard output. -/
def println {M : Type} (vm : VirtualMachine M) (operands : List Value) : VirtualMachine M :=
  { vm with stdout := vm.stdout ++ [operands] }

/-- The method `executeComparison`.  The call of `fmt.Println` on line 133 runs as soon
as the left operand has been loaded, before the error of that load is looked at. -/
def executeComparison {M : Type} (mm : MemoryManager M) (quad : Quadruple)
    (vm : VirtualMachine M) : Outcome (VirtualMachine M) :=
  match quad.LeftOp with
  | .int la =>
    match mm.Load vm.memoryManager la with
    | (leftVal, some err) =>
      .error (println vm [Value.str "This is the leftVal", leftVal])
        ("failed to load left operand: " ++ err)
    | (leftVal, none) =>
      let vm1 := println vm [Value.str "This is the leftVal", leftVal]
      match quad.RightOp with
      | .int ra =>
        match mm.Load vm.memoryManager ra with
        | (_, some err) => .error vm1 ("failed to load right operand: " ++ err)
        | (rightVal, none) =>
          match toFloat leftVal with
          | none => .error vm1 ("invalid type for comparison: " ++ goTypeName leftVal)
          | some leftFloat =>
            match toFloat rightVal with
            | none => .error vm1 ("invalid type for comparison: " ++ goTypeName rightVal)
            | some rightFloat =>
              storeResult mm quad (.int (comparisonResult quad.Operator leftFloat rightFloat)) vm1
      | r => .panic vm1 (assertIntPanic r)
  | l => .panic vm (assertIntPanic l)

/-- The call `strings.Trim(v, "\"")`: every leading and every trailing double quote is
removed. -/
def trimQuotes (v : String) : String :=
  let quote : Char := Char.ofNat 34
  let front := v.toList.dropWhile (fun c => c == quote)
  String.mk (front.reverse.dropWhile (fun c => c == quote)).reverse

/-- The method `executePrint`. -/
def executePrint {M : Type} (mm : MemoryManager M) (quad : Quadruple)
    (vm : VirtualMachine M) : Outcome (VirtualMachine M) :=
  match quad.LeftOp with
  | .int la =>
    match mm.Load vm.memoryManager la with
    | (_, some err) => .error vm ("failed to load print value: " ++ err)
    | (value, none) =>
      match value with
      | .str v => .ok (println vm [Value.str (trimQuotes v)])
      | .int v => .ok (println vm [Value.int v])
      | .float v => .ok (println vm [Value.float v])
      | .nil => .error vm ("unsupported type for printing: " ++ goTypeName value)
  | l => .panic vm (assertIntPanic l)

/-- The method `executeGoto`. -/
def executeGoto {M : Type} (quad : Quadruple) (vm : VirtualMachine M) :
    Outcome (VirtualMachine M) :=
  match quad.Result with
  | .int r => .ok { vm with instructionPointer := r }
  | r => .panic vm (assertIntPanic r)

/-- The method `executeGotof`.  The test `condValue == 0` compares an `interface{}` with
the constant `0` of type `int`: it holds for the `int` zero and for nothing else. -/
def executeGotof {M : Type} (mm : MemoryManager M) (quad : Quadruple)
    (vm : VirtualMachine M) : Outcome (VirtualMachine M) :=
  match quad.LeftOp with
  | .int la =>
    match mm.Load vm.memoryManager la with
    | (_, some err) => .error vm err
    | (condValue, none) =>
      if condValue = Value.int 0 then
        match quad.Result with
        | .int r => .ok { vm with instructionPointer := wrap64 (r - 1) }
        | r => .panic vm (assertIntPanic r)
      else .ok vm
  | l => .panic vm (assertIntPanic l)

/-- The method `executeQuadruple`: an opcode outside the six cases returns `nil`. -/
def executeQuadruple {M : Type} (mm : MemoryManager M) (quad : Quadruple)
    (vm : VirtualMachine M) : Outcome (VirtualMachine M) :=
  if quad.Operator = "+" ∨ quad.Operator = "-" ∨ quad.Operator = "*" ∨ quad.Operator = "/" then
    executeArithmetic mm quad vm
  else if quad.Operator = "=" then
    executeAssignment mm quad vm
  else if quad.Operator = "<" ∨ quad.Operator = ">" ∨ quad.Operator = "==" ∨
      quad.Operator = "!=" then
    executeComparison mm quad vm
  else if quad.Operator = "print" then
    executePrint mm quad vm
  else if quad.Operator = "goto" then
    executeGoto quad vm
  else if quad.Operator = "gotof" then
    executeGotof mm quad vm
  else .ok vm

/-- The guard of the loop of `Execute`: `vm.instructionPointer < len(vm.quads)`. -/
def running {M : Type} (vm : VirtualMachine M) : Bool :=
  decide (vm.instructionPointer < (vm.quads.length : Int))

/-- The quadruple `vm.quads[vm.instructionPointer]` that the loop body reads; nothing
when the index is out of range, where Go panics. -/
def fetch {M : Type} (vm : VirtualMachine M) : Option Quadruple :=
  if vm.instructionPointer < 0 then none
  else vm.quads.get? vm.instructionPointer.toNat

/-- One pass through the body of the loop of `Execute` (lines 27–33). -/
def iteration {M : Type} (mm : MemoryManager M) (vm : VirtualMachine M) :
    Outcome (VirtualMachine M) :=
  match fetch vm with
  | none =>
    .panic vm
      (if vm.instructionPointer < 0 then
        "runtime error: index out of range [" ++ toString vm.instructionPointer ++ "]"
       else
        "runtime error: index out of range [" ++ toString vm.instructionPointer ++
          "] with length " ++ toString vm.quads.length)
  | some quad =>
    match executeQuadruple mm quad vm with
    | .ok vm1 => .ok { vm1 with instructionPointer := wrap64 (vm1.instructionPointer + 1) }
    | .error vm1 err =>
      .error vm1 ("error at instruction " ++ toString vm1.instructionPointer ++ ": " ++ err)
    | .panic vm1 msg => .panic vm1 msg

/-- The method `Execute`, with a bound on the number of loop iterations: `none` when the
bound is reached while the loop is still running. -/
def Execute {M : Type} (mm : MemoryManager M) :
    Nat → VirtualMachine M → Option (Outcome (VirtualMachine M))
  | 0, vm => if running vm then none else some (.ok vm)
  | fuel + 1, vm =>
    if running vm then
      match iteration mm vm with
      | .ok vm1 => Execute mm fuel vm1
      | o => some o
    else some (.ok vm)

/-- The instruction indices that `Execute` dispatches, in order, during its first `n`
loop iterations: an index is listed when the loop guard holds and the quadruple at that
index is read and handed to `executeQuadruple`. -/
def dispatched {M : Type} (mm : MemoryManager M) : Nat → VirtualMachine M → List Int
  | 0, _ => []
  | n + 1, vm =>
    if running vm then
      match fetch vm with
      | none => []
      | some _ =>
        vm.instructionPointer ::
          (match iteration mm vm with
           | .ok vm1 => dispatched mm n vm1
           | _ => [])
    else []

/-- The state of the machine after `k` passes through the loop of `Execute`, when each of
them ran with the loop guard true and its handler returned `nil`. -/
def afterIterations {M : Type} (mm : MemoryManager M) :
    Nat → VirtualMachine M → Option (VirtualMachine M)
  | 0, vm => some vm
  | k + 1, vm =>
    if running vm then
      match iteration mm vm with
      | .ok vm1 => afterIterations mm k vm1
      | _ => none
    else none

/-! ## A run-time memory for concrete runs -/

/-- The scalar types of `pogo/src/shared`. -/
inductive SharedType where
  | TypeInt
  | TypeFloat
  | TypeString
  | TypeBool
  | TypeError
  deriving DecidableEq, Repr

/-- Modelled from the spec: the segment layout, which lives in the memory manager, not in
the sources at hand.  The typical layout of §4.1 is used: ranges of 1000 addresses,
Global `Int` at 1000–1999, Global `Float` at 2000–2999, and so on through the scopes
Global, Local, Temp, Constant and, within a scope, the types Int, Float, String, Bool. -/
def segmentType (addr : Int) : Option SharedType :=
  if addr < 1000 ∨ 17000 ≤ addr then none
  else
    match ((addr / 1000 - 1) % 4).toNat with
    | 0 => some .TypeInt
    | 1 => some .TypeFloat
    | 2 => some .TypeString
    | _ => some .TypeBool

/-- Modelled from the spec: the cells of the run-time memory, newest binding first. -/
abbrev Cells := List (Int × Value)

/-- Modelled from the spec: `Load(address) → value | Unbound`, "reads, failing if the cell
has never been written". -/
def specLoad (cells : Cells) (addr : Int) : Value × Option String :=
  match cells.lookup addr with
  | some v => (v, none)
  | none => (.nil, some ("Unbound: address " ++ toString addr))

/-- Modelled from the spec: `Store(address, value) → ok | TypeMismatch`, "the cell's
expected type is derived from the address's segment, and the value must match (with
integer→float promotion permitted on assignment to a `Float` cell)"; a `Bool` is stored as
an `Int`. -/
def specStore (cells : Cells) (addr : Int) (value : Value) : Cells × Option String :=
  match segmentType addr, value with
  | some .TypeInt, .int i => ((addr, .int i) :: cells, none)
  | some .TypeBool, .int i => ((addr, .int i) :: cells, none)
  | some .TypeFloat, .float f => ((addr, .float f) :: cells, none)
  | some .TypeFloat, .int i => ((addr, .float (Float64.ofInt i)) :: cells, none)
  | some .TypeString, .str s => ((addr, .str s) :: cells, none)
  | _, _ => (cells, some ("TypeMismatch: address " ++ toString addr))

/-- Modelled from the spec: the run-time memory manager of §4.1 over `Cells`. -/
def specMemory : MemoryManager Cells :=
  { Load := specLoad, Store := specStore }

/-! ## Tokens (`pogo/src/token`, `pogo/src/lexer`) -/

/-- A token of the lexer: its kind, written as the identifier that the source passes to
`token.TokMap.Type` (`"id"`, `"intLit"`, `"expressionOp"`, ...), its literal text and its
position. -/
structure Token where
  Typ : String
  Lit : String
  Line : Nat
  Column : Nat
  deriving DecidableEq, Repr

/-- The token the lexer returns once the input is exhausted. -/
def eofToken : Token := { Typ := "$", Lit := "", Line := 0, Column := 0 }

/-! ## Semantic package (`pogo/src/semantic`), from the specification -/

/-- The record `semantic.Variable`, built field by field in `parseParameterList`. -/
structure Variable where
  Name : String
  Typ : SharedType
  Line : Nat
  Column : Nat
  Address : Int
  deriving DecidableEq, Repr

/-- Modelled from the spec: the function record of §3, `(name, parameters, start_quad,
local_symbol_table)`. -/
structure FunctionRecord where
  Name : String
  Parameters : List Variable
  StartQuad : Int
  Locals : List Variable
  deriving DecidableEq, Repr

/-- Modelled from the spec: the two-level symbol table of §3, a global table and one
local table per function, with the function whose scope is open, if any. -/
structure SymbolTable where
  globals : List Variable
  functions : List FunctionRecord
  current : Option String
  deriving DecidableEq, Repr

/-- Modelled from the spec: `NewSymbolTable`, the empty table at global scope. -/
def NewSymbolTable : SymbolTable := { globals := [], functions := [], current := none }

/-- Modelled from the spec: lookup "local-then-global" of §4.2: the parameters and locals
of the function whose scope is open, then the global table. -/
def SymbolTable.lookup (st : SymbolTable) (name : String) : Option Variable :=
  let locals : List Variable :=
    match st.current with
    | none => []
    | some f =>
      match st.functions.find? (fun r => r.Name == f) with
      | none => []
      | some r => r.Parameters ++ r.Locals
  match locals.find? (fun v => v.Name == name) with
  | some v => some v
  | none => st.globals.find? (fun v => v.Name == name)

/-- Modelled from the spec: `GetType(name) → type | Undeclared`. -/
def SymbolTable.GetType (st : SymbolTable) (name : String) : SharedType × Option String :=
  match st.lookup name with
  | some v => (v.Typ, none)
  | none => (.TypeError, some ("Undeclared: " ++ name))

/-- Modelled from the spec: `GetVariableAddress(name) → address | Undeclared`. -/
def SymbolTable.GetVariableAddress (st : SymbolTable) (name : String) : Int × Option String :=
  match st.lookup name with
  | some v => (v.Address, none)
  | none => (0, some ("Undeclared: " ++ name))

/-- Modelled from the spec: the semantic cube of §4.3, `none` standing for
`Incompatible`.  Arithmetic: `Int`×`Int`→`Int`, any mixture of `Int` and `Float`→`Float`;
comparison: numeric pair → `Bool`; assignment (target on the left): `Int` ← `Int`,
`Float` ← `Int` or `Float`, `String` ← `String`. -/
def cube (op : String) (leftType rightType : SharedType) : Option SharedType :=
  if op = "+" ∨ op = "-" ∨ op = "*" ∨ op = "/" then
    match leftType, rightType with
    | .TypeInt, .TypeInt => some .TypeInt
    | .TypeInt, .TypeFloat => some .TypeFloat
    | .TypeFloat, .TypeInt => some .TypeFloat
    | .TypeFloat, .TypeFloat => some .TypeFloat
    | _, _ => none
  else if op = "<" ∨ op = ">" ∨ op = "==" ∨ op = "!=" then
    match leftType, rightType with
    | .TypeInt, .TypeInt => some .TypeBool
    | .TypeInt, .TypeFloat => some .TypeBool
    | .TypeFloat, .TypeInt => some .TypeBool
    | .TypeFloat, .TypeFloat => some .TypeBool
    | _, _ => none
  else if op = "=" then
    match leftType, rightType with
    | .TypeInt, .TypeInt => some .TypeInt
    | .TypeFloat, .TypeInt => some .TypeFloat
    | .TypeFloat, .TypeFloat => some .TypeFloat
    | .TypeString, .TypeString => some .TypeString
    | _, _ => none
  else none

/-- Modelled from the spec: the compile-time side of the memory manager of §4.1: one
running counter per segment (scopes Global, Local, Temp, Constant in this order, and
within a scope the types Int, Float, String, Bool), the interned constants, and the
`Local` and `Temp` counters saved by `PushNewFunctionSegment`. -/
structure Allocator where
  counters : List Nat
  constants : List ((String × SharedType) × Int)
  saved : List (List Nat)
  deriving DecidableEq, Repr

/-- Modelled from the spec: a manager that has allocated nothing. -/
def NewAllocator : Allocator :=
  { counters := List.replicate 16 0, constants := [], saved := [] }

/-- Modelled from the spec: position of a type within a scope; `Error` has no segment. -/
def typeIndex : SharedType → Option Nat
  | .TypeInt => some 0
  | .TypeFloat => some 1
  | .TypeString => some 2
  | .TypeBool => some 3
  | .TypeError => none

/-- Modelled from the spec: "bump the corresponding counter; fail with `SegmentExhausted`
if out of range", for the segment of scope number `scope` and type `t`, under the layout
of `segmentType`. -/
def Allocator.allocate (a : Allocator) (scope : Nat) (t : SharedType) :
    Allocator × Int × Option String :=
  match typeIndex t with
  | none => (a, 0, some "SegmentExhausted: no segment for this type")
  | some k =>
    let seg := scope * 4 + k
    let used := a.counters.getD seg 0
    if used < 1000 then
      ({ a with counters := a.counters.set seg (used + 1) },
        ((1000 * (seg + 1) + used : Nat) : Int), none)
    else (a, 0, some "SegmentExhausted")

/-- Modelled from the spec: `AllocateGlobal(type) → address`. -/
def Allocator.AllocateGlobal (a : Allocator) (t : SharedType) := a.allocate 0 t

/-- Modelled from the spec: `AllocateLocal(type) → address`. -/
def Allocator.AllocateLocal (a : Allocator) (t : SharedType) := a.allocate 1 t

/-- Modelled from the spec: `AllocateTemp(type) → address`. -/
def Allocator.AllocateTemp (a : Allocator) (t : SharedType) := a.allocate 2 t

/-- Modelled from the spec: `AllocateConstant(literal, type) → address`: "if `literal` is
already interned for that type, return the prior address; otherwise allocate and
remember". -/
def Allocator.AllocateConstant (a : Allocator) (literal : String) (t : SharedType) :
    Allocator × Int × Option String :=
  match a.constants.lookup (literal, t) with
  | some addr => (a, addr, none)
  | none =>
    match a.allocate 3 t with
    | (a1, addr, none) => ({ a1 with constants := ((literal, t), addr) :: a1.constants }, addr, none)
    | (a1, addr, some err) => (a1, addr, some err)

/-- Modelled from the spec: the emitter `semantic.QuadrupleList` of §3: the quadruples
emitted so far, the four auxiliary stacks (top first) and the memory manager.  The
fields `Quads`, `OperandStack`, `OperatorStack`, `TypeStack` and `MemoryManager` are the
ones the parser reads and writes. -/
structure QuadrupleList where
  Quads : List Quadruple
  OperandStack : List Value
  OperatorStack : List String
  TypeStack : List SharedType
  JumpStack : List Int
  MemoryManager : Allocator
  deriving DecidableEq, Repr

/-- Modelled from the spec: `NewQuadrupleList`, nothing emitted and nothing pending. -/
def NewQuadrupleList : QuadrupleList :=
  { Quads := [], OperandStack := [], OperatorStack := [], TypeStack := [], JumpStack := [],
    MemoryManager := NewAllocator }

/-- Modelled from the spec: whether the literal handed to `HandleFactor` is an identifier:
its first character is a letter or an underscore. -/
def isIdentifier (lit : String) : Bool :=
  match lit.toList with
  | [] => false
  | c :: _ => c.isAlpha || c == Char.ofNat 95

/-- Modelled from the spec: `HandleFactor(lit, type, symtab)`: "if `lit` is an identifier,
resolve to its address and type (must match declared type); if an integer or float
literal (optionally with leading `-`), intern as a constant.  Push address to
`OperandStack`, type to `TypeStack`." -/
def QuadrupleList.HandleFactor (q : QuadrupleList) (lit : String) (t : SharedType)
    (symtab : SymbolTable) : QuadrupleList × Option String :=
  if isIdentifier lit then
    match symtab.lookup lit with
    | none => (q, some ("Undeclared: " ++ lit))
    | some v =>
      if v.Typ = t then
        ({ q with OperandStack := .int v.Address :: q.OperandStack,
                  TypeStack := t :: q.TypeStack }, none)
      else (q, some ("TypeMismatch: " ++ lit))
  else
    match q.MemoryManager.AllocateConstant lit t with
    | (a, _, some err) => ({ q with MemoryManager := a }, some err)
    | (a, addr, none) =>
      ({ q with MemoryManager := a, OperandStack := .int addr :: q.OperandStack,
                TypeStack := t :: q.TypeStack }, none)

/-- Modelled from the spec: `HandleOp()`: "pop top operator from `OperatorStack`, top two
operands and two types from `OperandStack`/`TypeStack`; consult the cube; on mismatch
fail `Incompatible`; allocate a temp of the result type; emit `(op, left, right, temp)`;
push `temp` and result type back."  The spec is silent on a stack that holds too little;
here that is an error and nothing is popped. -/
def QuadrupleList.HandleOp (q : QuadrupleList) : QuadrupleList × Option String :=
  match q.OperatorStack, q.OperandStack, q.TypeStack with
  | op :: ops, right :: left :: operands, rightType :: leftType :: types =>
    let q1 := { q with OperatorStack := ops, OperandStack := operands, TypeStack := types }
    match cube op leftType rightType with
    | none => (q1, some ("Incompatible: " ++ op))
    | some resultType =>
      match q1.MemoryManager.AllocateTemp resultType with
      | (a, _, some err) => ({ q1 with MemoryManager := a }, some err)
      | (a, temp, none) =>
        ({ q1 with MemoryManager := a,
                   Quads := q1.Quads ++ [⟨op, left, right, .int temp⟩],
                   OperandStack := .int temp :: operands,
                   TypeStack := resultType :: types }, none)
  | _, _, _ => (q, some "StackUnderflow: HandleOp")

/-- Modelled from the spec: `HandleOpenParen()`: push the sentinel `(` on the operator
stack. -/
def QuadrupleList.HandleOpenParen (q : QuadrupleList) : QuadrupleList :=
  { q with OperatorStack := "(" :: q.OperatorStack }

/-- Modelled from the spec: `HandleCloseParen()`: discard the sentinel `(` from the
operator stack; an error when the top of the stack is not the sentinel. -/
def QuadrupleList.HandleCloseParen (q : QuadrupleList) : QuadrupleList × Option String :=
  match q.OperatorStack with
  | "(" :: ops => ({ q with OperatorStack := ops }, none)
  | _ => (q, some "ParseError: unbalanced parenthesis")

/-- Modelled from the spec: `HandleAssignment(targetAddr, targetType)`: "pop the top
operand and type; consult cube for `=`; emit `(=, src, ∅, targetAddr)`". -/
def QuadrupleList.HandleAssignment (q : QuadrupleList) (targetAddr : Int)
    (targetType : SharedType) : QuadrupleList × Option String :=
  match q.OperandStack, q.TypeStack with
  | src :: operands, srcType :: types =>
    let q1 := { q with OperandStack := operands, TypeStack := types }
    match cube "=" targetType srcType with
    | none => (q1, some "Incompatible: =")
    | some _ => ({ q1 with Quads := q1.Quads ++ [⟨"=", src, .nil, .int targetAddr⟩] }, none)
  | _, _ => (q, some "StackUnderflow: HandleAssignment")

/-- Modelled from the spec: `HandleParam(arg, k)`: emit `(param, arg, ∅, k)` for the
`k`-th argument. -/
def QuadrupleList.HandleParam (q : QuadrupleList) (arg : Value) (k : Int) :
    QuadrupleList × Option String :=
  ({ q with Quads := q.Quads ++ [⟨"param", arg, .nil, .int k⟩] }, none)

/-! ## Parser (`src/parser/parser.go`) -/

/-- The struct `Parser`.  The lexer is the list of the tokens it has yet to return. -/
structure Parser where
  lexer : List Token
  curr : Token
  symbolTable : SymbolTable
  codeGenerator : QuadrupleList
  deriving DecidableEq, Repr

/-- What a method of the parser hands back: the value it returns, its `error` (`none` for
`nil`) and the parser after the call. -/
structure Ret (α : Type) where
  val : α
  err : Option String
  p : Parser
  deriving DecidableEq, Repr

/-- Modelled from the spec: the method `next`, which makes the next token of the lazy
stream the current one; past the end of the input the lexer keeps returning the
end-of-input token. -/
def Parser.next (p : Parser) : Parser :=
  match p.lexer with
  | [] => { p with curr := eofToken }
  | t :: rest => { p with curr := t, lexer := rest }

/-- The constructor `NewParser`: fresh symbol table and emitter, first token primed. -/
def NewParser (l : List Token) : Parser :=
  Parser.next
    { lexer := l, curr := eofToken, symbolTable := NewSymbolTable,
      codeGenerator := NewQuadrupleList }

/-- Modelled from the spec: the method `expect`: "each production consumes exactly the
tokens the grammar assigns to it; unexpected tokens yield a `ParseError` carrying line,
column, actual literal, and expected-kind description". -/
def Parser.expect (p : Parser) (kind : String) : Ret Unit :=
  if p.curr.Typ = kind then { val := (), err := none, p := p.next }
  else
    { val := ()
      err := some ("ParseError: line " ++ toString p.curr.Line ++ ", column " ++
        toString p.curr.Column ++ ": unexpected " ++ p.curr.Lit ++ ", expected " ++ kind)
      p := p }

/-- Modelled from the spec: the method `getType`, called by `parseFactor` on an `id`,
`intLit` or `floatLit` token (`parseFactor` itself holds no call of `next` for an atom):
the declared type of an identifier, `Int` or `Float` for a literal, and the atom is
consumed, as "each production consumes exactly the tokens the grammar assigns to it". -/
def Parser.getType (p : Parser) (tok : Token) : Ret SharedType :=
  if tok.Typ = "intLit" then { val := .TypeInt, err := none, p := p.next }
  else if tok.Typ = "floatLit" then { val := .TypeFloat, err := none, p := p.next }
  else if tok.Typ = "id" then
    match p.symbolTable.GetType tok.Lit with
    | (t, none) => { val := t, err := none, p := p.next }
    | (_, some err) => { val := .TypeError, err := some err, p := p }
  else { val := .TypeError, err := some ("ParseError: no type for " ++ tok.Typ), p := p }

/-- The call `p.codeGenerator.OperatorStack.Push(operator)`. -/
def Parser.pushOperator (p : Parser) (operator : String) : Parser :=
  { p with codeGenerator :=
      { p.codeGenerator with OperatorStack := operator :: p.codeGenerator.OperatorStack } }

/-- Replace the emitter of the parser by the one a hook returned. -/
def Parser.withGenerator (p : Parser) (q : QuadrupleList) : Parser :=
  { p with codeGenerator := q }

/-- The atom case of `parseFactor` (lines 774–786 and 791–799): `tok` is the atom token,
`litSymbol` what is written before its literal. -/
def parseAtom (p : Parser) (litSymbol : String) : Ret SharedType :=
  let tok := p.curr
  match p.getType tok with
  | ⟨_, some err, p1⟩ => { val := .TypeError, err := some err, p := p1 }
  | ⟨tokType, none, p1⟩ =>
    match p1.codeGenerator.HandleFactor (litSymbol ++ tok.Lit) tokType p1.symbolTable with
    | (q, some err) => { val := .TypeError, err := some err, p := p1.withGenerator q }
    | (q, none) => { val := tokType, err := none, p := p1.withGenerator q }

/-- Whether a token starts an atom: the case `id`, `intLit`, `floatLit`. -/
def isAtom (t : Token) : Bool :=
  t.Typ = "id" || t.Typ = "intLit" || t.Typ = "floatLit"

mutual

/-- The method `parseExpression`; `none` when the bound on the recursion depth is hit. -/
def parseExpression : Nat → Parser → Option (Ret SharedType)
  | 0, _ => none
  | fuel + 1, p =>
    match parseExp fuel p with
    | none => none
    | some ⟨_, some err, p1⟩ => some { val := .TypeError, err := some err, p := p1 }
    | some ⟨leftType, none, p1⟩ =>
      if p1.curr.Typ = "relOp" then
        let operator := p1.curr.Lit
        let p2 := (p1.pushOperator operator).next
        match parseExp fuel p2 with
        | none => none
        | some ⟨_, some err, p3⟩ => some { val := .TypeError, err := some err, p := p3 }
        | some ⟨_, none, p3⟩ =>
          match p3.codeGenerator.HandleOp with
          | (q, some err) => some { val := .TypeError, err := some err, p := p3.withGenerator q }
          | (q, none) => some { val := .TypeInt, err := none, p := p3.withGenerator q }
      else some { val := leftType, err := none, p := p1 }

/-- The method `parseExp`: a term, then the loop over the additive operators. -/
def parseExp : Nat → Parser → Option (Ret SharedType)
  | 0, _ => none
  | fuel + 1, p =>
    match parseTerm fuel p with
    | none => none
    | some ⟨_, some err, p1⟩ => some { val := .TypeError, err := some err, p := p1 }
    | some ⟨leftType, none, p1⟩ => parseExpLoop fuel leftType p1

/-- The `for` loop of `parseExp` (lines 686–707), entered with the current `leftType`. -/
def parseExpLoop : Nat → SharedType → Parser → Option (Ret SharedType)
  | 0, _, _ => none
  | fuel + 1, leftType, p =>
    if p.curr.Typ = "expressionOp" then
      let operator := p.curr.Lit
      let p1 := p.next.pushOperator operator
      match parseTerm fuel p1 with
      | none => none
      | some ⟨_, some err, p2⟩ => some { val := .TypeError, err := some err, p := p2 }
      | some ⟨rightType, none, p2⟩ =>
        match p2.codeGenerator.HandleOp with
        | (q, some err) => some { val := .TypeError, err := some err, p := p2.withGenerator q }
        | (q, none) =>
          parseExpLoop fuel
            (if leftType = .TypeFloat ∨ rightType = .TypeFloat then .TypeFloat else .TypeInt)
            (p2.withGenerator q)
    else some { val := leftType, err := none, p := p }

/-- The method `parseTerm`.  After the operator it calls itself for the right operand,
and it calls `HandleOp` before it looks at the error of that call. -/
def parseTerm : Nat → Parser → Option (Ret SharedType)
  | 0, _ => none
  | fuel + 1, p =>
    match parseFactor fuel p with
    | none => none
    | some ⟨_, some err, p1⟩ => some { val := .TypeError, err := some err, p := p1 }
    | some ⟨leftType, none, p1⟩ =>
      if p1.curr.Typ = "termOp" then
        let operator := p1.curr.Lit
        let p2 := p1.next.pushOperator operator
        match parseTerm fuel p2 with
        | none => none
        | some ⟨rightType, err, p3⟩ =>
          match p3.codeGenerator.HandleOp with
          | (q, some err1) => some { val := .TypeError, err := some err1, p := p3.withGenerator q }
          | (q, none) =>
            match err with
            | some err2 => some { val := .TypeError, err := some err2, p := p3.withGenerator q }
            | none =>
              if leftType = .TypeFloat ∨ rightType = .TypeFloat then
                some { val := .TypeFloat, err := none, p := p3.withGenerator q }
              else some { val := .TypeInt, err := none, p := p3.withGenerator q }
      else some { val := leftType, err := none, p := p1 }

/-- The method `parseFactor`. -/
def parseFactor : Nat → Parser → Option (Ret SharedType)
  | 0, _ => none
  | fuel + 1, p =>
    if p.curr.Typ = "openParan" then
      let p1 := (p.withGenerator p.codeGenerator.HandleOpenParen).next
      match parseExpression fuel p1 with
      | none => none
      | some ⟨_, some err, p2⟩ => some { val := .TypeError, err := some err, p := p2 }
      | some ⟨exprType, none, p2⟩ =>
        let closed : QuadrupleList × Option String :=
          if p2.curr.Typ = "closeParan" then p2.codeGenerator.HandleCloseParen
          else (p2.codeGenerator, none)
        match closed with
        | (q, some err) => some { val := exprType, err := some err, p := p2.withGenerator q }
        | (q, none) =>
          match (p2.withGenerator q).expect "closeParan" with
          | ⟨_, some err, p3⟩ => some { val := .TypeError, err := some err, p := p3 }
          | ⟨_, none, p3⟩ => some { val := exprType, err := none, p := p3 }
    else if p.curr.Typ = "expressionOp" then
      let litSymbol := p.curr.Lit
      if litSymbol ≠ "+" ∧ litSymbol ≠ "-" then
        some { val := .TypeError, err := some ("unexpected operator: " ++ p.curr.Lit), p := p }
      else
        let p1 := p.next
        if isAtom p1.curr then
          some (parseAtom p1 (if litSymbol = "+" then "" else litSymbol))
        else
          some { val := .TypeError, err := some ("expected number after " ++ p1.curr.Lit), p := p1 }
    else if isAtom p.curr then
      some (parseAtom p "")
    else
      some { val := .TypeError
             err := some ("unexpected token in factor: " ++ p.curr.Typ ++ " in line %!l(int=" ++
               toString p.curr.Line ++ ") and %!t(string=" ++ p.curr.Lit ++ ")")
             p := p }

end

/-- The block of `parseArgumentList` that follows each argument (lines 575–582 and
594–601): when the operand stack is not empty, pop the operand and its type and emit the
`param` quadruple. -/
def handleArgument (p : Parser) (paramCount : Int) : Ret Int :=
  match p.codeGenerator.OperandStack with
  | [] => { val := paramCount, err := none, p := p }
  | arg :: operands =>
    let q : QuadrupleList :=
      { p.codeGenerator with OperandStack := operands,
                             TypeStack := p.codeGenerator.TypeStack.drop 1 }
    match q.HandleParam arg paramCount with
    | (q1, some err) => { val := paramCount, err := some err, p := p.withGenerator q1 }
    | (q1, none) => { val := wrap64 (paramCount + 1), err := none, p := p.withGenerator q1 }

/-- The `for` loop of `parseArgumentList` (lines 586–603). -/
def parseArgumentLoop : Nat → Int → List SharedType → Parser → Option (Ret (List SharedType))
  | 0, _, _, _ => none
  | fuel + 1, paramCount, argumentTypes, p =>
    if p.curr.Typ = "repeatTerminator" then
      let p1 := p.next
      match parseExpression fuel p1 with
      | none => none
      | some ⟨argType, err, p2⟩ =>
        let argumentTypes1 := argumentTypes ++ [argType]
        match err with
        | some e => some { val := [], err := some e, p := p2 }
        | none =>
          match handleArgument p2 paramCount with
          | ⟨_, some e, p3⟩ => some { val := [], err := some e, p := p3 }
          | ⟨paramCount1, none, p3⟩ =>
            parseArgumentLoop fuel paramCount1 (argumentTypes1 ++ [argType]) p3
    else some { val := argumentTypes, err := none, p := p }

/-- The method `parseArgumentList`. -/
def parseArgumentList (fuel : Nat) (p : Parser) : Option (Ret (List SharedType)) :=
  if p.curr.Typ = "closeParan" then some { val := [], err := none, p := p }
  else
    match parseExpression fuel p with
    | none => none
    | some ⟨_, some err, p1⟩ => some { val := [], err := some err, p := p1 }
    | some ⟨currType, none, p1⟩ =>
      match handleArgument p1 0 with
      | ⟨_, some err, p2⟩ => some { val := [], err := some err, p := p2 }
      | ⟨paramCount, none, p2⟩ => parseArgumentLoop fuel paramCount [currType] p2

/-- The method `parseAssignment`.  The error of `parseExpression` is assigned to `err`
on line 402 and overwritten by the call of `GetType` on line 403 before anything reads
it. -/
def parseAssignment (fuel : Nat) (p : Parser) (id nextToken : Token) : Option (Ret Unit) :=
  if nextToken.Typ ≠ "assignOp" then
    some { val := ()
           err := some ("Expected =, got " ++ nextToken.Typ ++ " at line " ++
             toString nextToken.Line ++ ", column " ++ toString nextToken.Column)
           p := p }
  else
    match parseExpression fuel p.next with
    | none => none
    | some ⟨_, _, p1⟩ =>
      match p1.symbolTable.GetType id.Lit with
      | (_, some err) => some { val := (), err := some err, p := p1 }
      | (currType, none) =>
        match p1.symbolTable.GetVariableAddress id.Lit with
        | (_, some err) => some { val := (), err := some err, p := p1 }
        | (targetAddr, none) =>
          match p1.codeGenerator.HandleAssignment targetAddr currType with
          | (q, some err) => some { val := (), err := some err, p := p1.withGenerator q }
          | (q, none) => some ((p1.withGenerator q).expect "terminator")

/-- The sign of a finite `float64` as an integer factor. -/
def signFactor (neg : Bool) : Int := if neg then -1 else 1

/-! ## Symbol table, allocator and emitter: the operations of the statement level -/

/-- Modelled from the spec: the record of a function in the global table, by name. -/
def SymbolTable.findFunction (st : SymbolTable) (name : String) : Option FunctionRecord :=
  st.functions.find? (fun r => r.Name == name)

/-- Modelled from the spec: apply `f` to the record of the function `name`. -/
def SymbolTable.updateFunction (st : SymbolTable) (name : String)
    (f : FunctionRecord → FunctionRecord) : SymbolTable :=
  { st with functions := st.functions.map (fun r => if r.Name == name then f r else r) }

/-- Modelled from the spec: `ValidateVarAssignment(name, line) → ok | Undeclared`; a check
that changes nothing. -/
def SymbolTable.ValidateVarAssignment (st : SymbolTable) (name : String) (line : Nat) :
    Option String :=
  match st.lookup name with
  | some _ => none
  | none => some ("Undeclared: line " ++ toString line ++ ": " ++ name)

/-- Modelled from the spec: `AddGlobal(var)`; "redeclaration within the same scope fails
with `DuplicateName`". -/
def SymbolTable.AddGlobal (st : SymbolTable) (v : Variable) : SymbolTable × Option String :=
  if st.globals.any (fun w => w.Name == v.Name) then (st, some ("DuplicateName: " ++ v.Name))
  else ({ st with globals := st.globals ++ [v] }, none)

/-- Modelled from the spec: `AddLocal(var)`, into the local table of the function whose
scope is open. -/
def SymbolTable.AddLocal (st : SymbolTable) (v : Variable) : SymbolTable × Option String :=
  match st.current with
  | none => (st, some ("Undeclared: no function scope for " ++ v.Name))
  | some f =>
    match st.findFunction f with
    | none => (st, some ("Undeclared: " ++ f))
    | some r =>
      if (r.Parameters ++ r.Locals).any (fun w => w.Name == v.Name) then
        (st, some ("DuplicateName: " ++ v.Name))
      else (st.updateFunction f (fun r => { r with Locals := r.Locals ++ [v] }), none)

/-- Modelled from the spec: `AddFunction(name, params, line, col)`: a new record in the
global table, its start quad not yet known; a second function of the same name, or two
parameters of the same name, fail with `DuplicateName`. -/
def SymbolTable.AddFunction (st : SymbolTable) (name : String) (params : List Variable)
    (_line _col : Nat) : SymbolTable × Option String :=
  match st.findFunction name with
  | some _ => (st, some ("DuplicateName: " ++ name))
  | none =>
    if (params.map (fun v => v.Name)).Nodup then
      ({ st with functions :=
          st.functions ++ [{ Name := name, Parameters := params, StartQuad := 0, Locals := [] }] },
        none)
    else (st, some ("DuplicateName: parameter of " ++ name))

/-- Modelled from the spec: `EnterFunctionScope(name)`. -/
def SymbolTable.EnterFunctionScope (st : SymbolTable) (name : String) :
    SymbolTable × Option String :=
  match st.findFunction name with
  | none => (st, some ("Undeclared: " ++ name))
  | some _ => ({ st with current := some name }, none)

/-- Modelled from the spec: `ExitFunctionScope()`, back to the global scope. -/
def SymbolTable.ExitFunctionScope (st : SymbolTable) : SymbolTable :=
  { st with current := none }

/-- Modelled from the spec: `UpdateFunctionStartQuad(name, q)`. -/
def SymbolTable.UpdateFunctionStartQuad (st : SymbolTable) (name : String) (q : Int) :
    SymbolTable × Option String :=
  match st.findFunction name with
  | none => (st, some ("Undeclared: " ++ name))
  | some _ => (st.updateFunction name (fun r => { r with StartQuad := q }), none)

/-- Modelled from the spec: `GetFunctionStartQuad(name) → q`. -/
def SymbolTable.GetFunctionStartQuad (st : SymbolTable) (name : String) : Int × Option String :=
  match st.findFunction name with
  | none => (0, some ("Undeclared: " ++ name))
  | some r => (r.StartQuad, none)

/-- Modelled from the spec: the per-position check of `ValidateFunctionCall`, "via the
symbol table and cube": each argument must be assignable to its parameter. -/
def argumentsMatch : List Variable → List SharedType → Bool
  | [], [] => true
  | v :: vs, t :: ts => (cube "=" v.Typ t).isSome && argumentsMatch vs ts
  | _, _ => false

/-- Modelled from the spec: `ValidateFunctionCall(name, line, argTypes) → ok |
(Undeclared | ArityMismatch | ArgTypeMismatch)`. -/
def SymbolTable.ValidateFunctionCall (st : SymbolTable) (name : String) (line : Nat)
    (argTypes : List SharedType) : Option String :=
  match st.findFunction name with
  | none => some ("Undeclared: line " ++ toString line ++ ": " ++ name)
  | some r =>
    if r.Parameters.length ≠ argTypes.length then
      some ("ArityMismatch: line " ++ toString line ++ ": " ++ name)
    else if argumentsMatch r.Parameters argTypes then none
    else some ("ArgTypeMismatch: line " ++ toString line ++ ": " ++ name)

/-- Modelled from the spec: `PushNewFunctionSegment()`: "save ... the `Local` and `Temp`
counters", which start again from zero for the new function. -/
def Allocator.PushNewFunctionSegment (a : Allocator) : Allocator :=
  { a with saved := ((a.counters.drop 4).take 8) :: a.saved
           counters := a.counters.take 4 ++ List.replicate 8 0 ++ a.counters.drop 12 }

/-- Modelled from the spec: `PopFunctionSegment()`: "restore the `Local` and `Temp`
counters"; an error when nothing was saved. -/
def Allocator.PopFunctionSegment (a : Allocator) : Allocator × Option String :=
  match a.saved with
  | [] => (a, some "PopFunctionSegment: no segment to restore")
  | s :: rest =>
    ({ a with saved := rest, counters := a.counters.take 4 ++ s ++ a.counters.drop 12 }, none)

/-- Append a quadruple to the list: quadruples are "append-only except for
backpatching". -/
def QuadrupleList.emit (q : QuadrupleList) (quad : Quadruple) : QuadrupleList :=
  { q with Quads := q.Quads ++ [quad] }

/-- The index the next emitted quadruple will have, `len(Quads)`. -/
def QuadrupleList.nextIndex (q : QuadrupleList) : Int := (q.Quads.length : Int)

/-- Backpatching: write `target` into the `Result` of the quadruple at `index`; nothing
changes when there is no such quadruple. -/
def QuadrupleList.patch (q : QuadrupleList) (index target : Int) : QuadrupleList :=
  if index < 0 then q
  else
    match q.Quads.get? index.toNat with
    | none => q
    | some quad =>
      { q with Quads := q.Quads.set index.toNat { quad with Result := .int target } }

/-- Modelled from the spec: `HandleProgramStart()`: "the compiler emits `(goto, ∅, ∅, ?)`
as quad 0". -/
def QuadrupleList.HandleProgramStart (q : QuadrupleList) : QuadrupleList :=
  q.emit ⟨"goto", .nil, .nil, .nil⟩

/-- Modelled from the spec: the guard of `if` and `while` (`HandleIfStatement`,
`HandleWhileCondition`): "pop the Boolean operand; emit `(gotof, cond, ∅, ?)`; push that
quad's index on `JumpStack`". -/
def QuadrupleList.handleGuard (q : QuadrupleList) : QuadrupleList × Option String :=
  match q.OperandStack, q.TypeStack with
  | cond :: operands, _ :: types =>
    ({ q with OperandStack := operands, TypeStack := types,
              Quads := q.Quads ++ [⟨"gotof", cond, .nil, .nil⟩],
              JumpStack := q.nextIndex :: q.JumpStack }, none)
  | _, _ => (q, some "StackUnderflow: guard")

/-- Modelled from the spec: `HandleIfStatement()`. -/
def QuadrupleList.HandleIfStatement (q : QuadrupleList) : QuadrupleList × Option String :=
  q.handleGuard

/-- Modelled from the spec: `HandleElse()`: "first emit `(goto, ∅, ∅, ?)` (push its
index), backpatch the `gotof` to the instruction just after the `goto`". -/
def QuadrupleList.HandleElse (q : QuadrupleList) : QuadrupleList × Option String :=
  match q.JumpStack with
  | [] => (q, some "StackUnderflow: HandleElse")
  | j :: jumps =>
    let q1 : QuadrupleList :=
      { q with Quads := q.Quads ++ [⟨"goto", .nil, .nil, .nil⟩],
               JumpStack := q.nextIndex :: jumps }
    (q1.patch j q1.nextIndex, none)

/-- Modelled from the spec: `HandleEndIf()`: "pop `JumpStack` and backpatch its `result`
to the next instruction". -/
def QuadrupleList.HandleEndIf (q : QuadrupleList) : QuadrupleList × Option String :=
  match q.JumpStack with
  | [] => (q, some "StackUnderflow: HandleEndIf")
  | j :: jumps => (({ q with JumpStack := jumps } : QuadrupleList).patch j q.nextIndex, none)

/-- Modelled from the spec: `HandleWhileStart()`: "record `start =
next-instruction-index` before compiling the guard". -/
def QuadrupleList.HandleWhileStart (q : QuadrupleList) : Int := q.nextIndex

/-- Modelled from the spec: `HandleWhileCondition()`. -/
def QuadrupleList.HandleWhileCondition (q : QuadrupleList) : QuadrupleList × Option String :=
  q.handleGuard

/-- Modelled from the spec: `HandleWhileEnd(start)`: "emit `(goto, ∅, ∅, start)`, then
backpatch the `gotof` to the next instruction". -/
def QuadrupleList.HandleWhileEnd (q : QuadrupleList) (start : Int) :
    QuadrupleList × Option String :=
  match q.JumpStack with
  | [] => (q, some "StackUnderflow: HandleWhileEnd")
  | j :: jumps =>
    let q1 : QuadrupleList :=
      { q with Quads := q.Quads ++ [⟨"goto", .nil, .nil, .int start⟩], JumpStack := jumps }
    (q1.patch j q1.nextIndex, none)

/-- Modelled from the spec: `HandleERA(fname)`: "emit `(ERA, fname, ∅, ∅)`". -/
def QuadrupleList.HandleERA (q : QuadrupleList) (name : String) :
    QuadrupleList × Option String :=
  (q.emit ⟨"ERA", .str name, .nil, .nil⟩, none)

/-- Modelled from the spec: `HandleGOSUB(fname, start_quad)`: "emit `(GOSUB, fname, ∅,
start_quad)`". -/
def QuadrupleList.HandleGOSUB (q : QuadrupleList) (name : String) (startQuad : Int) :
    QuadrupleList × Option String :=
  (q.emit ⟨"GOSUB", .str name, .nil, .int startQuad⟩, none)

/-- Modelled from the spec: `HandleENDPROC()`: "function body end emits `(ENDPROC, ∅, ∅,
∅)`". -/
def QuadrupleList.HandleENDPROC (q : QuadrupleList) : QuadrupleList × Option String :=
  (q.emit ⟨"ENDPROC", .nil, .nil, .nil⟩, none)

/-- Modelled from the spec: `HandlePrint(x)`: emit `(print, x, ∅, ∅)`, where a string
literal is first interned as a constant so that the machine can load it. -/
def QuadrupleList.HandlePrint (q : QuadrupleList) (x : Value) : QuadrupleList × Option String :=
  match x with
  | .str s =>
    match q.MemoryManager.AllocateConstant s .TypeString with
    | (a, _, some err) => ({ q with MemoryManager := a }, some err)
    | (a, addr, none) =>
      (({ q with MemoryManager := a } : QuadrupleList).emit ⟨"print", .int addr, .nil, .nil⟩, none)
  | v => (q.emit ⟨"print", v, .nil, .nil⟩, none)

/-! ## Parser: declarations, statements, functions -/

/-- The idiom `if err != nil { return err }`: when `r` returned the error `nil`, go on
with `k` on its value and parser; otherwise return its error, with the zero value of the
result type.  Nothing is returned when `r` ran out of recursion depth. -/
def andThen {α β : Type} [Inhabited β] (r : Option (Ret α))
    (k : α → Parser → Option (Ret β)) : Option (Ret β) :=
  match r with
  | none => none
  | some ⟨_, some err, p⟩ => some { val := default, err := some err, p := p }
  | some ⟨v, none, p⟩ => k v p

/-- A call of an emitter hook that returns an `error`. -/
def Parser.hook (p : Parser) (r : QuadrupleList × Option String) : Option (Ret Unit) :=
  some { val := (), err := r.2, p := p.withGenerator r.1 }

/-- A call of a symbol-table method that returns an `error`. -/
def Parser.table (p : Parser) (r : SymbolTable × Option String) : Option (Ret Unit) :=
  some { val := (), err := r.2, p := { p with symbolTable := r.1 } }

/-- The call `p.expect(...)` as a step of a method body. -/
def Parser.expecting (p : Parser) (kind : String) : Option (Ret Unit) :=
  some (p.expect kind)

/-- A method that returns `nil` at once. -/
def Parser.done (p : Parser) : Option (Ret Unit) :=
  some { val := (), err := none, p := p }

/-- A method that returns the error `err` at once. -/
def Parser.fail (p : Parser) (err : String) : Option (Ret Unit) :=
  some { val := (), err := some err, p := p }

/-- Modelled from the spec: the method `isStatementStart`: a statement starts with `if`,
`while`, `print` or an identifier (`Stmt := If | While | Print | AssignOrCall`); the spec
gives this test no error of its own. -/
def Parser.isStatementStart (p : Parser) : Bool × Option String :=
  (p.curr.Typ = "kwdIf" || p.curr.Typ = "kwdWhile" || p.curr.Typ = "kwdPrint" ||
    p.curr.Typ = "id", none)

/-- Modelled from the spec: the method `returnSemanticType`: `Type := 'int' | 'float'`. -/
def returnSemanticType (currType : String) : SharedType × Option String :=
  if currType = "int" then (.TypeInt, none)
  else if currType = "float" then (.TypeFloat, none)
  else (.TypeError, some ("ParseError: unknown type " ++ currType))

/-- Modelled from the spec: the method `addVariablesToSymbolTable`: each declared name
gets an address in the segment of its scope and type (`Global` at program scope, `Local`
inside a function) and is entered in the table of that scope; the first failure ends
it. -/
def addVariablesToSymbolTable (p : Parser) (semType : SharedType) :
    List String → Option (Ret Unit)
  | [] => p.done
  | name :: rest =>
    let scope : Nat := if p.symbolTable.current.isSome then 1 else 0
    match p.codeGenerator.MemoryManager.allocate scope semType with
    | (a, _, some err) =>
      p.hook ({ p.codeGenerator with MemoryManager := a }, some err)
    | (a, addr, none) =>
      let v : Variable := { Name := name, Typ := semType, Line := 0, Column := 0, Address := addr }
      let p1 := p.withGenerator { p.codeGenerator with MemoryManager := a }
      let added :=
        if p.symbolTable.current.isSome then p1.symbolTable.AddLocal v
        else p1.symbolTable.AddGlobal v
      match added with
      | (st, some err) => p1.table (st, some err)
      | (st, none) => addVariablesToSymbolTable { p1 with symbolTable := st } semType rest

/-- The method `parseProgramName`. -/
def parseProgramName (p : Parser) : Option (Ret Unit) :=
  andThen (p.expecting "kwdProgram") fun _ p1 =>
  andThen (p1.expecting "id") fun _ p2 =>
  p2.expecting "terminator"

/-- The method `parseType`. -/
def parseType (p : Parser) : Option (Ret String) :=
  andThen (p.expecting "type") fun _ p1 =>
  some { val := p.curr.Lit, err := none, p := p1 }

/-- The `for` loop of `parseVarList` (lines 106–112). -/
def parseVarListLoop : Nat → List String → Parser → Option (Ret (List String))
  | 0, _, _ => none
  | fuel + 1, currentVars, p =>
    if p.curr.Typ = "repeatTerminator" then
      let p1 := p.next
      andThen (p1.expecting "id") fun _ p2 =>
      parseVarListLoop fuel (currentVars ++ [p1.curr.Lit]) p2
    else some { val := currentVars, err := none, p := p }

/-- The method `parseVarList`. -/
def parseVarList (fuel : Nat) (p : Parser) : Option (Ret Unit) :=
  andThen (p.expecting "id") fun _ p1 =>
  andThen (parseVarListLoop fuel [p.curr.Lit] p1) fun currentVars p2 =>
  andThen (p2.expecting "typeAssignOp") fun _ p3 =>
  match returnSemanticType p3.curr.Lit with
  | (_, some err) => p3.fail err
  | (semType, none) =>
    andThen (addVariablesToSymbolTable p3 semType currentVars) fun _ p4 =>
    andThen (parseType p4) fun _ p5 =>
    p5.done

mutual

/-- The method `parseVarDeclarationSection`. -/
def parseVarDeclarationSection : Nat → Parser → Bool → Option (Ret Unit)
  | 0, _, _ => none
  | fuel + 1, p, isFunction =>
    if p.curr.Typ ≠ "kwdVars" then
      if p.curr.Typ ≠ "kwdFunc" ∧ p.curr.Typ ≠ "kwdBegin" ∧ isFunction = false then
        p.fail ("line " ++ toString p.curr.Line ++ ": unexpected token \x27" ++ p.curr.Lit ++
          "\x27, expected \x27var\x27, \x27func\x27, or \x27begin\x27")
      else p.done
    else varDeclarationLoop fuel p isFunction

/-- The `for` loop of `parseVarDeclarationSection` (lines 70–74). -/
def varDeclarationLoop : Nat → Parser → Bool → Option (Ret Unit)
  | 0, _, _ => none
  | fuel + 1, p, isFunction =>
    if p.curr.Typ = "kwdVars" then
      andThen (parseVarDeclaration fuel p isFunction) fun _ p1 =>
      varDeclarationLoop fuel p1 isFunction
    else p.done

/-- The method `parseVarDeclaration`. -/
def parseVarDeclaration : Nat → Parser → Bool → Option (Ret Unit)
  | 0, _, _ => none
  | fuel + 1, p, isFunction =>
    andThen (p.expecting "kwdVars") fun _ p1 =>
    andThen (parseVarList fuel p1) fun _ p2 =>
    andThen (p2.expecting "terminator") fun _ p3 =>
    parseVarDeclarationSection fuel p3 isFunction

end

/-- The method `parseParameter`. -/
def parseParameter (p : Parser) : Option (Ret String) :=
  andThen (p.expecting "id") fun _ p1 =>
  andThen (p1.expecting "typeAssignOp") fun _ p2 =>
  parseType p2

/-- The call `p.codeGenerator.MemoryManager.AllocateLocal(semType)` of
`parseParameterList`, returning the address. -/
def Parser.allocateLocal (p : Parser) (semType : SharedType) : Option (Ret Int) :=
  match p.codeGenerator.MemoryManager.AllocateLocal semType with
  | (a, addr, err) =>
    some { val := addr, err := err,
           p := p.withGenerator { p.codeGenerator with MemoryManager := a } }

/-- The `for` loop of `parseParameterList` (lines 265–289).  The error of
`parseParameter` is overwritten by the call of `returnSemanticType` on the next line. -/
def parseParameterLoop : Nat → List Variable → Parser → Option (Ret (List Variable))
  | 0, _, _ => none
  | fuel + 1, currentParams, p =>
    if p.curr.Typ = "repeatTerminator" then
      let p1 := p.next
      let currId := p1.curr
      match parseParameter p1 with
      | none => none
      | some ⟨currType, _, p2⟩ =>
        match returnSemanticType currType with
        | (_, some err) => some { val := [], err := some err, p := p2 }
        | (semType, none) =>
          andThen (p2.allocateLocal semType) fun addr p3 =>
          parseParameterLoop fuel
            (currentParams ++ [{ Name := currId.Lit, Typ := semType, Line := currId.Line,
                                 Column := currId.Column, Address := addr }]) p3
    else some { val := currentParams, err := none, p := p }

/-- The method `parseParameterList`.  For the first parameter the error of
`returnSemanticType` is overwritten by the call of `AllocateLocal`. -/
def parseParameterList (fuel : Nat) (p : Parser) : Option (Ret (List Variable)) :=
  if p.curr.Typ = "closeParan" then some { val := [], err := none, p := p }
  else
    let currId := p.curr
    andThen (parseParameter p) fun currType p1 =>
    let semType := (returnSemanticType currType).1
    andThen (p1.allocateLocal semType) fun addr p2 =>
    parseParameterLoop fuel
      [{ Name := currId.Lit, Typ := semType, Line := currId.Line, Column := currId.Column,
         Address := addr }] p2

/-- The method `parseFunctionCall`. -/
def parseFunctionCall (fuel : Nat) (p : Parser) (id : Token) : Option (Ret Unit) :=
  let functionName := id.Lit
  andThen (p.expecting "openParan") fun _ p1 =>
  andThen (p1.hook (p1.codeGenerator.HandleERA functionName)) fun _ p2 =>
  andThen (parseArgumentList fuel p2) fun arguments p3 =>
  andThen (p3.expecting "closeParan") fun _ p4 =>
  match p4.symbolTable.ValidateFunctionCall id.Lit id.Line arguments with
  | some err => p4.fail err
  | none =>
    match p4.symbolTable.GetFunctionStartQuad id.Lit with
    | (_, some err) => p4.fail err
    | (startQuad, none) => p4.hook (p4.codeGenerator.HandleGOSUB id.Lit startQuad)

/-- The method `parsePrintItem`. -/
def parsePrintItem (fuel : Nat) (p : Parser) : Option (Ret Unit) :=
  if p.curr.Typ = "stringLit" then
    andThen (p.hook (p.codeGenerator.HandlePrint (.str p.curr.Lit))) fun _ p1 =>
    p1.next.done
  else
    andThen (parseExpression fuel p) fun _ p1 =>
    match p1.codeGenerator.OperandStack with
    | [] => p1.fail "missing expression result for print statement"
    | result :: operands =>
      let q : QuadrupleList :=
        { p1.codeGenerator with OperandStack := operands,
                                TypeStack := p1.codeGenerator.TypeStack.drop 1 }
      andThen (p1.hook (q.HandlePrint result)) fun _ p2 =>
      p2.done

/-- The `for` loop of `parsePrintList` (lines 612–617). -/
def parsePrintListLoop : Nat → Parser → Option (Ret Unit)
  | 0, _ => none
  | fuel + 1, p =>
    if p.curr.Typ = "repeatTerminator" then
      andThen (parsePrintItem fuel p.next) fun _ p1 =>
      parsePrintListLoop fuel p1
    else p.done

/-- The method `parsePrintList`. -/
def parsePrintList (fuel : Nat) (p : Parser) : Option (Ret Unit) :=
  andThen (parsePrintItem fuel p) fun _ p1 =>
  parsePrintListLoop fuel p1

/-- The method `parsePrintStatement`. -/
def parsePrintStatement (fuel : Nat) (p : Parser) : Option (Ret Unit) :=
  andThen (p.expecting "kwdPrint") fun _ p1 =>
  andThen (p1.expecting "openParan") fun _ p2 =>
  andThen (parsePrintList fuel p2) fun _ p3 =>
  p3.expecting "closeParan"

mutual

/-- The method `parseBlock`. -/
def parseBlock : Nat → Parser → Option (Ret Unit)
  | 0, _ => none
  | fuel + 1, p =>
    andThen (p.expecting "openBrace") fun _ p1 =>
    andThen (parseStatementList fuel p1) fun _ p2 =>
    p2.expecting "closeBrace"

/-- The method `parseStatementList`: one pass through its `for` loop, then the loop
again. -/
def parseStatementList : Nat → Parser → Option (Ret Unit)
  | 0, _ => none
  | fuel + 1, p =>
    match p.isStatementStart with
    | (_, some err) => p.fail err
    | (false, none) => p.done
    | (true, none) =>
      andThen (parseStatement fuel p) fun _ p1 =>
      parseStatementList fuel p1

/-- The method `parseStatement`. -/
def parseStatement : Nat → Parser → Option (Ret Unit)
  | 0, _ => none
  | fuel + 1, p =>
    match p.isStatementStart with
    | (false, _) => p.done
    | (true, some err) => p.fail err
    | (true, none) =>
      if p.curr.Typ = "kwdIf" then parseIfStatement fuel p
      else if p.curr.Typ = "kwdWhile" then parseWhileStatement fuel p
      else if p.curr.Typ = "kwdPrint" then parsePrintStatement fuel p
      else if p.curr.Typ = "id" then
        let idToken := p.curr
        let p1 := p.next
        let nextToken := p1.curr
        if nextToken.Typ = "openParan" then parseFunctionCall fuel p1 idToken
        else if nextToken.Typ = "assignOp" then
          match p1.symbolTable.ValidateVarAssignment idToken.Lit idToken.Line with
          | some err => p1.fail err
          | none => parseAssignment fuel p1 idToken nextToken
        else
          p1.fail ("Expected either = or (, got " ++ nextToken.Typ ++ " at line " ++
            toString nextToken.Line ++ ", column " ++ toString nextToken.Column)
      else p.done

/-- The method `parseWhileStatement`. -/
def parseWhileStatement : Nat → Parser → Option (Ret Unit)
  | 0, _ => none
  | fuel + 1, p =>
    andThen (p.expecting "kwdWhile") fun _ p1 =>
    let startIndex := p1.codeGenerator.HandleWhileStart
    andThen (p1.expecting "openParan") fun _ p2 =>
    andThen (parseExpression fuel p2) fun _ p3 =>
    andThen (p3.hook p3.codeGenerator.HandleWhileCondition) fun _ p4 =>
    andThen (p4.expecting "closeParan") fun _ p5 =>
    andThen (parseBlock fuel p5) fun _ p6 =>
    p6.hook (p6.codeGenerator.HandleWhileEnd startIndex)

/-- The method `parseIfStatement`. -/
def parseIfStatement : Nat → Parser → Option (Ret Unit)
  | 0, _ => none
  | fuel + 1, p =>
    andThen (p.expecting "kwdIf") fun _ p1 =>
    andThen (p1.expecting "openParan") fun _ p2 =>
    andThen (parseExpression fuel p2) fun _ p3 =>
    andThen (p3.expecting "closeParan") fun _ p4 =>
    andThen (p4.hook p4.codeGenerator.HandleIfStatement) fun _ p5 =>
    andThen (parseBlock fuel p5) fun _ p6 =>
    if p6.curr.Typ = "kwdElse" then
      let p7 := p6.next
      andThen (p7.hook p7.codeGenerator.HandleElse) fun _ p8 =>
      andThen (parseBlock fuel p8) fun _ p9 =>
      p9.hook p9.codeGenerator.HandleEndIf
    else p6.hook p6.codeGenerator.HandleEndIf

end

/-- The method `parseFunctionBlock`. -/
def parseFunctionBlock (fuel : Nat) (p : Parser) : Option (Ret Unit) :=
  andThen (p.expecting "openBrace") fun _ p1 =>
  andThen (parseVarDeclarationSection fuel p1 true) fun _ p2 =>
  andThen (parseStatementList fuel p2) fun _ p3 =>
  p3.expecting "closeBrace"

/-- The call `p.codeGenerator.MemoryManager.PushNewFunctionSegment()`. -/
def Parser.pushSegment (p : Parser) : Parser :=
  p.withGenerator
    { p.codeGenerator with
      MemoryManager := p.codeGenerator.MemoryManager.PushNewFunctionSegment }

/-- The call `p.codeGenerator.MemoryManager.PopFunctionSegment()`. -/
def Parser.popSegment (p : Parser) : Option (Ret Unit) :=
  match p.codeGenerator.MemoryManager.PopFunctionSegment with
  | (a, err) => p.hook ({ p.codeGenerator with MemoryManager := a }, err)

mutual

/-- The method `parseFunctionList`. -/
def parseFunctionList : Nat → Parser → Option (Ret Unit)
  | 0, _ => none
  | fuel + 1, p =>
    if p.curr.Typ = "kwdFunc" then
      andThen (parseFunction fuel p) fun _ p1 =>
      parseFunctionList fuel p1
    else p.done

/-- The method `parseFunction`. -/
def parseFunction : Nat → Parser → Option (Ret Unit)
  | 0, _ => none
  | fuel + 1, p =>
    andThen (p.expecting "kwdFunc") fun _ p1 =>
    let functionId := p1.curr.Lit
    andThen (p1.expecting "id") fun _ p2 =>
    andThen (p2.expecting "openParan") fun _ p3 =>
    andThen (parseParameterList fuel p3.pushSegment) fun params p4 =>
    andThen (p4.table
      (p4.symbolTable.AddFunction functionId params p4.curr.Line p4.curr.Column)) fun _ p5 =>
    andThen (p5.table (p5.symbolTable.EnterFunctionScope functionId)) fun _ p6 =>
    andThen (p6.expecting "closeParan") fun _ p7 =>
    let functionStartQuad := p7.codeGenerator.nextIndex
    andThen (p7.table
      (p7.symbolTable.UpdateFunctionStartQuad functionId functionStartQuad)) fun _ p8 =>
    andThen (parseFunctionBlock fuel p8) fun _ p9 =>
    andThen (p9.hook p9.codeGenerator.HandleENDPROC) fun _ p10 =>
    andThen p10.popSegment fun _ p11 =>
    andThen (p11.expecting "terminator") fun _ p12 =>
    parseFunctionList fuel { p12 with symbolTable := p12.symbolTable.ExitFunctionScope }

end

/-- The method `parseFunctionListOpt`; its second test repeats the first and is never
reached. -/
def parseFunctionListOpt (fuel : Nat) (p : Parser) : Option (Ret Unit) :=
  if p.curr.Typ ≠ "kwdFunc" then p.done
  else parseFunctionList fuel p

/-- The assignment `p.codeGenerator.Quads[0].Result = mainQuadIndex` of
`parseMainSection`; on an empty list Go panics with an index out of range, which is
reported here as an error. -/
def Parser.patchEntry (p : Parser) : Option (Ret Unit) :=
  match p.codeGenerator.Quads with
  | [] => p.fail "panic: runtime error: index out of range [0] with length 0"
  | first :: rest =>
    (p.withGenerator
      { p.codeGenerator with
        Quads := { first with Result := .int p.codeGenerator.nextIndex } :: rest }).done

/-- The method `parseMainSection`. -/
def parseMainSection (fuel : Nat) (p : Parser) : Option (Ret Unit) :=
  andThen (p.expecting "kwdBegin") fun _ p1 =>
  andThen p1.patchEntry fun _ p2 =>
  andThen (parseStatementList fuel p2) fun _ p3 =>
  p3.expecting "kwdEnd"

/-- The method `ParseProgram`.  The calls of `Print` and `PrintStacks` at its end write
the quadruples and the stacks to standard output and change nothing. -/
def ParseProgram (fuel : Nat) (p : Parser) : Option (Ret Unit) :=
  let p0 := p.withGenerator p.codeGenerator.HandleProgramStart
  andThen (parseProgramName p0) fun _ p1 =>
  andThen (parseVarDeclarationSection fuel p1 false) fun _ p2 =>
  andThen (parseFunctionListOpt fuel p2) fun _ p3 =>
  andThen (parseMainSection fuel p3) fun _ p4 =>
  p4.done

/-! ## Well-formed input of the expression parser -/

/-- Modelled from the spec: what the lexer guarantees about the operator tokens of the
grammar of §6: a `termOp` is `*` or `/`, an `expressionOp` is `+` or `-`, and a `relOp`
is one of `<`, `>`, `==`, `!=`. -/
def wellFormedToken (t : Token) : Bool :=
  (t.Typ != "termOp" || t.Lit == "*" || t.Lit == "/") &&
  (t.Typ != "expressionOp" || t.Lit == "+" || t.Lit == "-") &&
  (t.Typ != "relOp" || t.Lit == "<" || t.Lit == ">" || t.Lit == "==" || t.Lit == "!=")

/-- Every token the parser has yet to read, the current one included, is well formed. -/
def Parser.wellFormed (p : Parser) : Bool :=
  (p.curr :: p.lexer).all wellFormedToken

/-- Whether a type is `Int` or `Float`. -/
def isNumeric (t : SharedType) : Bool :=
  t == .TypeInt || t == .TypeFloat

/-- Every variable of the table, global, parameter or local, is an `Int` or a `Float`:
the grammar of §6 has no other declared type. -/
def SymbolTable.numeric (st : SymbolTable) : Bool :=
  st.globals.all (fun v => isNumeric v.Typ) &&
  st.functions.all (fun r => (r.Parameters ++ r.Locals).all (fun v => isNumeric v.Typ))

/-- The type a parsing method returns for an expression whose type on `TypeStack` is
`top`: the same type for `Int` and `Float`, and `Int` where the stack holds `Bool`. -/
def returnedFor (top : SharedType) : SharedType :=
  if top = .TypeBool then .TypeInt else top

/-- What an accepted expression leaves behind, for the symbol table `st`, the operator
stack `ops` and the type stack `ts` it started from: the table and the operator stack
are as before, the input left is well formed, and one type `top`, `Int`, `Float` or
`Bool`, has been pushed, for which the method returned `returnedFor top`. -/
def Typed (st : SymbolTable) (ops : List String) (ts : List SharedType)
    (val : SharedType) (p : Parser) : Prop :=
  p.symbolTable = st ∧ p.wellFormed = true ∧ p.codeGenerator.OperatorStack = ops ∧
  ∃ top, p.codeGenerator.TypeStack = top :: ts ∧
    (top = .TypeInt ∨ top = .TypeFloat ∨ top = .TypeBool) ∧ val = returnedFor top

/-! ## What the parser keeps -/

/-- The state of the emitter in which quad 0 is safe from backpatching: there is a quad 0
and every index waiting on `JumpStack` is at least 1. -/
def Good (q : QuadrupleList) : Prop :=
  1 ≤ q.Quads.length ∧ ∀ j ∈ q.JumpStack, (1 : Int) ≤ j

/-- From a good emitter `q` to `q1`: `q1` is good, quad 0 is the same and no quadruple
has been taken away. -/
def Keeps (q q1 : QuadrupleList) : Prop :=
  Good q → Good q1 ∧ q1.Quads.head? = q.Quads.head? ∧ q.Quads.length ≤ q1.Quads.length

/-- The two tables record the same start quad for every function name. -/
def SameStarts (st st1 : SymbolTable) : Prop :=
  ∀ name, st1.GetFunctionStartQuad name = st.GetFunctionStartQuad name

/-- From parser `p` to `p1` nothing was emitted or patched and no start quad changed. -/
def Quiet (p p1 : Parser) : Prop :=
  SameStarts p.symbolTable p1.symbolTable ∧
  p1.codeGenerator.Quads = p.codeGenerator.Quads ∧
  p1.codeGenerator.JumpStack = p.codeGenerator.JumpStack

/-- From parser `p` to `p1` no start quad changed and the emitter was kept. -/
def Rel (p p1 : Parser) : Prop :=
  SameStarts p.symbolTable p1.symbolTable ∧ Keeps p.codeGenerator p1.codeGenerator

/-- From parser `p` to `p1` the emitter was kept. -/
def KeepsP (p p1 : Parser) : Prop :=
  Keeps p.codeGenerator p1.codeGenerator

/-- Whatever the call `r`, made on parser `p`, returns, its parser is related to `p`. -/
def Holds {α : Type} (R : Parser → Parser → Prop) (p : Parser) (r : Option (Ret α)) : Prop :=
  ∀ x, r = some x → R p x.p

/-! ## Jump targets -/

/-- Whether every `goto` and `gotof` of the list has an `int` result between 0 and
`bound`. -/
def jumpsWithin (bound : Int) (quads : List Quadruple) : Bool :=
  quads.all fun q =>
    if q.Operator = "goto" ∨ q.Operator = "gotof" then
      match q.Result with
      | .int r => decide (0 ≤ r ∧ r ≤ bound)
      | _ => false
    else true

/-! ## Function segments and scopes -/

/-- The stack of saved counters of the memory manager of an emitter: one entry for each
`PushNewFunctionSegment` not yet matched by a `PopFunctionSegment`. -/
def QuadrupleList.segments (q : QuadrupleList) : List (List Nat) :=
  q.MemoryManager.saved

/-- From emitter `q` to `q1` the stack of saved segments is the same. -/
def KeepsS (q q1 : QuadrupleList) : Prop :=
  q1.segments = q.segments

/-- From parser `p` to `p1` the scope that is open and the stack of saved segments are
the same. -/
def Level (p p1 : Parser) : Prop :=
  p1.symbolTable.current = p.symbolTable.current ∧ KeepsS p.codeGenerator p1.codeGenerator

/-! ## The run of `parseFunction` -/

/-- The steps of a call of `parseFunction` on `p` that returns `nil` with parser `pf`, in
the order of the method, each with the parser it leaves: `func`, the name and `(` are
matched; the segment is pushed and the parameters are parsed, to `p4`; `AddFunction`
leaves `p5` and `EnterFunctionScope` leaves `p6`; `)` is matched; `UpdateFunctionStartQuad`
with `len(Quads)` leaves `p8`; the body is parsed, to `p9`; `HandleENDPROC` leaves `p10`;
`PopFunctionSegment` leaves `p11`; `;` is matched, the scope is left, and
`parseFunctionList` parses the functions that follow, to `pf`. -/
def FunctionRun (n : Nat) (p : Parser) (params : List Variable)
    (p4 p5 p6 p8 p9 p10 p11 pf : Parser) : Prop :=
  p.curr.Typ = "kwdFunc" ∧ p.next.curr.Typ = "id" ∧ p.next.next.curr.Typ = "openParan" ∧
  parseParameterList n p.next.next.next.pushSegment =
    some { val := params, err := none, p := p4 } ∧
  p4.table (p4.symbolTable.AddFunction p.next.curr.Lit params p4.curr.Line p4.curr.Column) =
    some { val := (), err := none, p := p5 } ∧
  p5.table (p5.symbolTable.EnterFunctionScope p.next.curr.Lit) =
    some { val := (), err := none, p := p6 } ∧
  p6.curr.Typ = "closeParan" ∧
  p6.next.table (p6.next.symbolTable.UpdateFunctionStartQuad p.next.curr.Lit
      p6.next.codeGenerator.nextIndex) = some { val := (), err := none, p := p8 } ∧
  parseFunctionBlock n p8 = some { val := (), err := none, p := p9 } ∧
  p9.hook p9.codeGenerator.HandleENDPROC = some { val := (), err := none, p := p10 } ∧
  p10.popSegment = some { val := (), err := none, p := p11 } ∧
  p11.curr.Typ = "terminator" ∧
  parseFunctionList n { p11.next with symbolTable := p11.next.symbolTable.ExitFunctionScope } =
    some { val := (), err := none, p := pf }

/-- Successive calls of `AllocateLocal`, one for each type of the list, starting on the
memory manager `a`: the addresses returned, in order, and the manager after the last
call; nothing when a call returns an error. -/
def allocateLocals : Allocator → List SharedType → Option (List Int × Allocator)
  | a, [] => some ([], a)
  | a, t :: ts =>
    match a.AllocateLocal t with
    | (a1, addr, none) => (allocateLocals a1 ts).map (fun r => (addr :: r.1, r.2))
    | (_, _, some _) => none

/-! ## Calls and start quads -/

/-- Whether an operand is an address. -/
def isAddress : Value → Bool
  | .int _ => true
  | _ => false

/-- From parser `p` to `p1` nothing was emitted or patched, no start quad changed, and
the jump stack and the operand stack are the same. -/
def Calm (p p1 : Parser) : Prop :=
  SameStarts p.symbolTable p1.symbolTable ∧
  p1.codeGenerator.Quads = p.codeGenerator.Quads ∧
  p1.codeGenerator.JumpStack = p.codeGenerator.JumpStack ∧
  p1.codeGenerator.OperandStack = p.codeGenerator.OperandStack

/-- The quadruple is not a call of `f`, or it is one with result `s`. -/
def CallAgrees (f : String) (s : Int) (quad : Quadruple) : Prop :=
  quad.Operator = "GOSUB" → quad.LeftOp = .str f → quad.Result = .int s

/-- The state of an emitter in which the calls of `f` from index `m` on agree with the
start quad `s`: the list has at least `m` quadruples; every quadruple at an index from
`m` on that is `(GOSUB, f, _, r)` has `r = s`; every index waiting on `JumpStack` is the
index of a quadruple, and from `m` on of one that is not a `GOSUB`; every operand on
`OperandStack` is an address. -/
def CallsFrom (m : Nat) (f : String) (s : Int) (q : QuadrupleList) : Prop :=
  m ≤ q.Quads.length ∧
  (∀ (i : Nat) (quad : Quadruple), m ≤ i → q.Quads.get? i = some quad → CallAgrees f s quad) ∧
  (∀ j ∈ q.JumpStack, j < (q.Quads.length : Int) ∧
    ∀ quad, (m : Int) ≤ j → q.Quads.get? j.toNat = some quad → quad.Operator ≠ "GOSUB") ∧
  (∀ v ∈ q.OperandStack, isAddress v = true)

/-- From parser `p` to `p1`: when the table of `p` records the start quad `s` for `f` and
the emitter of `p` is in the state `CallsFrom m f s`, the same holds of `p1`. -/
def Calls (m : Nat) (f : String) (s : Int) (p p1 : Parser) : Prop :=
  (p.symbolTable.GetFunctionStartQuad f = (s, none) ∧ CallsFrom m f s p.codeGenerator) →
  (p1.symbolTable.GetFunctionStartQuad f = (s, none) ∧ CallsFrom m f s p1.codeGenerator)

/-! ## Concrete programs and inputs -/

/-- The quadruples of `program p; func f() { print(1); }; begin print(2); end`: the entry
`goto` patched to the main section at index 3, the body of `f` at indices 1 and 2. -/
def entryProgram : List Quadruple :=
  [ ⟨"goto", .nil, .nil, .int 3⟩,
    ⟨"print", .int 13000, .nil, .nil⟩,
    ⟨"ENDPROC", .nil, .nil, .nil⟩,
    ⟨"print", .int 13001, .nil, .nil⟩ ]

/-- The constants `1` and `2` of `entryProgram`, interned in the Constant `Int` segment. -/
def entryMemory : Cells := [(13000, .int 1), (13001, .int 2)]

/-- A list with a `goto` to index 3 at index 1, followed by three `print`s. -/
def gotoProgram : List Quadruple :=
  [ ⟨"goto", .nil, .nil, .int 1⟩,
    ⟨"goto", .nil, .nil, .int 3⟩,
    ⟨"print", .int 13000, .nil, .nil⟩,
    ⟨"print", .int 13001, .nil, .nil⟩,
    ⟨"print", .int 13000, .nil, .nil⟩ ]

/-- A `gotof` at index 1 whose condition cell holds `0`, with result 3. -/
def gotofProgram : List Quadruple :=
  [ ⟨"goto", .nil, .nil, .int 1⟩,
    ⟨"gotof", .int 12000, .nil, .int 3⟩,
    ⟨"print", .int 13000, .nil, .nil⟩,
    ⟨"print", .int 13001, .nil, .nil⟩ ]

/-- The memory of `gotofProgram`: the condition in the Temp `Bool` segment is `0`. -/
def gotofMemory : Cells := [(12000, .int 0), (13000, .int 1), (13001, .int 2)]

/-- The constants of `a = 1 + 2.5`: `1` in the Constant `Int` segment and `2.5` in the
Constant `Float` segment. -/
def mixedMemory : Cells :=
  [(13000, .int 1), (14000, .float (Float64.finite false 5629499534213120 (-51)))]

/-- The quadruples of `program p; var a : float; begin a = 1 + 2.5; print(a); end`. -/
def mixedProgram : List Quadruple :=
  [ ⟨"goto", .nil, .nil, .int 1⟩,
    ⟨"+", .int 13000, .int 14000, .int 10000⟩,
    ⟨"=", .int 10000, .nil, .int 2000⟩,
    ⟨"print", .int 2000, .nil, .nil⟩ ]

/-- The memory of `x / 0` with the `Float` 2.5 in `x`. -/
def divisionMemory : Cells :=
  [(2000, .float (Float64.finite false 5629499534213120 (-51))), (13000, .int 0)]

/-- A `print` followed by the sum of an `Int` and a `Float`, which the handler rejects. -/
def errorProgram : List Quadruple :=
  [ ⟨"goto", .nil, .nil, .int 1⟩,
    ⟨"print", .int 13000, .nil, .nil⟩,
    ⟨"+", .int 13000, .int 14000, .int 10000⟩,
    ⟨"print", .int 13000, .nil, .nil⟩ ]

/-- The quadruples of the third end-to-end scenario,
`program p; var x:int; begin x=1; if (x<2) { print("lt"); } else { print("ge"); } end`. -/
def ifProgram : List Quadruple :=
  [ ⟨"goto", .nil, .nil, .int 1⟩,
    ⟨"=", .int 13000, .nil, .int 1000⟩,
    ⟨"<", .int 1000, .int 13001, .int 12000⟩,
    ⟨"gotof", .int 12000, .nil, .int 6⟩,
    ⟨"print", .int 15000, .nil, .nil⟩,
    ⟨"goto", .nil, .nil, .int 7⟩,
    ⟨"print", .int 15001, .nil, .nil⟩ ]

/-- The constants of `ifProgram`: `1`, `2` and the two string literals, quotes included. -/
def ifMemory : Cells :=
  [(13000, .int 1), (13001, .int 2), (15000, .str "\"lt\""), (15001, .str "\"ge\"")]

/-- The quadruples of `program p; func f() { print(1); }; begin f(); print(2); end`:
the body of `f` at indices 1 and 2, the call at indices 3 and 4. -/
def callProgram : List Quadruple :=
  [ ⟨"goto", .nil, .nil, .int 3⟩,
    ⟨"print", .int 13000, .nil, .nil⟩,
    ⟨"ENDPROC", .nil, .nil, .nil⟩,
    ⟨"ERA", .str "f", .nil, .nil⟩,
    ⟨"GOSUB", .str "f", .nil, .int 1⟩,
    ⟨"print", .int 13001, .nil, .nil⟩ ]

/-- A token on line 1; the positions play no part below. -/
def tk (typ lit : String) : Token := { Typ := typ, Lit := lit, Line := 1, Column := 1 }

/-- The tokens of the argument list of the call `f(1, 2.5);`, from the first argument on. -/
def twoArguments : List Token :=
  [tk "intLit" "1", tk "repeatTerminator" ",", tk "floatLit" "2.5", tk "closeParan" ")",
   tk "terminator" ";"]

/-- The tokens of the argument list of the call `f(1);`, from the argument on. -/
def oneArgument : List Token :=
  [tk "intLit" "1", tk "closeParan" ")", tk "terminator" ";"]

/-- The tokens of the statement `x = 1 + ;` after the identifier, followed by `end`. -/
def brokenAssignment : List Token :=
  [tk "assignOp" "=", tk "intLit" "1", tk "expressionOp" "+", tk "terminator" ";",
   tk "kwdEnd" "end"]

/-- The parser standing on the `=` of `x = 1 + ;`, with `x` declared as a global `int` at
address 1000, as `parseStatement` hands it to `parseAssignment`. -/
def brokenAssignmentParser : Parser :=
  { NewParser brokenAssignment with
    symbolTable := { NewSymbolTable with globals := [⟨"x", .TypeInt, 1, 1, 1000⟩] } }

/-- The tokens of a source text, each given by its kind and its literal. -/
def lexed (source : List (String × String)) : List Token :=
  source.map (fun t => tk t.1 t.2)

/-- The tokens of `program p; var x : int; begin x = 1 + ; end`. -/
def danglingOperatorProgram : List Token :=
  lexed [("kwdProgram", "program"), ("id", "p"), ("terminator", ";"),
    ("kwdVars", "var"), ("id", "x"), ("typeAssignOp", ":"), ("type", "int"),
    ("terminator", ";"),
    ("kwdBegin", "begin"),
    ("id", "x"), ("assignOp", "="), ("intLit", "1"), ("expressionOp", "+"),
    ("terminator", ";"),
    ("kwdEnd", "end")]

/-- The tokens of the statement `y = 1;` followed by `end`; `y` is not declared. -/
def undeclaredAssignment : List Token :=
  lexed [("id", "y"), ("assignOp", "="), ("intLit", "1"), ("terminator", ";"),
    ("kwdEnd", "end")]

/-- The tokens of the expression `1 + 2 * ;`: the right operand of `*` is missing. -/
def missingFactor : List Token :=
  lexed [("intLit", "1"), ("expressionOp", "+"), ("intLit", "2"), ("termOp", "*"),
    ("terminator", ";")]

/-- The tokens of the expression `8 / 4 / 2` followed by `;`. -/
def divisionChain : List Token :=
  lexed [("intLit", "8"), ("termOp", "/"), ("intLit", "4"), ("termOp", "/"),
    ("intLit", "2"), ("terminator", ";")]

/-- The parser that `parseTerm` leaves on `8 / 4 / 2`. -/
def divisionChainParsed : Parser :=
  ((parseTerm 4 (NewParser divisionChain)).map (fun r => r.p)).getD (NewParser divisionChain)

/-- The tokens of `program p; var x : int; begin x = 8 / 4 / 2; end`. -/
def divisionChainProgram : List Token :=
  lexed [("kwdProgram", "program"), ("id", "p"), ("terminator", ";"),
    ("kwdVars", "var"), ("id", "x"), ("typeAssignOp", ":"), ("type", "int"),
    ("terminator", ";"),
    ("kwdBegin", "begin"),
    ("id", "x"), ("assignOp", "="), ("intLit", "8"), ("termOp", "/"), ("intLit", "4"),
    ("termOp", "/"), ("intLit", "2"), ("terminator", ";"),
    ("kwdEnd", "end")]

/-- The constants `8`, `4`, `2` at the addresses at which they are interned. -/
def divisionChainMemory : Cells := [(13000, .int 8), (13001, .int 4), (13002, .int 2)]

/-- The tokens of the expression `2 + 3 * 4` followed by `;`. -/
def sumOfProduct : List Token :=
  lexed [("intLit", "2"), ("expressionOp", "+"), ("intLit", "3"), ("termOp", "*"),
    ("intLit", "4"), ("terminator", ";")]

/-- The parser that `parseExp` leaves on `2 + 3 * 4`. -/
def sumOfProductParsed : Parser :=
  ((parseExp 5 (NewParser sumOfProduct)).map (fun r => r.p)).getD (NewParser sumOfProduct)

/-- The tokens of `program p; var x : int; begin x = 2 + 3 * 4; end`. -/
def sumOfProductProgram : List Token :=
  lexed [("kwdProgram", "program"), ("id", "p"), ("terminator", ";"),
    ("kwdVars", "var"), ("id", "x"), ("typeAssignOp", ":"), ("type", "int"),
    ("terminator", ";"),
    ("kwdBegin", "begin"),
    ("id", "x"), ("assignOp", "="), ("intLit", "2"), ("expressionOp", "+"), ("intLit", "3"),
    ("termOp", "*"), ("intLit", "4"), ("terminator", ";"),
    ("kwdEnd", "end")]

/-- The constants `2`, `3`, `4` at the addresses at which they are interned. -/
def sumOfProductMemory : Cells := [(13000, .int 2), (13001, .int 3), (13002, .int 4)]

/-- The quadruples that `ParseProgram` emits for a token list, none if it fails. -/
def compiled (fuel : Nat) (tokens : List Token) : List Quadruple :=
  match ParseProgram fuel (NewParser tokens) with
  | some ⟨_, none, p⟩ => p.codeGenerator.Quads
  | _ => []

/-- The tokens of the expression `1 < 2` followed by `;`. -/
def comparison : List Token :=
  lexed [("intLit", "1"), ("relOp", "<"), ("intLit", "2"), ("terminator", ";")]

/-- The tokens of the expression `x + 2.5` followed by `;`. -/
def mixedSum : List Token :=
  lexed [("id", "x"), ("expressionOp", "+"), ("floatLit", "2.5"), ("terminator", ";")]

/-- The parser standing on the first token of `x + 2.5 ;`, with `x` declared as a global
`int` at address 1000. -/
def mixedSumParser : Parser :=
  { NewParser mixedSum with
    symbolTable := { NewSymbolTable with globals := [⟨"x", .TypeInt, 1, 1, 1000⟩] } }

/-- What `parseExpression` returns on `1 < 2`. -/
def comparisonParsed : Ret SharedType :=
  (parseExpression 10 (NewParser comparison)).getD ⟨.TypeError, none, NewParser []⟩

/-- What `parseExpression` returns on `x + 2.5`, `x` a global `int`. -/
def mixedSumParsed : Ret SharedType :=
  (parseExpression 10 mixedSumParser).getD ⟨.TypeError, none, NewParser []⟩

/-- The tokens of `program p; func f() { f() }; begin print(1) end`: the function `f`
calls itself. -/
def selfCallProgram : List Token :=
  lexed [("kwdProgram", "program"), ("id", "p"), ("terminator", ";"),
    ("kwdFunc", "func"), ("id", "f"), ("openParan", "("), ("closeParan", ")"),
    ("openBrace", "\x7b"), ("id", "f"), ("openParan", "("), ("closeParan", ")"),
    ("closeBrace", "\x7d"), ("terminator", ";"),
    ("kwdBegin", "begin"),
    ("kwdPrint", "print"), ("openParan", "("), ("intLit", "1"), ("closeParan", ")"),
    ("kwdEnd", "end")]

/-- The parser standing on `func` in `func f() { f() }; begin`, on an emitter that holds
two quadruples already: the entry `goto` and the `ENDPROC` of an earlier function. -/
def selfCallFunction : Parser :=
  (NewParser (selfCallProgram.drop 3)).withGenerator
    NewQuadrupleList.HandleProgramStart.HandleENDPROC.1

/-- The quadruple `(+, 3000, 1000, 9000)`: its left operand is a cell of the Global
`String` segment. -/
def stringSum : Quadruple := ⟨"+", .int 3000, .int 1000, .int 9000⟩

/-- A memory in which address 3000 holds the string `hi` and address 1000 the `Int` 1. -/
def stringMemory : Cells := [(3000, .str "hi"), (1000, .int 1)]

/-- A memory manager that loads from its cells and records every call of `Store`, with
the address and the value passed, accepting each. -/
def recordingMemory : MemoryManager (Cells × List (Int × Value)) :=
  { Load := fun m addr => specLoad m.1 addr
    Store := fun m addr value => ((m.1, m.2 ++ [(addr, value)]), none) }

/-- The quadruples `[goto 2, gotof 0, goto 0]`, whose `gotof` reads address 1000: every
jump target lies between 0 and the length of the list. -/
def jumpLoop : List Quadruple :=
  [⟨"goto", .nil, .nil, .int 2⟩, ⟨"gotof", .int 1000, .nil, .int 0⟩, ⟨"goto", .nil, .nil, .int 0⟩]

/-- The memory in which the condition of the `gotof` of `jumpLoop` is false. -/
def jumpLoopMemory : Cells := [(1000, .int 0)]

/-- The machine on `jumpLoop` after the `gotof` at index 1 has jumped: the pointer is 0. -/
def jumpLoopAfterOne : VirtualMachine Cells :=
  { quads := jumpLoop, memoryManager := jumpLoopMemory, instructionPointer := 0,
    returnPointer := -1, stdout := [] }

/-- The parser standing on `func` in `func g(n : int, m : float) { print(n) }; begin`, in
the global scope, after the entry `goto` has been emitted. -/
def twoParameterFunction : Parser :=
  (NewParser (lexed [("kwdFunc", "func"), ("id", "g"), ("openParan", "("), ("id", "n"),
      ("typeAssignOp", ":"), ("type", "int"), ("repeatTerminator", ","), ("id", "m"),
      ("typeAssignOp", ":"), ("type", "float"), ("closeParan", ")"),
      ("openBrace", "\x7b"), ("kwdPrint", "print"), ("openParan", "("), ("id", "n"),
      ("closeParan", ")"), ("closeBrace", "\x7d"), ("terminator", ";"),
      ("kwdBegin", "begin")])).withGenerator NewQuadrupleList.HandleProgramStart

/-! # Theorems -/

/-! ## Arithmetic of the instruction pointer -/

theorem wrap64_of_inInt64 {i : Int} (h : inInt64 i) : wrap64 i = i := by
  unfold inInt64 at h
  unfold wrap64
  omega

theorem wrap64_pred_succ {r : Int} (h : inInt64 r) : wrap64 (wrap64 (r - 1) + 1) = r := by
  unfold inInt64 at h
  unfold wrap64
  omega

theorem fetch_some_bounds {M : Type} {vm : VirtualMachine M} {quad : Quadruple}
    (h : fetch vm = some quad) :
    0 ≤ vm.instructionPointer ∧ vm.instructionPointer < (vm.quads.length : Int) := by
  unfold fetch at h
  by_cases hneg : vm.instructionPointer < 0
  · simp [hneg] at h
  · simp only [hneg, if_false] at h
    have hlt : vm.instructionPointer.toNat < vm.quads.length := by
      rcases Nat.lt_or_ge vm.instructionPointer.toNat vm.quads.length with hl | hl
      · exact hl
      · rw [List.get?_eq_none.mpr hl] at h
        cases h
    omega

theorem running_of_fetch {M : Type} {vm : VirtualMachine M} {quad : Quadruple}
    (h : fetch vm = some quad) : running vm = true := by
  have hb := fetch_some_bounds h
  simp [running, hb.2]

/-! ## The loop of `Execute` -/

theorem Execute_of_not_running {M : Type} (mm : MemoryManager M) (fuel : Nat)
    (vm : VirtualMachine M) (h : running vm = false) :
    Execute mm fuel vm = some (.ok vm) := by
  cases fuel <;> simp [Execute, h]

theorem Execute_succ_ok {M : Type} (mm : MemoryManager M) (fuel : Nat)
    (vm vm1 : VirtualMachine M) (hrun : running vm = true) (hit : iteration mm vm = .ok vm1) :
    Execute mm (fuel + 1) vm = Execute mm fuel vm1 := by
  simp [Execute, hrun, hit]

theorem fetch_of_iteration_ok {M : Type} (mm : MemoryManager M)
    (vm vm1 : VirtualMachine M) (hit : iteration mm vm = .ok vm1) :
    ∃ quad, fetch vm = some quad := by
  unfold iteration at hit
  cases hf : fetch vm with
  | none => rw [hf] at hit; cases hit
  | some quad => exact ⟨quad, rfl⟩

theorem dispatched_succ_ok {M : Type} (mm : MemoryManager M) (n : Nat)
    (vm vm1 : VirtualMachine M) (hrun : running vm = true) (hit : iteration mm vm = .ok vm1) :
    dispatched mm (n + 1) vm = vm.instructionPointer :: dispatched mm n vm1 := by
  obtain ⟨quad, hf⟩ := fetch_of_iteration_ok mm vm vm1 hit
  simp [dispatched, hrun, hit, hf]

theorem fetch_eq_none_of_out_of_range {M : Type} (vm : VirtualMachine M)
    (h : ¬ (0 ≤ vm.instructionPointer ∧ vm.instructionPointer < (vm.quads.length : Int))) :
    running vm = false ∨ fetch vm = none := by
  by_cases hneg : vm.instructionPointer < 0
  · right
    simp [fetch, hneg]
  · left
    have : ¬ vm.instructionPointer < (vm.quads.length : Int) := by
      intro hlt
      exact h ⟨by omega, hlt⟩
    simp [running, this]

theorem fetch_isSome_of_in_range {M : Type} (vm : VirtualMachine M)
    (h : 0 ≤ vm.instructionPointer ∧ vm.instructionPointer < (vm.quads.length : Int)) :
    running vm = true ∧ ∃ quad, fetch vm = some quad := by
  refine ⟨by simp [running, h.2], ?_⟩
  have hlt : vm.instructionPointer.toNat < vm.quads.length := by omega
  have hneg : ¬ vm.instructionPointer < 0 := by omega
  refine ⟨vm.quads.get ⟨_, hlt⟩, ?_⟩
  simp [fetch, hneg, List.get?_eq_get hlt]

/-- The first index dispatched from a machine is its instruction pointer when that lies
within the list, and there is none otherwise. -/
theorem dispatched_first {M : Type} (mm : MemoryManager M) (n : Nat) (vm : VirtualMachine M) :
    (dispatched mm (n + 1) vm).get? 0 =
      if 0 ≤ vm.instructionPointer ∧ vm.instructionPointer < (vm.quads.length : Int) then
        some vm.instructionPointer
      else none := by
  by_cases h : 0 ≤ vm.instructionPointer ∧ vm.instructionPointer < (vm.quads.length : Int)
  · obtain ⟨hrun, quad, hf⟩ := fetch_isSome_of_in_range vm h
    simp [dispatched, hrun, hf, h]
  · rcases fetch_eq_none_of_out_of_range vm h with hrun | hf
    · simp [dispatched, hrun, h]
    · by_cases hrun : running vm = true
      · simp [dispatched, hrun, hf, h]
      · simp [dispatched, hrun, h]

/-- A fresh machine over a list of at least two quadruples dispatches index 1 first,
whatever quad 0 says. -/
theorem fresh_machine_first_dispatch {M : Type} (mm : MemoryManager M)
    (quads : List Quadruple) (m : M) (n : Nat) (hlen : 1 < quads.length) :
    (dispatched mm (n + 1) (NewVirtualMachine quads m)).head? = some 1 := by
  have h := dispatched_first mm n (NewVirtualMachine quads m)
  have hin : (0 : Int) ≤ (NewVirtualMachine quads m).instructionPointer ∧
      (NewVirtualMachine quads m).instructionPointer <
        ((NewVirtualMachine quads m).quads.length : Int) := by
    simp [NewVirtualMachine]
    omega
  rw [if_pos hin] at h
  rw [List.head?_eq_getElem?]
  simpa using h

/-- C1 (fails on the code): on the quadruples of a program with one function, whose quad 0
is the entry `goto` with result 3, a fresh machine dispatches index 1, the first
quadruple of the function body, before anything else; it then runs through the body into
the main section and prints `1` before `2`.  The specification has it dispatch index 3 first. -/
theorem fresh_machine_runs_function_body_first :
    (dispatched specMemory 1 (NewVirtualMachine entryProgram entryMemory)).head? = some 1 ∧
    entryProgram.get? 0 = some ⟨"goto", .nil, .nil, .int 3⟩ ∧
    dispatched specMemory 4 (NewVirtualMachine entryProgram entryMemory) = [1, 2, 3] ∧
    (Execute specMemory 4 (NewVirtualMachine entryProgram entryMemory)).map
      (fun o => o.state.stdout) = some [[.int 1], [.int 2]] := by
  decide

/-- The loop body on a `goto` with an `int` result `r` leaves the machine at `r + 1`. -/
theorem iteration_goto {M : Type} (mm : MemoryManager M) (vm : VirtualMachine M)
    (quad : Quadruple) (r : Int) (hfetch : fetch vm = some quad)
    (hop : quad.Operator = "goto") (hres : quad.Result = .int r) :
    iteration mm vm = .ok { vm with instructionPointer := wrap64 (r + 1) } := by
  simp [iteration, hfetch, executeQuadruple, hop, executeGoto, hres]

/-- C2 (fails on the code): a `goto` with result 3 is dispatched at index 1 of a list of
five quadruples; the next index dispatched is 4, and index 3 is never dispatched.  The
handler stores the result itself in the instruction pointer and the loop then adds one. -/
theorem goto_lands_one_past_target :
    gotoProgram.get? 1 = some ⟨"goto", .nil, .nil, .int 3⟩ ∧
    dispatched specMemory 5 (NewVirtualMachine gotoProgram entryMemory) = [1, 4] ∧
    (Execute specMemory 5 (NewVirtualMachine gotoProgram entryMemory)).map
      (fun o => o.state.stdout) = some [[.int 1]] := by
  decide

/-- C3: a `gotof` with result `r` is dispatched and its condition cell loads as the `Int`
`v`.  The loop body returns without error and leaves the machine exactly as it was,
memory and output included, except for the instruction pointer, which is `r` when
`v = 0` and the index after the `gotof` otherwise; the next quadruple dispatched is the
one at that index (none when the index is outside the list, where the loop ends), and
the indices dispatched from there on are those of the machine standing at that index.
The result `r` is a Go `int` and the list has at most `2^63 - 1` entries. -/
theorem gotof_next_dispatch {M : Type} (mm : MemoryManager M) (vm : VirtualMachine M)
    (quad : Quadruple) (c r v : Int) (n : Nat)
    (hfetch : fetch vm = some quad) (hop : quad.Operator = "gotof")
    (hleft : quad.LeftOp = .int c) (hres : quad.Result = .int r) (hr : inInt64 r)
    (hlen : (vm.quads.length : Int) ≤ 9223372036854775807)
    (hload : mm.Load vm.memoryManager c = (.int v, none)) :
    iteration mm vm =
        .ok { vm with instructionPointer := if v = 0 then r else vm.instructionPointer + 1 } ∧
      (dispatched mm (n + 2) vm).get? 1 =
        (if 0 ≤ (if v = 0 then r else vm.instructionPointer + 1) ∧
            (if v = 0 then r else vm.instructionPointer + 1) < (vm.quads.length : Int) then
          some (if v = 0 then r else vm.instructionPointer + 1)
        else none) ∧
      dispatched mm (n + 1) vm =
        vm.instructionPointer ::
          dispatched mm n
            { vm with instructionPointer := if v = 0 then r else vm.instructionPointer + 1 } := by
  have hb := fetch_some_bounds hfetch
  have hit : iteration mm vm =
      .ok { vm with instructionPointer := if v = 0 then r else vm.instructionPointer + 1 } := by
    by_cases hv : v = 0
    · subst hv
      simp [iteration, hfetch, executeQuadruple, hop, executeGotof, hleft, hload, hres,
        wrap64_pred_succ hr]
    · have hip : wrap64 (vm.instructionPointer + 1) = vm.instructionPointer + 1 := by
        apply wrap64_of_inInt64
        unfold inInt64
        omega
      simp [iteration, hfetch, executeQuadruple, hop, executeGotof, hleft, hload, hv, hip]
  refine ⟨hit, ?_, dispatched_succ_ok mm n vm _ (running_of_fetch hfetch) hit⟩
  rw [dispatched_succ_ok mm (n + 1) vm _ (running_of_fetch hfetch) hit]
  exact dispatched_first mm n _

theorem gotof_next_dispatch_witness :
    iteration specMemory (NewVirtualMachine gotofProgram gotofMemory) =
        .ok { NewVirtualMachine gotofProgram gotofMemory with instructionPointer := 3 } ∧
      (dispatched specMemory 3 (NewVirtualMachine gotofProgram gotofMemory)).get? 1 = some 3 ∧
      dispatched specMemory 2 (NewVirtualMachine gotofProgram gotofMemory) = [1, 3] :=
  gotof_next_dispatch specMemory (NewVirtualMachine gotofProgram gotofMemory)
    ⟨"gotof", .int 12000, .nil, .int 3⟩ 12000 3 0 1
    (by decide) (by decide) (by decide) (by decide) (by decide) (by decide) (by decide)

/-- C4 (fails on the code): the sum of the second end-to-end scenario, `1 + 2.5`, has an
`Int` on the left and a `Float` on the right.  `executeArithmetic` returns a type
mismatch and stores nothing, and `Execute` stops there without printing; with the
operands exchanged the same handler promotes the `Int` and stores the `Float` 3.5. -/
theorem int_plus_float_is_a_type_mismatch :
    executeArithmetic specMemory ⟨"+", .int 13000, .int 14000, .int 10000⟩
        (NewVirtualMachine mixedProgram mixedMemory) =
      .error (NewVirtualMachine mixedProgram mixedMemory)
        "type mismatch: cannot perform integer operation with float64" ∧
    Execute specMemory 4 (NewVirtualMachine mixedProgram mixedMemory) =
      some (.error (NewVirtualMachine mixedProgram mixedMemory)
        "error at instruction 1: type mismatch: cannot perform integer operation with float64") ∧
    executeArithmetic specMemory ⟨"+", .int 14000, .int 13000, .int 10000⟩
        (NewVirtualMachine mixedProgram mixedMemory) =
      .ok { NewVirtualMachine mixedProgram mixedMemory with
            memoryManager :=
              (10000, .float (Float64.finite false 7881299347898368 (-51))) :: mixedMemory } := by
  decide

/-- C5: a `/` quadruple whose left operand loads as an `Int` or a `Float` and whose right
operand loads as the `Int` 0 makes `executeArithmetic` return the error
`division by zero` and leave the machine, its memory included, exactly as it was; this
is so whatever `Store` would do, since it is not called. -/
theorem division_by_int_zero {M : Type} (mm : MemoryManager M) (vm : VirtualMachine M)
    (quad : Quadruple) (la ra : Int) (leftVal : Value)
    (hop : quad.Operator = "/") (hleft : quad.LeftOp = .int la)
    (hright : quad.RightOp = .int ra)
    (hl : mm.Load vm.memoryManager la = (leftVal, none))
    (hnum : (∃ a, leftVal = .int a) ∨ (∃ f, leftVal = .float f))
    (hr : mm.Load vm.memoryManager ra = (.int 0, none)) :
    executeArithmetic mm quad vm = .error vm "division by zero" ∧
      ∀ store : M → Int → Value → M × Option String,
        executeArithmetic { Load := mm.Load, Store := store } quad vm =
          .error vm "division by zero" := by
  have hz : Float64.eq (Float64.ofInt 0) Float64.zero = true := by decide
  rcases hnum with ⟨a, rfl⟩ | ⟨f, rfl⟩
  · constructor
    · simp [executeArithmetic, hleft, hright, hl, hr, arithmeticResult, hop]
    · intro store
      simp [executeArithmetic, hleft, hright, hl, hr, arithmeticResult, hop]
  · constructor
    · simp [executeArithmetic, hleft, hright, hl, hr, arithmeticResult, hop, hz]
    · intro store
      simp [executeArithmetic, hleft, hright, hl, hr, arithmeticResult, hop, hz]

theorem division_by_int_zero_witness :
    executeArithmetic specMemory ⟨"/", .int 2000, .int 13000, .int 10000⟩
        (NewVirtualMachine [] divisionMemory) =
      .error (NewVirtualMachine [] divisionMemory) "division by zero" ∧
      ∀ store : Cells → Int → Value → Cells × Option String,
        executeArithmetic { Load := specMemory.Load, Store := store }
            ⟨"/", .int 2000, .int 13000, .int 10000⟩ (NewVirtualMachine [] divisionMemory) =
          .error (NewVirtualMachine [] divisionMemory) "division by zero" :=
  division_by_int_zero specMemory (NewVirtualMachine [] divisionMemory)
    ⟨"/", .int 2000, .int 13000, .int 10000⟩ 2000 13000
    (.float (Float64.finite false 5629499534213120 (-51)))
    (by decide) (by decide) (by decide) (by decide) (Or.inr ⟨_, rfl⟩) (by decide)

/-! ## Errors leave the instruction pointer alone -/

theorem storeResult_error_ip {M : Type} (mm : MemoryManager M) (quad : Quadruple)
    (value : Value) (vm vm1 : VirtualMachine M) (err : String)
    (h : storeResult mm quad value vm = .error vm1 err) :
    vm1.instructionPointer = vm.instructionPointer := by
  unfold storeResult at h
  split at h
  · split at h
    · cases h
    · cases h; rfl
  · cases h

theorem executeArithmetic_error_ip {M : Type} (mm : MemoryManager M) (quad : Quadruple)
    (vm vm1 : VirtualMachine M) (err : String)
    (h : executeArithmetic mm quad vm = .error vm1 err) :
    vm1.instructionPointer = vm.instructionPointer := by
  unfold executeArithmetic at h
  repeat' split at h
  all_goals first
    | (cases h; rfl)
    | exact storeResult_error_ip mm quad _ vm vm1 err h
    | cases h

theorem executeAssignment_error_ip {M : Type} (mm : MemoryManager M) (quad : Quadruple)
    (vm vm1 : VirtualMachine M) (err : String)
    (h : executeAssignment mm quad vm = .error vm1 err) :
    vm1.instructionPointer = vm.instructionPointer := by
  unfold executeAssignment at h
  repeat' split at h
  all_goals first
    | (cases h; rfl)
    | exact storeResult_error_ip mm quad _ vm vm1 err h
    | cases h

theorem executeComparison_error_ip {M : Type} (mm : MemoryManager M) (quad : Quadruple)
    (vm vm1 : VirtualMachine M) (err : String)
    (h : executeComparison mm quad vm = .error vm1 err) :
    vm1.instructionPointer = vm.instructionPointer := by
  unfold executeComparison at h
  repeat' split at h
  all_goals first
    | (cases h; rfl)
    | (have hs := storeResult_error_ip mm quad _ _ vm1 err h; exact hs)
    | cases h

theorem executePrint_error_ip {M : Type} (mm : MemoryManager M) (quad : Quadruple)
    (vm vm1 : VirtualMachine M) (err : String)
    (h : executePrint mm quad vm = .error vm1 err) :
    vm1.instructionPointer = vm.instructionPointer := by
  unfold executePrint at h
  repeat' split at h
  all_goals first
    | (cases h; rfl)
    | cases h

theorem executeGoto_error_ip {M : Type} (quad : Quadruple)
    (vm vm1 : VirtualMachine M) (err : String)
    (h : executeGoto quad vm = .error vm1 err) :
    vm1.instructionPointer = vm.instructionPointer := by
  unfold executeGoto at h
  repeat' split at h
  all_goals cases h

theorem executeGotof_error_ip {M : Type} (mm : MemoryManager M) (quad : Quadruple)
    (vm vm1 : VirtualMachine M) (err : String)
    (h : executeGotof mm quad vm = .error vm1 err) :
    vm1.instructionPointer = vm.instructionPointer := by
  unfold executeGotof at h
  repeat' split at h
  all_goals first
    | (cases h; rfl)
    | cases h

theorem executeQuadruple_error_ip {M : Type} (mm : MemoryManager M) (quad : Quadruple)
    (vm vm1 : VirtualMachine M) (err : String)
    (h : executeQuadruple mm quad vm = .error vm1 err) :
    vm1.instructionPointer = vm.instructionPointer := by
  unfold executeQuadruple at h
  repeat' split at h
  · exact executeArithmetic_error_ip mm quad vm vm1 err h
  · exact executeAssignment_error_ip mm quad vm vm1 err h
  · exact executeComparison_error_ip mm quad vm vm1 err h
  · exact executePrint_error_ip mm quad vm vm1 err h
  · exact executeGoto_error_ip quad vm vm1 err h
  · exact executeGotof_error_ip mm quad vm vm1 err h
  · cases h

/-! ## Runs of several iterations -/

theorem Execute_after {M : Type} (mm : MemoryManager M) (k n : Nat) :
    ∀ vm0 vm : VirtualMachine M, afterIterations mm k vm0 = some vm →
      Execute mm (k + n) vm0 = Execute mm n vm := by
  induction k with
  | zero =>
    intro vm0 vm h
    simp [afterIterations] at h
    subst h
    simp
  | succ k ih =>
    intro vm0 vm h
    unfold afterIterations at h
    by_cases hrun : running vm0 = true
    · rw [if_pos hrun] at h
      cases hit : iteration mm vm0 with
      | ok vm1 =>
        rw [hit] at h
        have hk : k + 1 + n = (k + n) + 1 := by omega
        rw [hk, Execute_succ_ok mm (k + n) vm0 vm1 hrun hit]
        exact ih vm1 vm h
      | error vm1 e => rw [hit] at h; cases h
      | panic vm1 e => rw [hit] at h; cases h
    · rw [if_neg hrun] at h
      cases h

theorem dispatched_after {M : Type} (mm : MemoryManager M) (k n : Nat) :
    ∀ vm0 vm : VirtualMachine M, afterIterations mm k vm0 = some vm →
      dispatched mm (k + n) vm0 = dispatched mm k vm0 ++ dispatched mm n vm ∧
        (dispatched mm k vm0).length = k := by
  induction k with
  | zero =>
    intro vm0 vm h
    simp [afterIterations] at h
    subst h
    simp [dispatched]
  | succ k ih =>
    intro vm0 vm h
    unfold afterIterations at h
    by_cases hrun : running vm0 = true
    · rw [if_pos hrun] at h
      cases hit : iteration mm vm0 with
      | ok vm1 =>
        rw [hit] at h
        have hk : k + 1 + n = (k + n) + 1 := by omega
        rw [hk, dispatched_succ_ok mm (k + n) vm0 vm1 hrun hit,
          dispatched_succ_ok mm k vm0 vm1 hrun hit]
        have h1 := ih vm1 vm h
        simp [h1.1, h1.2]
      | error vm1 e => rw [hit] at h; cases h
      | panic vm1 e => rw [hit] at h; cases h
    · rw [if_neg hrun] at h
      cases h

/-- C6: the loop of `Execute` has made `k` passes without error and stands at a machine
`vm` whose current quadruple makes its handler return the error `err`.  Then `Execute`
returns at once, however many more iterations it would be allowed: its result is the
error `error at instruction i: err` with `i` the index of that quadruple, the state is
the one the handler left, and the indices dispatched are those of the first `k` passes
followed by `i` and nothing else. -/
theorem Execute_stops_at_first_error {M : Type} (mm : MemoryManager M)
    (vm0 vm vm1 : VirtualMachine M) (quad : Quadruple) (err : String) (k n : Nat)
    (hreach : afterIterations mm k vm0 = some vm)
    (hfetch : fetch vm = some quad)
    (herr : executeQuadruple mm quad vm = .error vm1 err) :
    Execute mm (k + (n + 1)) vm0 =
        some (.error vm1
          ("error at instruction " ++ toString vm.instructionPointer ++ ": " ++ err)) ∧
      dispatched mm (k + (n + 1)) vm0 = dispatched mm k vm0 ++ [vm.instructionPointer] ∧
      (dispatched mm k vm0).length = k := by
  have hrun := running_of_fetch hfetch
  have hip := executeQuadruple_error_ip mm quad vm vm1 err herr
  have hit : iteration mm vm =
      .error vm1 ("error at instruction " ++ toString vm.instructionPointer ++ ": " ++ err) := by
    simp [iteration, hfetch, herr, hip]
  have hd := dispatched_after mm k (n + 1) vm0 vm hreach
  refine ⟨?_, ?_, hd.2⟩
  · rw [Execute_after mm k (n + 1) vm0 vm hreach]
    simp [Execute, hrun, hit]
  · rw [hd.1]
    simp [dispatched, hrun, hit, hfetch]

theorem Execute_stops_at_first_error_witness :
    Execute specMemory (1 + (5 + 1)) (NewVirtualMachine errorProgram mixedMemory) =
        some (.error
          { println (NewVirtualMachine errorProgram mixedMemory) [.int 1] with
            instructionPointer := 2 }
          ("error at instruction " ++ toString (2 : Int) ++ ": " ++
            "type mismatch: cannot perform integer operation with float64")) ∧
      dispatched specMemory (1 + (5 + 1)) (NewVirtualMachine errorProgram mixedMemory) =
        dispatched specMemory 1 (NewVirtualMachine errorProgram mixedMemory) ++ [2] ∧
      (dispatched specMemory 1 (NewVirtualMachine errorProgram mixedMemory)).length = 1 :=
  Execute_stops_at_first_error specMemory (NewVirtualMachine errorProgram mixedMemory)
    { println (NewVirtualMachine errorProgram mixedMemory) [.int 1] with
      instructionPointer := 2 }
    { println (NewVirtualMachine errorProgram mixedMemory) [.int 1] with
      instructionPointer := 2 }
    ⟨"+", .int 13000, .int 14000, .int 10000⟩
    "type mismatch: cannot perform integer operation with float64" 1 5
    (by decide) (by decide) (by decide)

/-! ## Standard output -/

theorem storeResult_stdout {M : Type} (mm : MemoryManager M) (quad : Quadruple)
    (value : Value) (vm : VirtualMachine M) :
    (storeResult mm quad value vm).state.stdout = vm.stdout := by
  unfold storeResult
  repeat' split
  all_goals rfl

theorem executeArithmetic_stdout {M : Type} (mm : MemoryManager M) (quad : Quadruple)
    (vm : VirtualMachine M) :
    (executeArithmetic mm quad vm).state.stdout = vm.stdout := by
  unfold executeArithmetic
  repeat' split
  all_goals first
    | rfl
    | exact storeResult_stdout mm quad _ vm

theorem executeAssignment_stdout {M : Type} (mm : MemoryManager M) (quad : Quadruple)
    (vm : VirtualMachine M) :
    (executeAssignment mm quad vm).state.stdout = vm.stdout := by
  unfold executeAssignment
  repeat' split
  all_goals first
    | rfl
    | exact storeResult_stdout mm quad _ vm

theorem executeGoto_stdout {M : Type} (quad : Quadruple) (vm : VirtualMachine M) :
    (executeGoto quad vm).state.stdout = vm.stdout := by
  unfold executeGoto
  repeat' split
  all_goals rfl

theorem executeGotof_stdout {M : Type} (mm : MemoryManager M) (quad : Quadruple)
    (vm : VirtualMachine M) :
    (executeGotof mm quad vm).state.stdout = vm.stdout := by
  unfold executeGotof
  repeat' split
  all_goals rfl

/-- Every quadruple that is neither a `print` nor a comparison leaves standard output as
it was, whether its handler returns `nil`, an error, or panics. -/
theorem executeQuadruple_stdout {M : Type} (mm : MemoryManager M) (quad : Quadruple)
    (vm : VirtualMachine M) (hprint : quad.Operator ≠ "print")
    (hcmp : ¬ (quad.Operator = "<" ∨ quad.Operator = ">" ∨ quad.Operator = "==" ∨
      quad.Operator = "!=")) :
    (executeQuadruple mm quad vm).state.stdout = vm.stdout := by
  unfold executeQuadruple
  simp only [hprint, hcmp, if_false]
  repeat' split
  · exact executeArithmetic_stdout mm quad vm
  · exact executeAssignment_stdout mm quad vm
  · exact executeGoto_stdout quad vm
  · exact executeGotof_stdout mm quad vm
  · rfl

/-- C7 (fails on the code): the comparison `x < 2` of the third end-to-end scenario is not
a `print`, yet dispatching it appends the line `This is the leftVal 1` to standard
output, and the whole run prints that line before `lt`. -/
theorem comparison_writes_to_stdout :
    (executeQuadruple specMemory ⟨"<", .int 1000, .int 13001, .int 12000⟩
        (NewVirtualMachine ifProgram ((1000, .int 1) :: ifMemory))).state.stdout =
      [[.str "This is the leftVal", .int 1]] ∧
    (NewVirtualMachine ifProgram ((1000, .int 1) :: ifMemory)).stdout = [] ∧
    (Execute specMemory 7 (NewVirtualMachine ifProgram ifMemory)).map
      (fun o => o.state.stdout) =
      some [[.str "This is the leftVal", .int 1], [.str "lt"]] := by
  decide

/-- C8 (fails on the code): the `GOSUB` at index 4 has result 1, and the quadruple
dispatched after it is the one at index 5, not the one at index 1; the run goes through
the indices in order and leaves `returnPointer` at `-1`. -/
theorem gosub_does_not_jump :
    callProgram.get? 4 = some ⟨"GOSUB", .str "f", .nil, .int 1⟩ ∧
    dispatched specMemory 6 (NewVirtualMachine callProgram entryMemory) = [1, 2, 3, 4, 5] ∧
    dispatched specMemory 2
        { NewVirtualMachine callProgram entryMemory with instructionPointer := 4 } ≠ [4, 1] ∧
    (Execute specMemory 6 (NewVirtualMachine callProgram entryMemory)).map
      (fun o => o.state.returnPointer) = some (-1) := by
  decide

/-- C8 (as amended): `executeQuadruple` has no case for `ERA`, `param`, `GOSUB` and
`ENDPROC`.  Dispatching one of them at index `i` returns without error and changes
nothing in the machine (memory, output and `returnPointer` stay as they are) except that
the instruction pointer becomes `i + 1`, so the next quadruple dispatched is the one
at index `i + 1` (none when that is the end of the list). -/
theorem call_opcodes_fall_through {M : Type} (mm : MemoryManager M) (vm : VirtualMachine M)
    (quad : Quadruple) (n : Nat)
    (hfetch : fetch vm = some quad)
    (hop : quad.Operator = "ERA" ∨ quad.Operator = "param" ∨ quad.Operator = "GOSUB" ∨
      quad.Operator = "ENDPROC")
    (hlen : (vm.quads.length : Int) ≤ 9223372036854775807) :
    iteration mm vm = .ok { vm with instructionPointer := vm.instructionPointer + 1 } ∧
      (dispatched mm (n + 2) vm).get? 1 =
        (if vm.instructionPointer + 1 < (vm.quads.length : Int) then
          some (vm.instructionPointer + 1)
        else none) ∧
      dispatched mm (n + 1) vm =
        vm.instructionPointer ::
          dispatched mm n { vm with instructionPointer := vm.instructionPointer + 1 } := by
  have hb := fetch_some_bounds hfetch
  have hip : wrap64 (vm.instructionPointer + 1) = vm.instructionPointer + 1 := by
    apply wrap64_of_inInt64
    unfold inInt64
    omega
  have hit : iteration mm vm =
      .ok { vm with instructionPointer := vm.instructionPointer + 1 } := by
    rcases hop with h | h | h | h <;>
      simp [iteration, hfetch, executeQuadruple, h, hip]
  refine ⟨hit, ?_, dispatched_succ_ok mm n vm _ (running_of_fetch hfetch) hit⟩
  rw [dispatched_succ_ok mm (n + 1) vm _ (running_of_fetch hfetch) hit]
  have h1 := dispatched_first mm n
    ({ vm with instructionPointer := vm.instructionPointer + 1 } : VirtualMachine M)
  simp only [List.get?_cons_succ]
  rw [h1]
  by_cases hlt : vm.instructionPointer + 1 < (vm.quads.length : Int)
  · have : 0 ≤ vm.instructionPointer + 1 := by omega
    simp [hlt, this]
  · simp [hlt]

theorem call_opcodes_fall_through_witness :
    iteration specMemory
        { NewVirtualMachine callProgram entryMemory with instructionPointer := 4 } =
      .ok { NewVirtualMachine callProgram entryMemory with instructionPointer := 5 } ∧
      (dispatched specMemory 3
        { NewVirtualMachine callProgram entryMemory with instructionPointer := 4 }).get? 1 =
        some 5 ∧
      dispatched specMemory 2
        { NewVirtualMachine callProgram entryMemory with instructionPointer := 4 } = [4, 5] :=
  call_opcodes_fall_through specMemory
    { NewVirtualMachine callProgram entryMemory with instructionPointer := 4 }
    ⟨"GOSUB", .str "f", .nil, .int 1⟩ 1
    (by decide) (by decide) (by decide)

/-! ## Parser -/

/-- C9 (fails on the code): for the two arguments of `f(1, 2.5)`, both parsed without
error, `parseArgumentList` returns the three types `Int, Float, Float`: the type of the
second argument is appended twice, once before and once after its `param` quadruple is
emitted, while two `param` quadruples are emitted.  For the single argument of `f(1)`
it returns the one type `Int`. -/
theorem second_argument_type_appended_twice :
    (parseArgumentList 20 (NewParser twoArguments)).map (fun r => (r.val, r.err)) =
      some ([.TypeInt, .TypeFloat, .TypeFloat], none) ∧
    (parseArgumentList 20 (NewParser twoArguments)).map
      (fun r => r.p.codeGenerator.Quads) =
      some [⟨"param", .int 13000, .nil, .int 0⟩, ⟨"param", .int 14000, .nil, .int 1⟩] ∧
    (parseArgumentList 20 (NewParser oneArgument)).map (fun r => (r.val, r.err)) =
      some ([.TypeInt], none) := by
  decide

/-- C10 (fails on the code): on `x = 1 + ;` with `x` declared, `parseExpression` fails on
the missing operand, yet `parseAssignment` returns no error: it calls `HandleAssignment`,
which emits `(=, 1, ∅, x)`, consumes the `;`, and leaves the `+` on the operator
stack. -/
theorem broken_right_hand_side_is_accepted :
    (parseExpression 20 brokenAssignmentParser.next).map (fun r => r.err) =
      some (some
        "unexpected token in factor: terminator in line %!l(int=1) and %!t(string=;)") ∧
    (parseAssignment 20 brokenAssignmentParser (tk "id" "x") (tk "assignOp" "=")).map
      (fun r => (r.err, r.p.codeGenerator.Quads, r.p.codeGenerator.OperatorStack, r.p.curr)) =
      some (none, [⟨"=", .int 13000, .nil, .int 1000⟩], ["+"], tk "kwdEnd" "end") := by
  decide

/-! ## Integer arithmetic -/

/-- Truncated division stays within the Go `int` except for `-2^63 / -1`. -/
theorem wrap64_tdiv {a b : Int} (ha : inInt64 a) (hb : inInt64 b)
    (hne : ¬ (a = -9223372036854775808 ∧ b = -1)) :
    wrap64 (Int.tdiv a b) = Int.tdiv a b := by
  apply wrap64_of_inInt64
  unfold inInt64 at *
  have habs : (Int.tdiv a b).natAbs = a.natAbs / b.natAbs := Int.natAbs_tdiv a b
  have hle : a.natAbs / b.natAbs ≤ a.natAbs := Nat.div_le_self _ _
  by_cases hlt : (Int.tdiv a b).natAbs < 9223372036854775808
  · omega
  · have hA : a.natAbs = 9223372036854775808 := by omega
    have hq : a.natAbs / b.natAbs = a.natAbs := by omega
    have hb1 : b.natAbs = 1 := by
      by_contra hb1
      rcases Nat.lt_or_ge b.natAbs 2 with h2 | h2
      · have hb0 : b.natAbs = 0 := by omega
        rw [hb0, Nat.div_zero] at hq
        omega
      · have := Nat.div_lt_self (by omega : 0 < a.natAbs) h2
        omega
    have ha' : a = -9223372036854775808 := by omega
    have hb' : b = 1 := by
      rcases Int.natAbs_eq b with h | h
      · omega
      · exfalso
        apply hne
        exact ⟨ha', by omega⟩
    subst ha' hb'
    decide

/-- C16 (as amended): an arithmetic quadruple whose operands load as the `Int`s `a` and
`b` fails with `division by zero` when it is a `/` and `b = 0`; otherwise it calls
`Store` once, on the result address, with the `Int` `a + b`, `a - b`, `a * b` or the
quotient of `a` by `b` truncated toward zero, each reduced to 64-bit two's complement,
and fails only if that `Store` does.  The reduction leaves the quotient as it is unless
`a = -2^63` and `b = -1`. -/
theorem int_arithmetic_result {M : Type} (mm : MemoryManager M) (vm : VirtualMachine M)
    (quad : Quadruple) (la ra t a b : Int)
    (hop : quad.Operator = "+" ∨ quad.Operator = "-" ∨ quad.Operator = "*" ∨
      quad.Operator = "/")
    (hleft : quad.LeftOp = .int la) (hright : quad.RightOp = .int ra)
    (hres : quad.Result = .int t)
    (hl : mm.Load vm.memoryManager la = (.int a, none))
    (hr : mm.Load vm.memoryManager ra = (.int b, none)) :
    executeArithmetic mm quad vm =
        (if quad.Operator = "/" ∧ b = 0 then .error vm "division by zero"
         else
          match mm.Store vm.memoryManager t
              (.int (if quad.Operator = "+" then wrap64 (a + b)
                     else if quad.Operator = "-" then wrap64 (a - b)
                     else if quad.Operator = "*" then wrap64 (a * b)
                     else wrap64 (Int.tdiv a b))) with
          | (m, none) => .ok { vm with memoryManager := m }
          | (m, some err) => .error { vm with memoryManager := m } err) ∧
      (inInt64 a → inInt64 b → ¬ (a = -9223372036854775808 ∧ b = -1) →
        wrap64 (Int.tdiv a b) = Int.tdiv a b) := by
  refine ⟨?_, fun ha hb hne => wrap64_tdiv ha hb hne⟩
  rcases hop with h | h | h | h
  · simp [executeArithmetic, hleft, hright, hl, hr, arithmeticResult, h, storeResult, hres]
  · simp [executeArithmetic, hleft, hright, hl, hr, arithmeticResult, h, storeResult, hres]
  · simp [executeArithmetic, hleft, hright, hl, hr, arithmeticResult, h, storeResult, hres]
  · by_cases hb : b = 0
    · simp [executeArithmetic, hleft, hright, hl, hr, arithmeticResult, h, hb]
    · simp [executeArithmetic, hleft, hright, hl, hr, arithmeticResult, h, hb, storeResult, hres]

/-- C16 (fails on the code): for `-2^63 / -1` the value stored is `-2^63`, which is not
the quotient `2^63`. -/
theorem min_int_divided_by_minus_one :
    executeArithmetic specMemory ⟨"/", .int 1000, .int 1001, .int 9000⟩
        (NewVirtualMachine [] [(1000, .int (-9223372036854775808)), (1001, .int (-1))]) =
      .ok (NewVirtualMachine []
        [(9000, .int (-9223372036854775808)), (1000, .int (-9223372036854775808)),
         (1001, .int (-1))]) ∧
    Int.tdiv (-9223372036854775808) (-1) = 9223372036854775808 := by
  decide

theorem int_arithmetic_result_witness :
    executeArithmetic specMemory ⟨"/", .int 1000, .int 1001, .int 9000⟩
        (NewVirtualMachine [] [(1000, .int (-7)), (1001, .int 2)]) =
      .ok (NewVirtualMachine [] [(9000, .int (-3)), (1000, .int (-7)), (1001, .int 2)]) ∧
      wrap64 (Int.tdiv (-7) 2) = Int.tdiv (-7) 2 :=
  have h := int_arithmetic_result specMemory
    (NewVirtualMachine [] [(1000, .int (-7)), (1001, .int 2)])
    ⟨"/", .int 1000, .int 1001, .int 9000⟩ 1000 1001 9000 (-7) 2
    (by decide) (by decide) (by decide) (by decide) (by decide) (by decide)
  ⟨h.1.trans (by decide), h.2 (by decide) (by decide) (by decide)⟩

/-! ## Conversion of integers to `float64` -/

theorem bitLength_le (fuel : Nat) : ∀ m k : Nat, m < 2 ^ k → Float64.bitLength fuel m ≤ k := by
  induction fuel with
  | zero => intro m k _; simp [Float64.bitLength]
  | succ fuel ih =>
    intro m k h
    unfold Float64.bitLength
    by_cases hm : m = 0
    · simp [hm]
    · simp only [hm, if_false]
      cases k with
      | zero => simp at h; omega
      | succ k =>
        have h2 : m / 2 < 2 ^ k := by
          rw [pow_succ] at h
          omega
        have := ih (m / 2) k h2
        omega

/-- When no bit has to be dropped, `round` only moves the binary point. -/
theorem round_exact (neg : Bool) (m : Nat) (e : Int) (sticky : Bool) (hm : m ≠ 0)
    (h1 : max (e + (Float64.bitLength m m : Int) - 53) (-1074) ≤ e)
    (h2 : max (e + (Float64.bitLength m m : Int) - 53) (-1074) ≤ 971) :
    Float64.round neg m e sticky =
      Float64.finite neg
        (m * 2 ^ (e - max (e + (Float64.bitLength m m : Int) - 53) (-1074)).toNat)
        (max (e + (Float64.bitLength m m : Int) - 53) (-1074)) := by
  unfold Float64.round
  have h3 : ¬ max (e + (Float64.bitLength m m : Int) - 53) (-1074) > 971 := by omega
  simp only [hm, if_false, h1, if_true, h3]

/-- The conversion `float64(i)` is exact for `|i| ≤ 2^53`: the result is finite and its
value, scaled by `2^1074`, is `i * 2^1074`. -/
theorem ofInt_exact (i : Int) (h : i.natAbs ≤ 9007199254740992) :
    ∃ s m e, Float64.ofInt i = Float64.finite s m e ∧ -1074 ≤ e ∧
      signFactor s * ((m : Int) * 2 ^ (e + 1074).toNat) = i * 2 ^ 1074 := by
  by_cases h0 : i = 0
  · subst h0
    refine ⟨false, 0, -1074, by decide, by decide, ?_⟩
    rw [Nat.cast_zero, zero_mul, mul_zero, zero_mul]
  by_cases hmax : i.natAbs = 9007199254740992
  · rcases Int.natAbs_eq i with hi | hi
    · rw [hmax] at hi
      subst hi
      refine ⟨false, 4503599627370496, 1, by decide, by decide, ?_⟩
      show signFactor false * (((4503599627370496 : Nat) : Int) * 2 ^ 1075) =
        9007199254740992 * 2 ^ 1074
      rw [pow_succ]
      generalize (2 : Int) ^ 1074 = K
      simp only [signFactor]
      push_cast
      ring
    · rw [hmax] at hi
      subst hi
      refine ⟨true, 4503599627370496, 1, by decide, by decide, ?_⟩
      show signFactor true * (((4503599627370496 : Nat) : Int) * 2 ^ 1075) =
        -9007199254740992 * 2 ^ 1074
      rw [pow_succ]
      generalize (2 : Int) ^ 1074 = K
      simp only [signFactor]
      push_cast
      ring
  · have hm : i.natAbs ≠ 0 := by omega
    have hlt : i.natAbs < 2 ^ 53 := by
      have : (2 : Nat) ^ 53 = 9007199254740992 := by norm_num
      omega
    have hlen := bitLength_le i.natAbs i.natAbs 53 hlt
    have h1 : max ((0 : Int) + (Float64.bitLength i.natAbs i.natAbs : Int) - 53) (-1074) ≤ 0 := by
      omega
    have h2 : max ((0 : Int) + (Float64.bitLength i.natAbs i.natAbs : Int) - 53) (-1074) ≤ 971 := by
      omega
    refine ⟨decide (i < 0),
      i.natAbs * 2 ^ ((0 : Int) -
        max ((0 : Int) + (Float64.bitLength i.natAbs i.natAbs : Int) - 53) (-1074)).toNat,
      max ((0 : Int) + (Float64.bitLength i.natAbs i.natAbs : Int) - 53) (-1074), ?_, ?_, ?_⟩
    · unfold Float64.ofInt
      exact round_exact _ _ 0 false hm h1 h2
    · omega
    · generalize hE : max ((0 : Int) + (Float64.bitLength i.natAbs i.natAbs : Int) - 53) (-1074) = E
        at h1 h2 ⊢
      have hE1 : -1074 ≤ E := by omega
      have hsum : (0 - E).toNat + (E + 1074).toNat = 1074 := by omega
      have hpow : ((i.natAbs * 2 ^ (0 - E).toNat : Nat) : Int) * 2 ^ (E + 1074).toNat =
          (i.natAbs : Int) * 2 ^ 1074 := by
        rw [Nat.cast_mul, Nat.cast_pow, Nat.cast_ofNat, mul_assoc, ← pow_add, hsum]
      rw [hpow]
      unfold signFactor
      by_cases hneg : i < 0
      · simp only [hneg, decide_True, if_true]
        have : (i.natAbs : Int) = -i := by omega
        rw [this]
        ring
      · simp only [hneg, decide_False]
        have : (i.natAbs : Int) = i := by omega
        rw [this]
        exact one_mul _

/-- For finite operands above the smallest exponent, `scaled` is the scaled value divided
by a positive power of two. -/
theorem scaled_mul (s : Bool) (m : Nat) (e base : Int) (hb : -1074 ≤ base) (he : base ≤ e) :
    Float64.scaled s m e base * 2 ^ (base + 1074).toNat =
      signFactor s * ((m : Int) * 2 ^ (e + 1074).toNat) := by
  unfold Float64.scaled signFactor
  have hsum : (e - base).toNat + (base + 1074).toNat = (e + 1074).toNat := by omega
  rw [mul_assoc, mul_assoc, ← pow_add, hsum]

theorem lt_ofInt (a b : Int) (ha : a.natAbs ≤ 9007199254740992)
    (hb : b.natAbs ≤ 9007199254740992) :
    Float64.lt (Float64.ofInt a) (Float64.ofInt b) = decide (a < b) := by
  obtain ⟨s, m, e, hfa, he, hva⟩ := ofInt_exact a ha
  obtain ⟨t, n, f, hfb, hf, hvb⟩ := ofInt_exact b hb
  rw [hfa, hfb]
  unfold Float64.lt
  have hbase : -1074 ≤ min e f := by omega
  have h1 := scaled_mul s m e (min e f) hbase (by omega)
  have h2 := scaled_mul t n f (min e f) hbase (by omega)
  rw [hva] at h1
  rw [hvb] at h2
  have hK : (0 : Int) < 2 ^ (min e f + 1074).toNat := by positivity
  have hL : (0 : Int) < 2 ^ 1074 := by positivity
  have hiff : Float64.scaled s m e (min e f) < Float64.scaled t n f (min e f) ↔ a < b := by
    constructor
    · intro h
      have := mul_lt_mul_of_pos_right h hK
      rw [h1, h2] at this
      exact lt_of_mul_lt_mul_right this (le_of_lt hL)
    · intro h
      have := mul_lt_mul_of_pos_right h hL
      rw [← h1, ← h2] at this
      exact lt_of_mul_lt_mul_right this (le_of_lt hK)
  simp only [hiff]

theorem eq_ofInt (a b : Int) (ha : a.natAbs ≤ 9007199254740992)
    (hb : b.natAbs ≤ 9007199254740992) :
    Float64.eq (Float64.ofInt a) (Float64.ofInt b) = decide (a = b) := by
  obtain ⟨s, m, e, hfa, he, hva⟩ := ofInt_exact a ha
  obtain ⟨t, n, f, hfb, hf, hvb⟩ := ofInt_exact b hb
  rw [hfa, hfb]
  unfold Float64.eq
  have hbase : -1074 ≤ min e f := by omega
  have h1 := scaled_mul s m e (min e f) hbase (by omega)
  have h2 := scaled_mul t n f (min e f) hbase (by omega)
  rw [hva] at h1
  rw [hvb] at h2
  have hK : (0 : Int) < 2 ^ (min e f + 1074).toNat := by positivity
  have hL : (0 : Int) < 2 ^ 1074 := by positivity
  have hiff : Float64.scaled s m e (min e f) = Float64.scaled t n f (min e f) ↔ a = b := by
    constructor
    · intro h
      have : a * 2 ^ 1074 = b * 2 ^ 1074 := by rw [← h1, ← h2, h]
      exact mul_right_cancel₀ (ne_of_gt hL) this
    · intro h
      have : Float64.scaled s m e (min e f) * 2 ^ (min e f + 1074).toNat =
          Float64.scaled t n f (min e f) * 2 ^ (min e f + 1074).toNat := by rw [h1, h2, h]
      exact mul_right_cancel₀ (ne_of_gt hK) this
  by_cases hab : a = b
  · have hs := hiff.mpr hab
    simp [hs, hab]
  · have hs : ¬ Float64.scaled s m e (min e f) = Float64.scaled t n f (min e f) :=
      fun h => hab (hiff.mp h)
    simp [hs, hab]

/-- C17 (fails on the code): with `2^53` and `2^53 + 1` in the operands, both conversions
to `float64` give `2^53`; the comparison `<` stores `0` although `2^53 < 2^53 + 1`, and
`==` stores `1` although the integers differ. -/
theorem large_int_comparison_is_inexact :
    (executeComparison specMemory ⟨"<", .int 1000, .int 1001, .int 12000⟩
        (NewVirtualMachine []
          [(1000, .int 9007199254740992), (1001, .int 9007199254740993)])
      ).state.memoryManager.lookup 12000 = some (.int 0) ∧
    (executeComparison specMemory ⟨"==", .int 1000, .int 1001, .int 12000⟩
        (NewVirtualMachine []
          [(1000, .int 9007199254740992), (1001, .int 9007199254740993)])
      ).state.memoryManager.lookup 12000 = some (.int 1) ∧
    (9007199254740992 : Int) < 9007199254740993 := by
  decide

/-- C17 (as amended): a comparison quadruple whose operands load as the `Int`s `a` and `b`
calls `Store` once, on the result address, with the `Int` 1 when the relation holds
between `float64(a)` and `float64(b)` and the `Int` 0 otherwise, and fails only if that
`Store` does.  When `|a| ≤ 2^53` and `|b| ≤ 2^53` the conversions are exact and the value
stored is 1 exactly when the relation holds between the integers `a` and `b`. -/
theorem int_comparison_result {M : Type} (mm : MemoryManager M) (vm : VirtualMachine M)
    (quad : Quadruple) (la ra t a b : Int)
    (hop : quad.Operator = "<" ∨ quad.Operator = ">" ∨ quad.Operator = "==" ∨
      quad.Operator = "!=")
    (hleft : quad.LeftOp = .int la) (hright : quad.RightOp = .int ra)
    (hres : quad.Result = .int t)
    (hl : mm.Load vm.memoryManager la = (.int a, none))
    (hr : mm.Load vm.memoryManager ra = (.int b, none)) :
    executeComparison mm quad vm =
        (match mm.Store vm.memoryManager t
            (.int (comparisonResult quad.Operator (Float64.ofInt a) (Float64.ofInt b))) with
          | (m, none) =>
            .ok { println vm [.str "This is the leftVal", .int a] with memoryManager := m }
          | (m, some err) =>
            .error { println vm [.str "This is the leftVal", .int a] with memoryManager := m }
              err) ∧
      comparisonResult quad.Operator (Float64.ofInt a) (Float64.ofInt b) =
        (if (if quad.Operator = "<" then Float64.lt (Float64.ofInt a) (Float64.ofInt b)
             else if quad.Operator = ">" then Float64.lt (Float64.ofInt b) (Float64.ofInt a)
             else if quad.Operator = "==" then Float64.eq (Float64.ofInt a) (Float64.ofInt b)
             else !(Float64.eq (Float64.ofInt a) (Float64.ofInt b))) then 1 else 0) ∧
      (a.natAbs ≤ 9007199254740992 → b.natAbs ≤ 9007199254740992 →
        comparisonResult quad.Operator (Float64.ofInt a) (Float64.ofInt b) =
          (if (if quad.Operator = "<" then decide (a < b)
               else if quad.Operator = ">" then decide (b < a)
               else if quad.Operator = "==" then decide (a = b)
               else decide (a ≠ b)) then 1 else 0)) := by
  refine ⟨?_, ?_, ?_⟩
  · simp [executeComparison, hleft, hright, hl, hr, toFloat, storeResult, hres, println]
  · rcases hop with h | h | h | h <;> simp [comparisonResult, h]
  · intro ha hb
    have hlt := lt_ofInt a b ha hb
    have hgt := lt_ofInt b a hb ha
    have heq := eq_ofInt a b ha hb
    rcases hop with h | h | h | h <;> simp [comparisonResult, h, hlt, hgt, heq]

theorem int_comparison_result_witness :
    executeComparison specMemory ⟨"<", .int 1000, .int 1001, .int 12000⟩
        (NewVirtualMachine [] [(1000, .int 1), (1001, .int 2)]) =
      .ok { println (NewVirtualMachine [] ([(1000, Value.int 1), (1001, Value.int 2)] : Cells))
              [Value.str "This is the leftVal", Value.int 1] with
            memoryManager := [(12000, Value.int 1), (1000, Value.int 1), (1001, Value.int 2)] } ∧
      comparisonResult "<" (Float64.ofInt 1) (Float64.ofInt 2) = 1 :=
  have h := int_comparison_result specMemory
    (NewVirtualMachine [] [(1000, .int 1), (1001, .int 2)])
    ⟨"<", .int 1000, .int 1001, .int 12000⟩ 1000 1001 12000 1 2
    (by decide) (by decide) (by decide) (by decide) (by decide) (by decide)
  ⟨h.1.trans (by decide), (h.2.2 (by decide) (by decide)).trans (by decide)⟩

/-! ## Statements -/

/-- C11 (fails on the code): `ParseProgram` accepts `program p; var x : int; begin x = 1 +
; end`, and after its only statement the operator stack still holds the `+`; the
operand and type stacks are empty.  This is the defect of C10: `parseAssignment` drops
the error of the right-hand side, so the statement is accepted with its operator
pending. -/
theorem accepted_program_leaves_operator :
    (ParseProgram 20 (NewParser danglingOperatorProgram)).map
      (fun r => (r.err, r.p.curr, r.p.lexer)) = some (none, eofToken, []) ∧
    (ParseProgram 20 (NewParser danglingOperatorProgram)).map
      (fun r => (r.p.codeGenerator.OperandStack, r.p.codeGenerator.OperatorStack,
        r.p.codeGenerator.TypeStack)) = some ([], ["+"], []) := by
  decide

/-- C12: a statement starts with an identifier.  If the token after it is neither `(` nor
`=`, or if it is `=` and `ValidateVarAssignment` rejects the identifier, `parseStatement`
returns the error (the one of `ValidateVarAssignment` in the second case) and the parser
it leaves is the one it was given with the identifier consumed and nothing else: the
token after the identifier is still the current one, and the symbol table and the
emitter, its quadruples and stacks included, are unchanged. -/
theorem identifier_statement_rejected (fuel : Nat) (p : Parser) (err : String)
    (hid : p.curr.Typ = "id")
    (hnext :
      (p.next.curr.Typ ≠ "openParan" ∧ p.next.curr.Typ ≠ "assignOp" ∧
        err = "Expected either = or (, got " ++ p.next.curr.Typ ++ " at line " ++
          toString p.next.curr.Line ++ ", column " ++ toString p.next.curr.Column) ∨
      (p.next.curr.Typ = "assignOp" ∧
        p.symbolTable.ValidateVarAssignment p.curr.Lit p.curr.Line = some err)) :
    parseStatement (fuel + 1) p = some { val := (), err := some err, p := p.next } ∧
      p.next.symbolTable = p.symbolTable ∧ p.next.codeGenerator = p.codeGenerator := by
  have hst : p.next.symbolTable = p.symbolTable := by
    unfold Parser.next; split <;> rfl
  have hcg : p.next.codeGenerator = p.codeGenerator := by
    unfold Parser.next; split <;> rfl
  refine ⟨?_, hst, hcg⟩
  have hstart : p.isStatementStart = (true, none) := by
    simp [Parser.isStatementStart, hid]
  rcases hnext with ⟨h1, h2, rfl⟩ | ⟨h1, h2⟩
  · simp [parseStatement, hstart, hid, h1, h2, Parser.fail]
  · simp [parseStatement, hstart, hid, h1, hst, h2, Parser.fail]

theorem identifier_statement_rejected_witness :
    parseStatement (0 + 1) (NewParser undeclaredAssignment) =
        some { val := (), err := some "Undeclared: line 1: y",
               p := (NewParser undeclaredAssignment).next } ∧
      (NewParser undeclaredAssignment).next.symbolTable =
        (NewParser undeclaredAssignment).symbolTable ∧
      (NewParser undeclaredAssignment).next.codeGenerator =
        (NewParser undeclaredAssignment).codeGenerator :=
  identifier_statement_rejected 0 (NewParser undeclaredAssignment) "Undeclared: line 1: y"
    (by decide) (Or.inr (by decide))

/-- C19 (fails on the code): in `1 + 2 * ;` the right operand of `*` fails to parse.
`parseTerm` still calls `HandleOp` before it looks at that error: the `*` is popped with
the two operands then on the stack, `1` and `2`, and the quadruple `(*, 1, 2, t)` is
emitted after the failure; the error returned is the one of the missing operand. -/
theorem handle_op_runs_after_failed_operand :
    (parseExpression 20 (NewParser missingFactor)).map (fun r => r.err) =
      some (some
        "unexpected token in factor: terminator in line %!l(int=1) and %!t(string=;)") ∧
    (parseExpression 20 (NewParser missingFactor)).map
      (fun r => (r.p.codeGenerator.Quads, r.p.codeGenerator.OperatorStack)) =
      some ([⟨"*", .int 13000, .int 13001, .int 9000⟩], ["+"]) ∧
    (NewParser missingFactor).codeGenerator.Quads = [] := by
  decide

/-! ## Atoms and operators -/

theorem next_symbolTable (p : Parser) : p.next.symbolTable = p.symbolTable := by
  unfold Parser.next; split <;> rfl

theorem next_codeGenerator (p : Parser) : p.next.codeGenerator = p.codeGenerator := by
  unfold Parser.next; split <;> rfl

theorem isAtom_kind {t : Token} (h : isAtom t = true) :
    t.Typ ≠ "openParan" ∧ t.Typ ≠ "expressionOp" := by
  simp [isAtom] at h
  rcases h with (h | h) | h <;> rw [h] <;> decide

/-- On an atom token `parseFactor` is the atom case without a sign. -/
theorem parseFactor_atom (fuel : Nat) (p : Parser) (h : isAtom p.curr = true) :
    parseFactor (fuel + 1) p = some (parseAtom p "") := by
  have hk := isAtom_kind h
  simp [parseFactor, hk.1, hk.2, h]

theorem getType_ok (p : Parser) (tok : Token) (t : SharedType) (p1 : Parser)
    (h : p.getType tok = { val := t, err := none, p := p1 }) : p1 = p.next := by
  unfold Parser.getType at h
  repeat' split at h
  all_goals first
    | (injection h with _ h2 h3; exact h3.symm)
    | (injection h with _ h2 h3; cases h2)

theorem HandleFactor_ok (q q1 : QuadrupleList) (lit : String) (t : SharedType)
    (st : SymbolTable) (h : q.HandleFactor lit t st = (q1, none)) :
    ∃ (addr : Int) (a : Allocator),
      q1 = { q with MemoryManager := a
                    OperandStack := .int addr :: q.OperandStack
                    TypeStack := t :: q.TypeStack } := by
  unfold QuadrupleList.HandleFactor at h
  repeat' split at h
  all_goals first
    | (injection h with h1 h2; exact ⟨_, _, h1.symm⟩)
    | (injection h with h1 h2; cases h2)

/-- An atom that is accepted consumes its token and pushes one operand, an address, with
its type; the operator stack, the quadruples, the jump stack and the symbol table stay
as they are. -/
theorem parseAtom_ok (p : Parser) (sym : String) (t : SharedType) (p1 : Parser)
    (h : parseAtom p sym = { val := t, err := none, p := p1 }) :
    ∃ (addr : Int) (a : Allocator),
      p1 = p.next.withGenerator
        { p.codeGenerator with
          MemoryManager := a
          OperandStack := .int addr :: p.codeGenerator.OperandStack
          TypeStack := t :: p.codeGenerator.TypeStack } := by
  unfold parseAtom at h
  simp only at h
  split at h
  · injection h with _ h2; cases h2
  · rename_i tokType p2 hg
    have hp2 := getType_ok p p.curr tokType p2 hg
    subst hp2
    split at h
    · injection h with _ h2; cases h2
    · rename_i q hq
      injection h with h1 h2 h3
      subst h1 h3
      obtain ⟨addr, a, hq1⟩ := HandleFactor_ok _ _ _ _ _ hq
      refine ⟨addr, a, ?_⟩
      rw [hq1, next_codeGenerator]


theorem HandleOp_ok (q q1 : QuadrupleList) (op : String) (ops : List String)
    (r l : Value) (rest : List Value) (tr tl : SharedType) (ts : List SharedType)
    (ho : q.OperatorStack = op :: ops) (hd : q.OperandStack = r :: l :: rest)
    (ht : q.TypeStack = tr :: tl :: ts) (h : q.HandleOp = (q1, none)) :
    ∃ (rt : SharedType) (temp : Int) (a : Allocator), cube op tl tr = some rt ∧
      q1 = { q with OperatorStack := ops
                    OperandStack := .int temp :: rest
                    TypeStack := rt :: ts
                    MemoryManager := a
                    Quads := q.Quads ++ [⟨op, l, r, .int temp⟩] } := by
  unfold QuadrupleList.HandleOp at h
  rw [ho, hd, ht] at h
  simp only at h
  split at h
  · injection h with h1 h2; cases h2
  · rename_i rt hc
    split at h
    · injection h with h1 h2; cases h2
    · rename_i a temp ha
      injection h with h1 h2
      exact ⟨rt, temp, a, hc, h1.symm⟩

/-- A term that is a single atom: `parseTerm` returns what the atom case returns. -/
theorem parseTerm_atom (fuel : Nat) (p : Parser) (t : SharedType) (pa : Parser)
    (h : isAtom p.curr = true)
    (ha : parseAtom p "" = { val := t, err := none, p := pa })
    (hend : pa.curr.Typ ≠ "termOp") :
    parseTerm (fuel + 2) p = some { val := t, err := none, p := pa } := by
  rw [parseTerm, parseFactor_atom fuel p h, ha]
  simp [hend]

/-- A term that starts with an atom which fails: `parseTerm` returns its error. -/
theorem parseTerm_atom_error (fuel : Nat) (p : Parser) (t : SharedType) (e : String)
    (pa : Parser) (h : isAtom p.curr = true)
    (ha : parseAtom p "" = { val := t, err := some e, p := pa }) :
    parseTerm (fuel + 2) p = some { val := .TypeError, err := some e, p := pa } := by
  rw [parseTerm, parseFactor_atom fuel p h, ha]

/-- A term that starts with an accepted atom followed by a multiplicative operator: what
`parseTerm` returns when it succeeds. -/
theorem parseTerm_atom_op (fuel : Nat) (p : Parser) (t : SharedType) (pa : Parser)
    (ty : SharedType) (p1 : Parser)
    (h : isAtom p.curr = true)
    (ha : parseAtom p "" = { val := t, err := none, p := pa })
    (hop : pa.curr.Typ = "termOp")
    (hok : parseTerm (fuel + 2) p = some { val := ty, err := none, p := p1 }) :
    ∃ (rt : SharedType) (p3 : Parser) (q : QuadrupleList),
      parseTerm (fuel + 1) (pa.next.pushOperator pa.curr.Lit) =
        some { val := rt, err := none, p := p3 } ∧
      p3.codeGenerator.HandleOp = (q, none) ∧ p1 = p3.withGenerator q := by
  rw [parseTerm, parseFactor_atom fuel p h, ha] at hok
  simp only [hop, if_true] at hok
  split at hok
  · cases hok
  · rename_i rt err p3 hrec
    split at hok
    · injection hok with hok; injection hok with _ h2; cases h2
    · rename_i q hq
      split at hok
      · injection hok with hok; injection hok with _ h2; cases h2
      · split at hok
        all_goals
          injection hok with hok
          injection hok with _ _ h3
          exact ⟨rt, p3, q, hrec, hq, h3.symm⟩


theorem next_of_lexer (p : Parser) (t : Token) (r : List Token) (h : p.lexer = t :: r) :
    p.next = { p with curr := t, lexer := r } := by
  unfold Parser.next
  rw [h]

theorem next_curr (p : Parser) : p.next.curr = p.lexer.headD eofToken := by
  unfold Parser.next
  split <;> simp [*]

/-- The emitter after the parser has consumed an operator and pushed it. -/
theorem after_operator (p : Parser) (op : String) :
    (p.next.pushOperator op).codeGenerator.OperandStack = p.codeGenerator.OperandStack ∧
    (p.next.pushOperator op).codeGenerator.TypeStack = p.codeGenerator.TypeStack ∧
    (p.next.pushOperator op).codeGenerator.OperatorStack =
      op :: p.codeGenerator.OperatorStack ∧
    (p.next.pushOperator op).codeGenerator.Quads = p.codeGenerator.Quads := by
  unfold Parser.pushOperator
  simp [next_codeGenerator]

/-- The parser after an accepted atom: position, and stacks with the operand on top. -/
theorem parseAtom_state (p : Parser) (sym : String) (t : SharedType) (p1 : Parser)
    (h : parseAtom p sym = { val := t, err := none, p := p1 }) :
    ∃ operand : Value,
      p1.curr = p.next.curr ∧ p1.lexer = p.next.lexer ∧
      p1.symbolTable = p.symbolTable ∧
      p1.codeGenerator.OperandStack = operand :: p.codeGenerator.OperandStack ∧
      p1.codeGenerator.TypeStack = t :: p.codeGenerator.TypeStack ∧
      p1.codeGenerator.OperatorStack = p.codeGenerator.OperatorStack ∧
      p1.codeGenerator.Quads = p.codeGenerator.Quads ∧
      p1.codeGenerator.JumpStack = p.codeGenerator.JumpStack := by
  obtain ⟨addr, a, rfl⟩ := parseAtom_ok p sym t p1 h
  exact ⟨.int addr, rfl, rfl, next_symbolTable p, rfl, rfl, rfl, rfl, rfl⟩

/-- C18: the term `a op1 b op2 c`, three atoms and two multiplicative operators, followed
by a token that is not a multiplicative operator.  When `parseTerm` accepts it, the
quadruples it has emitted are `(op2, B, C, t1)` followed by `(op1, A, t1, t2)`, where
`A`, `B`, `C` are the operands that the atom case pushes for `a`, `b`, `c` in this order
and `t1`, `t2` are temporaries: the term is grouped to the right.  The result `t2` is
left on the operand stack and the operator stack is as before. -/
theorem multiplicative_chain_groups_right (fuel : Nat) (p : Parser) (o1 b o2 c : Token)
    (rest : List Token) (ty : SharedType) (p1 : Parser)
    (ha : isAtom p.curr = true)
    (hlex : p.lexer = o1 :: b :: o2 :: c :: rest)
    (ho1 : o1.Typ = "termOp") (hb : isAtom b = true)
    (ho2 : o2.Typ = "termOp") (hc : isAtom c = true)
    (hend : (rest.headD eofToken).Typ ≠ "termOp")
    (hok : parseTerm (fuel + 4) p = some { val := ty, err := none, p := p1 }) :
    ∃ (A B C : Value) (t1 t2 : Int),
      (∃ ta pa tb pb tc pc,
        parseAtom p "" = { val := ta, err := none, p := pa } ∧
        pa.codeGenerator.OperandStack = A :: p.codeGenerator.OperandStack ∧
        parseAtom (pa.next.pushOperator o1.Lit) "" = { val := tb, err := none, p := pb } ∧
        pb.codeGenerator.OperandStack = B :: A :: p.codeGenerator.OperandStack ∧
        parseAtom (pb.next.pushOperator o2.Lit) "" = { val := tc, err := none, p := pc } ∧
        pc.codeGenerator.OperandStack = C :: B :: A :: p.codeGenerator.OperandStack) ∧
      p1.codeGenerator.Quads =
        p.codeGenerator.Quads ++ [⟨o2.Lit, B, C, .int t1⟩, ⟨o1.Lit, A, .int t1, .int t2⟩] ∧
      p1.codeGenerator.OperandStack = .int t2 :: p.codeGenerator.OperandStack ∧
      p1.codeGenerator.OperatorStack = p.codeGenerator.OperatorStack := by
  -- the atom `a`
  rcases hA : parseAtom p "" with ⟨ta, ea, pa⟩
  cases ea with
  | some e =>
    have := parseTerm_atom_error (fuel + 2) p ta e pa ha hA
    rw [this] at hok
    injection hok with hok; injection hok with _ h2; cases h2
  | none =>
  obtain ⟨A, hacurr, halex, -, haS, haT, haO, haQ, -⟩ := parseAtom_state p "" ta pa hA
  have hn1 := next_of_lexer p o1 _ hlex
  rw [hn1] at hacurr halex
  simp only at hacurr halex
  obtain ⟨rt, p3, q, hrec, hq, hp1⟩ :=
    parseTerm_atom_op (fuel + 2) p ta pa ty p1 ha hA (by rw [hacurr]; exact ho1) hok
  rw [hacurr] at hrec
  -- the atom `b`
  have hn2 := next_of_lexer pa b _ halex
  have hb2 : isAtom (pa.next.pushOperator o1.Lit).curr = true := by
    rw [hn2]; exact hb
  rcases hB : parseAtom (pa.next.pushOperator o1.Lit) "" with ⟨tb, eb, pb⟩
  cases eb with
  | some e =>
    have := parseTerm_atom_error (fuel + 1) _ tb e pb hb2 hB
    rw [this] at hrec
    injection hrec with hrec; injection hrec with _ h2; cases h2
  | none =>
  obtain ⟨B, hbcurr, hblex, -, hbS, hbT, hbO, hbQ, -⟩ := parseAtom_state _ "" tb pb hB
  have hn2' : (pa.next.pushOperator o1.Lit).lexer = o2 :: c :: rest := by
    rw [hn2]; rfl
  have hn3 := next_of_lexer _ o2 _ hn2'
  rw [hn3] at hbcurr hblex
  simp only at hbcurr hblex
  obtain ⟨rt2, p4, q2, hrec2, hq2, hp3⟩ :=
    parseTerm_atom_op (fuel + 1) _ tb pb rt p3 hb2 hB (by rw [hbcurr]; exact ho2) hrec
  rw [hbcurr] at hrec2
  -- the atom `c`
  have hn4 := next_of_lexer pb c _ hblex
  have hc2 : isAtom (pb.next.pushOperator o2.Lit).curr = true := by
    rw [hn4]; exact hc
  rcases hC : parseAtom (pb.next.pushOperator o2.Lit) "" with ⟨tc, ec, pc⟩
  cases ec with
  | some e =>
    have := parseTerm_atom_error fuel _ tc e pc hc2 hC
    rw [this] at hrec2
    injection hrec2 with hrec2; injection hrec2 with _ h2; cases h2
  | none =>
  obtain ⟨C, hccurr, hclex, -, hcS, hcT, hcO, hcQ, -⟩ := parseAtom_state _ "" tc pc hC
  have hcend : pc.curr.Typ ≠ "termOp" := by
    rw [hccurr, next_curr]
    rw [hn4]
    exact hend
  have hterm := parseTerm_atom fuel _ tc pc hc2 hC hcend
  rw [hterm] at hrec2
  injection hrec2 with hrec2
  injection hrec2 with h1 _ h3
  subst h1 h3
  obtain ⟨hx1, hx2, hx3, hx4⟩ := after_operator pa o1.Lit
  obtain ⟨hy1, hy2, hy3, hy4⟩ := after_operator pb o2.Lit
  -- the two calls of `HandleOp`
  have hS : pc.codeGenerator.OperandStack = C :: B :: A :: p.codeGenerator.OperandStack := by
    rw [hcS, hy1, hbS, hx1, haS]
  have hT : pc.codeGenerator.TypeStack = tc :: tb :: ta :: p.codeGenerator.TypeStack := by
    rw [hcT, hy2, hbT, hx2, haT]
  have hO : pc.codeGenerator.OperatorStack =
      o2.Lit :: o1.Lit :: p.codeGenerator.OperatorStack := by
    rw [hcO, hy3, hbO, hx3, haO]
  have hQ : pc.codeGenerator.Quads = p.codeGenerator.Quads := by
    rw [hcQ, hy4, hbQ, hx4, haQ]
  obtain ⟨r1, t1, a1, -, hq2'⟩ := HandleOp_ok _ _ _ _ _ _ _ _ _ _ hO hS hT hq2
  subst hp3
  have hq' : q2.HandleOp = (q, none) := hq
  have hS2 : q2.OperandStack = .int t1 :: A :: p.codeGenerator.OperandStack := by
    rw [hq2']
  have hT2 : q2.TypeStack = r1 :: ta :: p.codeGenerator.TypeStack := by
    rw [hq2']
  have hO2 : q2.OperatorStack = o1.Lit :: p.codeGenerator.OperatorStack := by
    rw [hq2']
  obtain ⟨r2, t2, a2, -, hq''⟩ := HandleOp_ok _ _ _ _ _ _ _ _ _ _ hO2 hS2 hT2 hq'
  refine ⟨A, B, C, t1, t2, ⟨ta, pa, tb, pb, tc, pc, rfl, haS, hB, ?_, hC, hS⟩, ?_, ?_, ?_⟩
  · rw [hbS, hx1, haS]
  · rw [hp1]
    show q.Quads = _
    rw [hq'', hq2', hQ]
    simp
  · rw [hp1]
    show q.OperandStack = _
    rw [hq'']
  · rw [hp1]
    show q.OperatorStack = _
    rw [hq'']


/-- C15: the expression `a op1 b op2 c` with `op1` additive and `op2` multiplicative
(`a + b * c`, `a - b / c`, ...), followed by a token that is no arithmetic operator.
When `parseExp` accepts it, `HandleOp` has run for the multiplicative operator first: the
quadruples emitted are `(op2, B, C, t1)` followed by `(op1, A, t1, t2)`, where `A`, `B`,
`C` are the operands that the atom case pushes for `a`, `b`, `c` in this order and `t1`,
`t2` are temporaries.  The result `t2` is left on the operand stack and the operator
stack is as before. -/
theorem product_before_sum (fuel : Nat) (p : Parser) (o1 b o2 c : Token)
    (rest : List Token) (ty : SharedType) (p1 : Parser)
    (ha : isAtom p.curr = true)
    (hlex : p.lexer = o1 :: b :: o2 :: c :: rest)
    (ho1 : o1.Typ = "expressionOp") (hb : isAtom b = true)
    (ho2 : o2.Typ = "termOp") (hc : isAtom c = true)
    (hend : (rest.headD eofToken).Typ ≠ "termOp" ∧
      (rest.headD eofToken).Typ ≠ "expressionOp")
    (hok : parseExp (fuel + 5) p = some { val := ty, err := none, p := p1 }) :
    ∃ (A B C : Value) (t1 t2 : Int),
      (∃ ta pa tb pb tc pc,
        parseAtom p "" = { val := ta, err := none, p := pa } ∧
        pa.codeGenerator.OperandStack = A :: p.codeGenerator.OperandStack ∧
        parseAtom (pa.next.pushOperator o1.Lit) "" = { val := tb, err := none, p := pb } ∧
        pb.codeGenerator.OperandStack = B :: A :: p.codeGenerator.OperandStack ∧
        parseAtom (pb.next.pushOperator o2.Lit) "" = { val := tc, err := none, p := pc } ∧
        pc.codeGenerator.OperandStack = C :: B :: A :: p.codeGenerator.OperandStack) ∧
      p1.codeGenerator.Quads =
        p.codeGenerator.Quads ++ [⟨o2.Lit, B, C, .int t1⟩, ⟨o1.Lit, A, .int t1, .int t2⟩] ∧
      p1.codeGenerator.OperandStack = .int t2 :: p.codeGenerator.OperandStack ∧
      p1.codeGenerator.OperatorStack = p.codeGenerator.OperatorStack := by
  -- the atom `a` is the whole first term
  rcases hA : parseAtom p "" with ⟨ta, ea, pa⟩
  cases ea with
  | some e =>
    have := parseTerm_atom_error (fuel + 2) p ta e pa ha hA
    rw [parseExp, this] at hok
    injection hok with hok; injection hok with _ h2; cases h2
  | none =>
  obtain ⟨A, hacurr, halex, -, haS, haT, haO, haQ, -⟩ := parseAtom_state p "" ta pa hA
  have hn1 := next_of_lexer p o1 _ hlex
  rw [hn1] at hacurr halex
  simp only at hacurr halex
  have ho1' : pa.curr.Typ ≠ "termOp" := by rw [hacurr, ho1]; decide
  have hterm1 := parseTerm_atom (fuel + 2) p ta pa ha hA ho1'
  rw [parseExp, hterm1] at hok
  simp only at hok
  -- the loop is entered on `op1`
  rw [parseExpLoop] at hok
  simp only [hacurr, ho1, if_true] at hok
  have hn2 := next_of_lexer pa b _ halex
  have hb2 : isAtom (pa.next.pushOperator o1.Lit).curr = true := by
    rw [hn2]; exact hb
  rcases hB : parseAtom (pa.next.pushOperator o1.Lit) "" with ⟨tb, eb, pb⟩
  cases eb with
  | some e =>
    have := parseTerm_atom_error (fuel + 1) _ tb e pb hb2 hB
    rw [this] at hok
    injection hok with hok; injection hok with _ h2; cases h2
  | none =>
  obtain ⟨B, hbcurr, hblex, -, hbS, hbT, hbO, hbQ, -⟩ := parseAtom_state _ "" tb pb hB
  have hn2' : (pa.next.pushOperator o1.Lit).lexer = o2 :: c :: rest := by
    rw [hn2]; rfl
  have hn3 := next_of_lexer _ o2 _ hn2'
  rw [hn3] at hbcurr hblex
  simp only at hbcurr hblex
  -- the second term is `b op2 c`
  rcases hT2 : parseTerm (fuel + 1 + 2) (pa.next.pushOperator o1.Lit) with _ | ⟨rt, et, p3⟩
  · rw [hT2] at hok; cases hok
  rw [hT2] at hok
  cases et with
  | some e => injection hok with hok; injection hok with _ h2; cases h2
  | none =>
  simp only at hok
  obtain ⟨rt2, p4, q2, hrec2, hq2, hp3⟩ :=
    parseTerm_atom_op (fuel + 1) _ tb pb rt p3 hb2 hB (by rw [hbcurr]; exact ho2) hT2
  rw [hbcurr] at hrec2
  have hn4 := next_of_lexer pb c _ hblex
  have hc2 : isAtom (pb.next.pushOperator o2.Lit).curr = true := by
    rw [hn4]; exact hc
  rcases hC : parseAtom (pb.next.pushOperator o2.Lit) "" with ⟨tc, ec, pc⟩
  cases ec with
  | some e =>
    have := parseTerm_atom_error fuel _ tc e pc hc2 hC
    rw [this] at hrec2
    injection hrec2 with hrec2; injection hrec2 with _ h2; cases h2
  | none =>
  obtain ⟨C, hccurr, hclex, -, hcS, hcT, hcO, hcQ, -⟩ := parseAtom_state _ "" tc pc hC
  have hcz : pc.curr = rest.headD eofToken := by
    rw [hccurr, next_curr, hn4]
    rfl
  have hterm := parseTerm_atom fuel _ tc pc hc2 hC (by rw [hcz]; exact hend.1)
  rw [hterm] at hrec2
  injection hrec2 with hrec2
  injection hrec2 with h1 _ h3
  subst h1 h3
  obtain ⟨hx1, hx2, hx3, hx4⟩ := after_operator pa o1.Lit
  obtain ⟨hy1, hy2, hy3, hy4⟩ := after_operator pb o2.Lit
  have hS : pc.codeGenerator.OperandStack = C :: B :: A :: p.codeGenerator.OperandStack := by
    rw [hcS, hy1, hbS, hx1, haS]
  have hT : pc.codeGenerator.TypeStack = tc :: tb :: ta :: p.codeGenerator.TypeStack := by
    rw [hcT, hy2, hbT, hx2, haT]
  have hO : pc.codeGenerator.OperatorStack =
      o2.Lit :: o1.Lit :: p.codeGenerator.OperatorStack := by
    rw [hcO, hy3, hbO, hx3, haO]
  have hQ : pc.codeGenerator.Quads = p.codeGenerator.Quads := by
    rw [hcQ, hy4, hbQ, hx4, haQ]
  obtain ⟨r1, t1, a1, -, hq2'⟩ := HandleOp_ok _ _ _ _ _ _ _ _ _ _ hO hS hT hq2
  subst hp3
  -- the call of `HandleOp` in the loop, then the loop ends
  rcases hH : (pc.withGenerator q2).codeGenerator.HandleOp with ⟨q, eq⟩
  rw [hH] at hok
  cases eq with
  | some e => injection hok with hok; injection hok with _ h2; cases h2
  | none =>
  simp only at hok
  rw [parseExpLoop] at hok
  have hzc : ((pc.withGenerator q2).withGenerator q).curr = rest.headD eofToken := hcz
  simp only [hzc, hend.2, if_false] at hok
  injection hok with hok
  injection hok with _ _ hp1
  have hq' : q2.HandleOp = (q, none) := hH
  have hS2 : q2.OperandStack = .int t1 :: A :: p.codeGenerator.OperandStack := by
    rw [hq2']
  have hT2' : q2.TypeStack = r1 :: ta :: p.codeGenerator.TypeStack := by
    rw [hq2']
  have hO2 : q2.OperatorStack = o1.Lit :: p.codeGenerator.OperatorStack := by
    rw [hq2']
  obtain ⟨r2, t2, a2, -, hq''⟩ := HandleOp_ok _ _ _ _ _ _ _ _ _ _ hO2 hS2 hT2' hq'
  refine ⟨A, B, C, t1, t2, ⟨ta, pa, tb, pb, tc, pc, rfl, haS, hB, ?_, hC, hS⟩, ?_, ?_, ?_⟩
  · rw [hbS, hx1, haS]
  · rw [← hp1]
    show q.Quads = _
    rw [hq'', hq2', hQ]
    simp
  · rw [← hp1]
    show q.OperandStack = _
    rw [hq'']
  · rw [← hp1]
    show q.OperatorStack = _
    rw [hq'']

theorem multiplicative_chain_groups_right_witness :
    (∃ (A B C : Value) (t1 t2 : Int),
      divisionChainParsed.codeGenerator.Quads =
        (NewParser divisionChain).codeGenerator.Quads ++
          [⟨"/", B, C, .int t1⟩, ⟨"/", A, .int t1, .int t2⟩]) ∧
    divisionChainParsed.codeGenerator.Quads =
      [⟨"/", .int 13001, .int 13002, .int 9000⟩, ⟨"/", .int 13000, .int 9000, .int 9001⟩] ∧
    compiled 20 divisionChainProgram =
      [⟨"goto", .nil, .nil, .int 1⟩, ⟨"/", .int 13001, .int 13002, .int 9000⟩,
       ⟨"/", .int 13000, .int 9000, .int 9001⟩, ⟨"=", .int 9001, .nil, .int 1000⟩] ∧
    (Execute specMemory 10
      (NewVirtualMachine (compiled 20 divisionChainProgram) divisionChainMemory)).map
      (fun o => o.state.memoryManager.lookup 1000) = some (some (.int 4)) := by
  obtain ⟨A, B, C, t1, t2, -, hq, -, -⟩ :=
    multiplicative_chain_groups_right 0 (NewParser divisionChain)
      (tk "termOp" "/") (tk "intLit" "4") (tk "termOp" "/") (tk "intLit" "2")
      [tk "terminator" ";"] .TypeInt divisionChainParsed
      (by decide) (by decide) (by decide) (by decide) (by decide) (by decide) (by decide)
      (by decide)
  exact ⟨⟨A, B, C, t1, t2, hq⟩, by decide, by decide, by decide⟩

theorem product_before_sum_witness :
    (∃ (A B C : Value) (t1 t2 : Int),
      sumOfProductParsed.codeGenerator.Quads =
        (NewParser sumOfProduct).codeGenerator.Quads ++
          [⟨"*", B, C, .int t1⟩, ⟨"+", A, .int t1, .int t2⟩]) ∧
    sumOfProductParsed.codeGenerator.Quads =
      [⟨"*", .int 13001, .int 13002, .int 9000⟩, ⟨"+", .int 13000, .int 9000, .int 9001⟩] ∧
    compiled 20 sumOfProductProgram =
      [⟨"goto", .nil, .nil, .int 1⟩, ⟨"*", .int 13001, .int 13002, .int 9000⟩,
       ⟨"+", .int 13000, .int 9000, .int 9001⟩, ⟨"=", .int 9001, .nil, .int 1000⟩] ∧
    (Execute specMemory 10
      (NewVirtualMachine (compiled 20 sumOfProductProgram) sumOfProductMemory)).map
      (fun o => o.state.memoryManager.lookup 1000) = some (some (.int 14)) := by
  obtain ⟨A, B, C, t1, t2, -, hq, -, -⟩ :=
    product_before_sum 0 (NewParser sumOfProduct)
      (tk "expressionOp" "+") (tk "intLit" "3") (tk "termOp" "*") (tk "intLit" "4")
      [tk "terminator" ";"] .TypeInt sumOfProductParsed
      (by decide) (by decide) (by decide) (by decide) (by decide) (by decide) (by decide)
      (by decide)
  exact ⟨⟨A, B, C, t1, t2, hq⟩, by decide, by decide, by decide⟩

/-! ## The type of an expression -/

theorem wellFormed_next (p : Parser) (h : p.wellFormed = true) : p.next.wellFormed = true := by
  unfold Parser.wellFormed at h ⊢
  unfold Parser.next
  split
  · rename_i hl
    simp [hl, wellFormedToken, eofToken]
  · rename_i t rest hl
    rw [hl] at h
    simp only [List.all_cons, Bool.and_eq_true] at h ⊢
    exact h.2

theorem wellFormed_of_eq (p p1 : Parser) (hc : p1.curr = p.curr) (hl : p1.lexer = p.lexer)
    (h : p.wellFormed = true) : p1.wellFormed = true := by
  unfold Parser.wellFormed at h ⊢
  rw [hc, hl]; exact h

theorem wellFormed_curr (p : Parser) (h : p.wellFormed = true) :
    wellFormedToken p.curr = true := by
  unfold Parser.wellFormed at h
  simp only [List.all_cons, Bool.and_eq_true] at h
  exact h.1

theorem termOp_lit (p : Parser) (h : p.wellFormed = true) (hk : p.curr.Typ = "termOp") :
    p.curr.Lit = "*" ∨ p.curr.Lit = "/" := by
  have := wellFormed_curr p h
  simp [wellFormedToken, hk] at this
  exact this

theorem expressionOp_lit (p : Parser) (h : p.wellFormed = true)
    (hk : p.curr.Typ = "expressionOp") : p.curr.Lit = "+" ∨ p.curr.Lit = "-" := by
  have := wellFormed_curr p h
  simp [wellFormedToken, hk] at this
  exact this

theorem relOp_lit (p : Parser) (h : p.wellFormed = true) (hk : p.curr.Typ = "relOp") :
    p.curr.Lit = "<" ∨ p.curr.Lit = ">" ∨ p.curr.Lit = "==" ∨ p.curr.Lit = "!=" := by
  have := wellFormed_curr p h
  simp [wellFormedToken, hk] at this
  tauto

theorem isNumeric_iff (t : SharedType) : isNumeric t = true ↔ t = .TypeInt ∨ t = .TypeFloat := by
  cases t <;> simp [isNumeric]

theorem lookup_numeric (st : SymbolTable) (name : String) (v : Variable)
    (hn : st.numeric = true) (h : st.lookup name = some v) :
    v.Typ = .TypeInt ∨ v.Typ = .TypeFloat := by
  rw [← isNumeric_iff]
  unfold SymbolTable.numeric at hn
  simp only [Bool.and_eq_true, List.all_eq_true] at hn
  unfold SymbolTable.lookup at h
  simp only at h
  split at h
  · rename_i v1 hv
    cases h
    have hm := List.mem_of_find?_eq_some hv
    split at hm
    · cases hm
    · split at hm
      · cases hm
      · rename_i f r hr
        exact hn.2 r (List.mem_of_find?_eq_some hr) v hm
  · exact hn.1 v (List.mem_of_find?_eq_some h)

theorem getType_numeric (p : Parser) (tok : Token) (t : SharedType) (p1 : Parser)
    (hn : p.symbolTable.numeric = true)
    (h : p.getType tok = { val := t, err := none, p := p1 }) :
    t = .TypeInt ∨ t = .TypeFloat := by
  unfold Parser.getType at h
  split at h
  · injection h with h1; exact Or.inl h1.symm
  · split at h
    · injection h with h1; exact Or.inr h1.symm
    · split at h
      · split at h
        · rename_i t1 hg
          injection h with h1
          subst h1
          unfold SymbolTable.GetType at hg
          split at hg
          · rename_i v hv
            injection hg with hg1
            rw [← hg1]
            exact lookup_numeric _ _ _ hn hv
          · injection hg with _ hg2; cases hg2
        · injection h with _ h2; cases h2
      · injection h with _ h2; cases h2

theorem parseAtom_numeric (p : Parser) (sym : String) (t : SharedType) (p1 : Parser)
    (hn : p.symbolTable.numeric = true)
    (h : parseAtom p sym = { val := t, err := none, p := p1 }) :
    t = .TypeInt ∨ t = .TypeFloat := by
  unfold parseAtom at h
  simp only at h
  split at h
  · injection h with _ h2; cases h2
  · rename_i tokType p2 hg
    split at h
    · injection h with _ h2; cases h2
    · injection h with h1
      subst h1
      exact getType_numeric p p.curr _ p2 hn hg

theorem parseAtom_typed (p : Parser) (sym : String) (r : Ret SharedType)
    (hw : p.wellFormed = true) (hn : p.symbolTable.numeric = true)
    (h : parseAtom p sym = r) (hok : r.err = none) :
    Typed p.symbolTable p.codeGenerator.OperatorStack p.codeGenerator.TypeStack r.val r.p := by
  obtain ⟨val, err, p1⟩ := r
  simp only at hok
  subst hok
  obtain ⟨_, hc, hl, hs, -, ht, ho, -, -⟩ := parseAtom_state p sym val p1 h
  have hnum := parseAtom_numeric p sym val p1 hn h
  refine ⟨hs, wellFormed_of_eq _ _ hc hl (wellFormed_next p hw), ho, val, ht, ?_, ?_⟩
  · rcases hnum with h1 | h1 <;> simp [h1]
  · rcases hnum with h1 | h1 <;> simp [h1, returnedFor]

theorem HandleOp_types (q q1 : QuadrupleList) (op : String) (ops : List String)
    (tr tl : SharedType) (ts : List SharedType)
    (ho : q.OperatorStack = op :: ops) (ht : q.TypeStack = tr :: tl :: ts)
    (h : q.HandleOp = (q1, none)) :
    ∃ rt, cube op tl tr = some rt ∧ q1.OperatorStack = ops ∧ q1.TypeStack = rt :: ts := by
  rcases hd : q.OperandStack with _ | ⟨r, _ | ⟨l, rest⟩⟩
  · unfold QuadrupleList.HandleOp at h
    rw [ho, hd, ht] at h
    simp at h
  · unfold QuadrupleList.HandleOp at h
    rw [ho, hd, ht] at h
    simp at h
  · obtain ⟨rt, temp, a, hc, rfl⟩ := HandleOp_ok q q1 op ops r l rest tr tl ts ho hd ht h
    exact ⟨rt, hc, rfl, rfl⟩

/-- The cube on an arithmetic operator, against the type the parser computes. -/
theorem cube_arithmetic (op : String) (tl tr rt l r : SharedType)
    (hop : op = "+" ∨ op = "-" ∨ op = "*" ∨ op = "/")
    (hc : cube op tl tr = some rt)
    (hl : (tl = .TypeInt ∨ tl = .TypeFloat ∨ tl = .TypeBool) ∧ l = returnedFor tl)
    (hr : (tr = .TypeInt ∨ tr = .TypeFloat ∨ tr = .TypeBool) ∧ r = returnedFor tr) :
    (rt = .TypeInt ∨ rt = .TypeFloat ∨ rt = .TypeBool) ∧
    (if l = .TypeFloat ∨ r = .TypeFloat then SharedType.TypeFloat else .TypeInt) =
      returnedFor rt := by
  obtain ⟨hl1, rfl⟩ := hl
  obtain ⟨hr1, rfl⟩ := hr
  unfold cube at hc
  rw [if_pos hop] at hc
  rcases hl1 with rfl | rfl | rfl <;> rcases hr1 with rfl | rfl | rfl <;>
    simp at hc <;> subst hc <;> simp [returnedFor]

/-- The cube on a relational operator gives `Bool`. -/
theorem cube_relational (op : String) (tl tr rt : SharedType)
    (hop : op = "<" ∨ op = ">" ∨ op = "==" ∨ op = "!=")
    (hc : cube op tl tr = some rt) : rt = .TypeBool := by
  have hna : ¬ (op = "+" ∨ op = "-" ∨ op = "*" ∨ op = "/") := by
    rcases hop with rfl | rfl | rfl | rfl <;> decide
  unfold cube at hc
  rw [if_neg hna, if_pos hop] at hc
  cases tl <;> cases tr <;> simp at hc <;> exact hc.symm

theorem typed_after_operator (p : Parser) (op : String) (hw : p.wellFormed = true) :
    (p.next.pushOperator op).wellFormed = true ∧
    (p.next.pushOperator op).symbolTable = p.symbolTable ∧
    (p.next.pushOperator op).codeGenerator.OperatorStack = op :: p.codeGenerator.OperatorStack ∧
    (p.next.pushOperator op).codeGenerator.TypeStack = p.codeGenerator.TypeStack :=
  ⟨wellFormed_of_eq p.next _ rfl rfl (wellFormed_next p hw), next_symbolTable p,
    (after_operator p op).2.2.1, (after_operator p op).2.1⟩

theorem typed_after_push (p : Parser) (op : String) (hw : p.wellFormed = true) :
    ((p.pushOperator op).next).wellFormed = true ∧
    ((p.pushOperator op).next).symbolTable = p.symbolTable ∧
    ((p.pushOperator op).next).codeGenerator.OperatorStack =
      op :: p.codeGenerator.OperatorStack ∧
    ((p.pushOperator op).next).codeGenerator.TypeStack = p.codeGenerator.TypeStack := by
  refine ⟨wellFormed_next _ (wellFormed_of_eq p _ rfl rfl hw), ?_, ?_, ?_⟩
  · rw [next_symbolTable]; rfl
  · rw [next_codeGenerator]; rfl
  · rw [next_codeGenerator]; rfl

/-- What the five methods of the expression grammar leave behind when they accept. -/
theorem expression_typed (fuel : Nat) :
    (∀ (p : Parser) (r : Ret SharedType), p.wellFormed = true → p.symbolTable.numeric = true →
      parseExpression fuel p = some r → r.err = none →
      Typed p.symbolTable p.codeGenerator.OperatorStack p.codeGenerator.TypeStack r.val r.p) ∧
    (∀ (p : Parser) (r : Ret SharedType), p.wellFormed = true → p.symbolTable.numeric = true →
      parseExp fuel p = some r → r.err = none →
      Typed p.symbolTable p.codeGenerator.OperatorStack p.codeGenerator.TypeStack r.val r.p) ∧
    (∀ (leftType : SharedType) (p : Parser) (r : Ret SharedType) (ts : List SharedType),
      p.symbolTable.numeric = true →
      Typed p.symbolTable p.codeGenerator.OperatorStack ts leftType p →
      parseExpLoop fuel leftType p = some r → r.err = none →
      Typed p.symbolTable p.codeGenerator.OperatorStack ts r.val r.p) ∧
    (∀ (p : Parser) (r : Ret SharedType), p.wellFormed = true → p.symbolTable.numeric = true →
      parseTerm fuel p = some r → r.err = none →
      Typed p.symbolTable p.codeGenerator.OperatorStack p.codeGenerator.TypeStack r.val r.p) ∧
    (∀ (p : Parser) (r : Ret SharedType), p.wellFormed = true → p.symbolTable.numeric = true →
      parseFactor fuel p = some r → r.err = none →
      Typed p.symbolTable p.codeGenerator.OperatorStack p.codeGenerator.TypeStack r.val r.p) := by
  induction fuel with
  | zero =>
    refine ⟨?_, ?_, ?_, ?_, ?_⟩
    · intro p r _ _ h; rw [parseExpression] at h; cases h
    · intro p r _ _ h; rw [parseExp] at h; cases h
    · intro l p r ts _ _ h; rw [parseExpLoop] at h; cases h
    · intro p r _ _ h; rw [parseTerm] at h; cases h
    · intro p r _ _ h; rw [parseFactor] at h; cases h
  | succ n ih =>
    obtain ⟨ihE, ihX, ihL, ihT, ihF⟩ := ih
    refine ⟨?_, ?_, ?_, ?_, ?_⟩
    · -- parseExpression
      intro p r hw hn h hok
      rw [parseExpression] at h
      split at h
      · cases h
      · cases h; cases hok
      · rename_i leftType p1 h1
        obtain ⟨hs1, hw1, ho1, t1, ht1, hk1, hv1⟩ := ihX p _ hw hn h1 rfl
        simp only at hs1 hw1 ho1 ht1 hv1
        split at h
        · rename_i hrel
          simp only at h
          obtain ⟨hw2, hs2, ho2, ht2⟩ := typed_after_push p1 p1.curr.Lit hw1
          split at h
          · cases h
          · cases h; cases hok
          · rename_i rightType p3 h3
            have hn2 : ((p1.pushOperator p1.curr.Lit).next).symbolTable.numeric = true := by
              rw [hs2, hs1]; exact hn
            obtain ⟨hs3, hw3, ho3, t3, ht3, hk3, hv3⟩ := ihX _ _ hw2 hn2 h3 rfl
            simp only at hs3 hw3 ho3 ht3 hv3
            rw [ho2] at ho3
            rw [ht2, ht1] at ht3
            split at h
            · cases h; cases hok
            · rename_i q hq
              cases h
              obtain ⟨rt, hc, hqo, hqt⟩ := HandleOp_types _ _ _ _ _ _ _ ho3 ht3 hq
              have hb := cube_relational _ _ _ _ (relOp_lit p1 hw1 hrel) hc
              subst hb
              refine ⟨?_, wellFormed_of_eq p3 _ rfl rfl hw3, ?_, .TypeBool, hqt, by simp, rfl⟩
              · show p3.symbolTable = _
                rw [hs3, hs2, hs1]
              · show q.OperatorStack = _
                rw [hqo, ho1]
        · cases h
          exact ⟨hs1, hw1, ho1, t1, ht1, hk1, hv1⟩
    · -- parseExp
      intro p r hw hn h hok
      rw [parseExp] at h
      split at h
      · cases h
      · cases h; cases hok
      · rename_i leftType p1 h1
        obtain ⟨hs1, hw1, ho1, hrest⟩ := ihT p _ hw hn h1 rfl
        simp only at hs1 hw1 ho1 hrest
        have hn1 : p1.symbolTable.numeric = true := by rw [hs1]; exact hn
        have := ihL leftType p1 r p.codeGenerator.TypeStack hn1 ⟨rfl, hw1, rfl, hrest⟩ h hok
        rw [hs1, ho1] at this
        exact this
    · -- parseExpLoop
      intro leftType p r ts hn hinv h hok
      obtain ⟨-, hw, -, t, ht, hk, hv⟩ := hinv
      rw [parseExpLoop] at h
      split at h
      · rename_i hop
        simp only at h
        obtain ⟨hw1, hs1, ho1, ht1⟩ := typed_after_operator p p.curr.Lit hw
        have hn1 : (p.next.pushOperator p.curr.Lit).symbolTable.numeric = true := by
          rw [hs1]; exact hn
        split at h
        · cases h
        · cases h; cases hok
        · rename_i rightType p2 h2
          obtain ⟨hs2, hw2, ho2, t2, ht2, hk2, hv2⟩ := ihT _ _ hw1 hn1 h2 rfl
          simp only at hs2 hw2 ho2 ht2 hv2
          rw [ho1] at ho2
          rw [ht1, ht] at ht2
          split at h
          · cases h; cases hok
          · rename_i q hq
            obtain ⟨rt, hc, hqo, hqt⟩ := HandleOp_types _ _ _ _ _ _ _ ho2 ht2 hq
            have hop2 : p.curr.Lit = "+" ∨ p.curr.Lit = "-" ∨ p.curr.Lit = "*" ∨
                p.curr.Lit = "/" := by
              rcases expressionOp_lit p hw hop with h1 | h1
              · exact Or.inl h1
              · exact Or.inr (Or.inl h1)
            obtain ⟨hkr, hvr⟩ := cube_arithmetic _ _ _ _ _ _ hop2 hc ⟨hk, hv⟩ ⟨hk2, hv2⟩
            have hsq : (p2.withGenerator q).symbolTable = p.symbolTable := by
              show p2.symbolTable = _
              rw [hs2, hs1]
            have hoq : (p2.withGenerator q).codeGenerator.OperatorStack =
                p.codeGenerator.OperatorStack := hqo
            have hnq : (p2.withGenerator q).symbolTable.numeric = true := by
              rw [hsq]; exact hn
            have := ihL _ (p2.withGenerator q) r ts hnq
              ⟨rfl, wellFormed_of_eq p2 _ rfl rfl hw2, rfl, rt, hqt, hkr, hvr⟩ h hok
            rw [hsq, hoq] at this
            exact this
      · cases h
        exact ⟨rfl, hw, rfl, t, ht, hk, hv⟩
    · -- parseTerm
      intro p r hw hn h hok
      rw [parseTerm] at h
      split at h
      · cases h
      · cases h; cases hok
      · rename_i leftType p1 h1
        obtain ⟨hs1, hw1, ho1, t1, ht1, hk1, hv1⟩ := ihF p _ hw hn h1 rfl
        simp only at hs1 hw1 ho1 ht1 hv1
        split at h
        · rename_i hop
          simp only at h
          obtain ⟨hw2, hs2, ho2, ht2⟩ := typed_after_operator p1 p1.curr.Lit hw1
          have hn2 : (p1.next.pushOperator p1.curr.Lit).symbolTable.numeric = true := by
            rw [hs2, hs1]; exact hn
          split at h
          · cases h
          · rename_i rightType err p3 h3
            split at h
            · cases h; cases hok
            · rename_i q hq
              split at h
              · cases h; cases hok
              · obtain ⟨hs3, hw3, ho3, t3, ht3, hk3, hv3⟩ := ihT _ _ hw2 hn2 h3 rfl
                simp only at hs3 hw3 ho3 ht3 hv3
                rw [ho2] at ho3
                rw [ht2, ht1] at ht3
                obtain ⟨rt, hc, hqo, hqt⟩ := HandleOp_types _ _ _ _ _ _ _ ho3 ht3 hq
                have hop2 : p1.curr.Lit = "+" ∨ p1.curr.Lit = "-" ∨ p1.curr.Lit = "*" ∨
                    p1.curr.Lit = "/" := by
                  rcases termOp_lit p1 hw1 hop with h1 | h1
                  · exact Or.inr (Or.inr (Or.inl h1))
                  · exact Or.inr (Or.inr (Or.inr h1))
                obtain ⟨hkr, hvr⟩ := cube_arithmetic _ _ _ _ _ _ hop2 hc ⟨hk1, hv1⟩ ⟨hk3, hv3⟩
                have hsq : p3.symbolTable = p.symbolTable := by rw [hs3, hs2, hs1]
                have hoq : q.OperatorStack = p.codeGenerator.OperatorStack := by
                  rw [hqo, ho1]
                split at h
                · rename_i hf
                  cases h
                  rw [if_pos hf] at hvr
                  exact ⟨hsq, wellFormed_of_eq p3 _ rfl rfl hw3, hoq, rt, hqt, hkr, hvr⟩
                · rename_i hf
                  cases h
                  rw [if_neg hf] at hvr
                  exact ⟨hsq, wellFormed_of_eq p3 _ rfl rfl hw3, hoq, rt, hqt, hkr, hvr⟩
        · cases h
          exact ⟨hs1, hw1, ho1, t1, ht1, hk1, hv1⟩
    · -- parseFactor
      intro p r hw hn h hok
      rw [parseFactor] at h
      split at h
      · rename_i hparen
        simp only at h
        have hw1 : ((p.withGenerator p.codeGenerator.HandleOpenParen).next).wellFormed = true :=
          wellFormed_next _ (wellFormed_of_eq p _ rfl rfl hw)
        have hs1 : ((p.withGenerator p.codeGenerator.HandleOpenParen).next).symbolTable =
            p.symbolTable := by rw [next_symbolTable]; rfl
        have hg1 : ((p.withGenerator p.codeGenerator.HandleOpenParen).next).codeGenerator =
            p.codeGenerator.HandleOpenParen := by rw [next_codeGenerator]; rfl
        have hn1 : ((p.withGenerator p.codeGenerator.HandleOpenParen).next).symbolTable.numeric
            = true := by rw [hs1]; exact hn
        split at h
        · cases h
        · cases h; cases hok
        · rename_i exprType p2 h2
          obtain ⟨hs2, hw2, ho2, t2, ht2, hk2, hv2⟩ := ihE _ _ hw1 hn1 h2 rfl
          simp only at hs2 hw2 ho2 ht2 hv2
          rw [hg1] at ho2 ht2
          split at h
          · cases h; cases hok
          · rename_i q hq
            split at h
            · cases h; cases hok
            · rename_i u p3 he
              cases h
              unfold Parser.expect at he
              split at he
              · rename_i hclose
                injection he with _ _ hp3
                have hclose2 : p2.curr.Typ = "closeParan" := hclose
                rw [if_pos hclose2] at hq
                unfold QuadrupleList.HandleCloseParen at hq
                rw [ho2] at hq
                simp only [QuadrupleList.HandleOpenParen] at hq
                injection hq with hq1
                subst hq1 hp3
                refine ⟨?_, wellFormed_next _ (wellFormed_of_eq p2 _ rfl rfl hw2), ?_,
                  t2, ?_, hk2, hv2⟩
                · rw [next_symbolTable]; show p2.symbolTable = _; rw [hs2, hs1]
                · rw [next_codeGenerator]; rfl
                · rw [next_codeGenerator]; exact ht2
              · injection he with _ he2; cases he2
      · split at h
        · simp only at h
          split at h
          · cases h; cases hok
          · split at h
            · injection h with h
              have := parseAtom_typed p.next _ r (wellFormed_next p hw)
                (by rw [next_symbolTable]; exact hn) h hok
              rw [next_symbolTable, next_codeGenerator] at this
              exact this
            · cases h; cases hok
        · split at h
          · injection h with h
            exact parseAtom_typed p "" r hw hn h hok
          · cases h; cases hok

/-- An accepted expression with a relational operator leaves `Bool` on the type stack. -/
theorem parseExpression_relational (fuel : Nat) (p : Parser) (r : Ret SharedType)
    (l : SharedType) (p1 : Parser)
    (hw : p.wellFormed = true) (hn : p.symbolTable.numeric = true)
    (h : parseExpression (fuel + 1) p = some r) (hok : r.err = none)
    (h1 : parseExp fuel p = some { val := l, err := none, p := p1 })
    (hrel : p1.curr.Typ = "relOp") :
    r.p.codeGenerator.TypeStack = .TypeBool :: p.codeGenerator.TypeStack := by
  obtain ⟨-, ihX, -, -, -⟩ := expression_typed fuel
  obtain ⟨hs1, hw1, ho1, t1, ht1, hk1, hv1⟩ := ihX p _ hw hn h1 rfl
  simp only at hs1 hw1 ho1 ht1 hv1
  obtain ⟨hw2, hs2, ho2, ht2⟩ := typed_after_push p1 p1.curr.Lit hw1
  have hn2 : ((p1.pushOperator p1.curr.Lit).next).symbolTable.numeric = true := by
    rw [hs2, hs1]; exact hn
  rw [parseExpression, h1] at h
  simp only [hrel, if_true] at h
  split at h
  · cases h
  · cases h; cases hok
  · rename_i rightType p3 h3
    obtain ⟨hs3, hw3, ho3, t3, ht3, hk3, hv3⟩ := ihX _ _ hw2 hn2 h3 rfl
    simp only at hs3 hw3 ho3 ht3 hv3
    rw [ho2] at ho3
    rw [ht2, ht1] at ht3
    split at h
    · cases h; cases hok
    · rename_i q hq
      cases h
      obtain ⟨rt, hc, hqo, hqt⟩ := HandleOp_types _ _ _ _ _ _ _ ho3 ht3 hq
      have hb := cube_relational _ _ _ _ (relOp_lit p1 hw1 hrel) hc
      subst hb
      exact hqt

/-- C20 (fails on the code): on `1 < 2` the cube gives `Bool`, and `Bool` is what
`HandleOp` leaves on top of the type stack, but `parseExpression` returns `Int`. -/
theorem relational_expression_returns_int :
    (parseExpression 10 (NewParser comparison)).map
        (fun r => (r.val, r.err, r.p.codeGenerator.TypeStack)) =
      some (.TypeInt, none, [.TypeBool]) ∧
    cube "<" .TypeInt .TypeInt = some .TypeBool := by
  decide

/-- C20 (as amended): for every expression that `parseExpression` accepts, on well-formed
operator tokens and with every declared variable an `Int` or a `Float`, exactly one type
`top` is pushed on `TypeStack`: the result type the cube assigned, `Int`, `Float` or
`Bool`.  The type `parseExpression` returns equals `top` when `top` is `Int` or `Float`,
and is `Int` when `top` is `Bool`; an expression with a relational operator has
`top = Bool`, so for it the returned type differs from the type of the cube. -/
theorem expression_type (fuel : Nat) (p : Parser) (r : Ret SharedType)
    (hw : p.wellFormed = true) (hn : p.symbolTable.numeric = true)
    (h : parseExpression (fuel + 1) p = some r) (hok : r.err = none) :
    ∃ top, r.p.codeGenerator.TypeStack = top :: p.codeGenerator.TypeStack ∧
      (top = .TypeInt ∨ top = .TypeFloat ∨ top = .TypeBool) ∧
      r.val = (if top = .TypeBool then .TypeInt else top) ∧
      (∀ (l : SharedType) (p1 : Parser),
        parseExp fuel p = some { val := l, err := none, p := p1 } →
        p1.curr.Typ = "relOp" → top = .TypeBool ∧ r.val = .TypeInt) := by
  obtain ⟨-, -, -, top, ht, hk, hv⟩ := (expression_typed (fuel + 1)).1 p r hw hn h hok
  refine ⟨top, ht, hk, hv, ?_⟩
  intro l p1 h1 hrel
  have hb := parseExpression_relational fuel p r l p1 hw hn h hok h1 hrel
  rw [ht] at hb
  injection hb with hb
  subst hb
  exact ⟨rfl, hv⟩

theorem expression_type_witness :
    (mixedSumParsed.val = .TypeFloat ∧
      ∃ top, mixedSumParsed.p.codeGenerator.TypeStack = top :: [] ∧
        (top = .TypeInt ∨ top = .TypeFloat ∨ top = .TypeBool) ∧
        mixedSumParsed.val = (if top = .TypeBool then .TypeInt else top) ∧
        (∀ (l : SharedType) (p1 : Parser),
          parseExp 9 mixedSumParser = some { val := l, err := none, p := p1 } →
          p1.curr.Typ = "relOp" → top = .TypeBool ∧ mixedSumParsed.val = .TypeInt)) ∧
    (comparisonParsed.val = .TypeInt ∧
      ∃ top, comparisonParsed.p.codeGenerator.TypeStack = top :: [] ∧
        (top = .TypeInt ∨ top = .TypeFloat ∨ top = .TypeBool) ∧
        comparisonParsed.val = (if top = .TypeBool then .TypeInt else top) ∧
        (∀ (l : SharedType) (p1 : Parser),
          parseExp 9 (NewParser comparison) = some { val := l, err := none, p := p1 } →
          p1.curr.Typ = "relOp" → top = .TypeBool ∧ comparisonParsed.val = .TypeInt)) :=
  ⟨⟨by decide, expression_type 9 mixedSumParser mixedSumParsed (by decide) (by decide)
      (by decide) (by decide)⟩,
   ⟨by decide, expression_type 9 (NewParser comparison) comparisonParsed (by decide)
      (by decide) (by decide) (by decide)⟩⟩

/-! ## What the parser keeps -/

theorem keeps_refl (q : QuadrupleList) : Keeps q q :=
  fun h => ⟨h, rfl, le_refl _⟩

theorem keeps_trans {a b c : QuadrupleList} (h1 : Keeps a b) (h2 : Keeps b c) : Keeps a c := by
  intro ha
  obtain ⟨hb, hh1, hl1⟩ := h1 ha
  obtain ⟨hc, hh2, hl2⟩ := h2 hb
  exact ⟨hc, hh2.trans hh1, le_trans hl1 hl2⟩

theorem keeps_of_eq {q q1 : QuadrupleList} (hq : q1.Quads = q.Quads)
    (hj : q1.JumpStack = q.JumpStack) : Keeps q q1 := by
  intro h
  unfold Good at h ⊢
  rw [hq, hj]
  exact ⟨h, rfl, le_refl _⟩

theorem head?_append_of_pos {α : Type} (l m : List α) (h : 1 ≤ l.length) :
    (l ++ m).head? = l.head? := by
  cases l with
  | nil => simp at h
  | cons a t => rfl

theorem keeps_of_append {q q1 : QuadrupleList} (extra : List Quadruple)
    (hq : q1.Quads = q.Quads ++ extra) (hj : q1.JumpStack = q.JumpStack) : Keeps q q1 := by
  intro h
  unfold Good at h ⊢
  rw [hq, hj, List.length_append]
  exact ⟨⟨by omega, h.2⟩, head?_append_of_pos _ _ h.1, by omega⟩

theorem head?_set_of_pos {α : Type} (l : List α) (n : Nat) (a : α) (h : 1 ≤ n) :
    (l.set n a).head? = l.head? := by
  cases l with
  | nil => rfl
  | cons b t =>
    cases n with
    | zero => omega
    | succ k => rfl

theorem patch_quads (q : QuadrupleList) (j t : Int) (hj : 1 ≤ j) :
    (q.patch j t).Quads.head? = q.Quads.head? ∧
    (q.patch j t).Quads.length = q.Quads.length ∧
    (q.patch j t).JumpStack = q.JumpStack := by
  unfold QuadrupleList.patch
  split
  · exact ⟨rfl, rfl, rfl⟩
  · split
    · exact ⟨rfl, rfl, rfl⟩
    · refine ⟨head?_set_of_pos _ _ _ (by omega), by simp, rfl⟩

theorem sameStarts_refl (st : SymbolTable) : SameStarts st st := fun _ => rfl

theorem sameStarts_trans {a b c : SymbolTable} (h1 : SameStarts a b) (h2 : SameStarts b c) :
    SameStarts a c := fun name => (h2 name).trans (h1 name)

theorem quiet_refl (p : Parser) : Quiet p p := ⟨sameStarts_refl _, rfl, rfl⟩

theorem quiet_trans {a b c : Parser} (h1 : Quiet a b) (h2 : Quiet b c) : Quiet a c :=
  ⟨sameStarts_trans h1.1 h2.1, h2.2.1.trans h1.2.1, h2.2.2.trans h1.2.2⟩

theorem rel_refl (p : Parser) : Rel p p := ⟨sameStarts_refl _, keeps_refl _⟩

theorem rel_trans {a b c : Parser} (h1 : Rel a b) (h2 : Rel b c) : Rel a c :=
  ⟨sameStarts_trans h1.1 h2.1, keeps_trans h1.2 h2.2⟩

theorem quiet_rel {a b : Parser} (h : Quiet a b) : Rel a b :=
  ⟨h.1, keeps_of_eq h.2.1 h.2.2⟩

theorem keepsP_refl (p : Parser) : KeepsP p p := keeps_refl _

theorem keepsP_trans {a b c : Parser} (h1 : KeepsP a b) (h2 : KeepsP b c) : KeepsP a c :=
  keeps_trans h1 h2

theorem rel_keepsP {a b : Parser} (h : Rel a b) : KeepsP a b := h.2

theorem holds_mono {α : Type} {R S : Parser → Parser → Prop} {p : Parser}
    {r : Option (Ret α)} (hRS : ∀ a b, R a b → S a b) (h : Holds R p r) : Holds S p r :=
  fun x hx => hRS _ _ (h x hx)

theorem holds_some {α : Type} {R : Parser → Parser → Prop} {p : Parser} {x : Ret α}
    (h : R p x.p) : Holds R p (some x) := by
  intro y hy
  cases hy
  exact h

theorem holds_none {α : Type} {R : Parser → Parser → Prop} {p : Parser} :
    Holds R p (none : Option (Ret α)) := by
  intro y hy
  cases hy

/-- The idiom `if err != nil { return err }` keeps a transitive relation that each of its
two steps keeps. -/
theorem holds_bind {α β : Type} [Inhabited β] {R : Parser → Parser → Prop}
    (htrans : ∀ a b c, R a b → R b c → R a c) {p : Parser} {r : Option (Ret α)}
    {k : α → Parser → Option (Ret β)} (h1 : Holds R p r)
    (h2 : ∀ v p1, Holds R p1 (k v p1)) : Holds R p (andThen r k) := by
  intro x hx
  unfold andThen at hx
  split at hx
  · cases hx
  · rename_i v err p1
    cases hx
    exact h1 _ rfl
  · rename_i v p1
    exact htrans _ _ _ (h1 _ rfl) (h2 v p1 x hx)

/-- A call made on parser `p1`, reached from `p`, keeps what both steps keep. -/
theorem holds_after {α : Type} {R : Parser → Parser → Prop}
    (htrans : ∀ a b c, R a b → R b c → R a c) {p p1 : Parser} {r : Option (Ret α)}
    (h0 : R p p1) (h : Holds R p1 r) : Holds R p r :=
  fun x hx => htrans _ _ _ h0 (h x hx)

/-- When the idiom returns `nil`, both of its steps did. -/
theorem andThen_ok {α β : Type} [Inhabited β] {r : Option (Ret α)}
    {k : α → Parser → Option (Ret β)} {v : β} {pf : Parser}
    (h : andThen r k = some { val := v, err := none, p := pf }) :
    ∃ a p1, r = some { val := a, err := none, p := p1 } ∧
      k a p1 = some { val := v, err := none, p := pf } := by
  unfold andThen at h
  split at h
  · cases h
  · injection h with h; injection h with _ h2; cases h2
  · rename_i a p1
    exact ⟨a, p1, rfl, h⟩

/-! ### The hooks of the emitter -/

theorem HandleFactor_keeps (q : QuadrupleList) (lit : String) (t : SharedType)
    (st : SymbolTable) : Keeps q (q.HandleFactor lit t st).1 := by
  unfold QuadrupleList.HandleFactor
  repeat' split
  all_goals exact keeps_of_eq rfl rfl

theorem HandleOp_keeps (q : QuadrupleList) : Keeps q q.HandleOp.1 := by
  unfold QuadrupleList.HandleOp
  split
  · simp only
    repeat' split
    all_goals first
      | exact keeps_of_eq rfl rfl
      | exact keeps_of_append [_] rfl rfl
  · exact keeps_refl _

theorem HandleOpenParen_keeps (q : QuadrupleList) : Keeps q q.HandleOpenParen :=
  keeps_of_eq rfl rfl

theorem HandleCloseParen_keeps (q : QuadrupleList) : Keeps q q.HandleCloseParen.1 := by
  unfold QuadrupleList.HandleCloseParen
  repeat' split
  all_goals exact keeps_of_eq rfl rfl

theorem HandleAssignment_keeps (q : QuadrupleList) (a : Int) (t : SharedType) :
    Keeps q (q.HandleAssignment a t).1 := by
  unfold QuadrupleList.HandleAssignment
  split
  · simp only
    repeat' split
    all_goals first
      | exact keeps_of_eq rfl rfl
      | exact keeps_of_append [_] rfl rfl
  · exact keeps_refl _

theorem HandleParam_keeps (q : QuadrupleList) (arg : Value) (k : Int) :
    Keeps q (q.HandleParam arg k).1 :=
  keeps_of_append [_] rfl rfl

theorem emit_keeps (q : QuadrupleList) (quad : Quadruple) : Keeps q (q.emit quad) :=
  keeps_of_append [quad] rfl rfl

theorem HandleERA_keeps (q : QuadrupleList) (name : String) : Keeps q (q.HandleERA name).1 :=
  emit_keeps _ _

theorem HandleGOSUB_keeps (q : QuadrupleList) (name : String) (s : Int) :
    Keeps q (q.HandleGOSUB name s).1 :=
  emit_keeps _ _

theorem HandleENDPROC_keeps (q : QuadrupleList) : Keeps q q.HandleENDPROC.1 :=
  emit_keeps _ _

theorem HandlePrint_keeps (q : QuadrupleList) (x : Value) : Keeps q (q.HandlePrint x).1 := by
  unfold QuadrupleList.HandlePrint
  repeat' split
  all_goals first
    | exact keeps_of_eq rfl rfl
    | exact keeps_of_append [_] rfl rfl

theorem handleGuard_keeps (q : QuadrupleList) : Keeps q q.handleGuard.1 := by
  unfold QuadrupleList.handleGuard
  split
  · intro h
    obtain ⟨h1, h2⟩ := h
    refine ⟨⟨?_, ?_⟩, head?_append_of_pos _ _ h1, ?_⟩
    · simp only [List.length_append]; omega
    · intro j hj
      simp only [List.mem_cons] at hj
      rcases hj with rfl | hj
      · unfold QuadrupleList.nextIndex; omega
      · exact h2 j hj
    · simp only [List.length_append]; omega
  · exact keeps_refl _

theorem HandleElse_keeps (q : QuadrupleList) : Keeps q q.HandleElse.1 := by
  unfold QuadrupleList.HandleElse
  split
  · exact keeps_refl _
  · rename_i j jumps hjs
    intro h
    obtain ⟨h1, h2⟩ := h
    have hj : 1 ≤ j := h2 j (by rw [hjs]; exact List.mem_cons_self _ _)
    simp only
    obtain ⟨e1, e2, e3⟩ := patch_quads
      { q with Quads := q.Quads ++ [⟨"goto", .nil, .nil, .nil⟩],
               JumpStack := q.nextIndex :: jumps }
      j (QuadrupleList.nextIndex
        { q with Quads := q.Quads ++ [⟨"goto", .nil, .nil, .nil⟩],
                 JumpStack := q.nextIndex :: jumps }) hj
    refine ⟨⟨?_, ?_⟩, ?_, ?_⟩
    · rw [e2]; simp only [List.length_append]; omega
    · rw [e3]
      intro i hi
      simp only [List.mem_cons] at hi
      rcases hi with rfl | hi
      · unfold QuadrupleList.nextIndex; omega
      · exact h2 i (by rw [hjs]; exact List.mem_cons_of_mem _ hi)
    · rw [e1]; exact head?_append_of_pos _ _ h1
    · rw [e2]; simp only [List.length_append]; omega

theorem HandleEndIf_keeps (q : QuadrupleList) : Keeps q q.HandleEndIf.1 := by
  unfold QuadrupleList.HandleEndIf
  split
  · exact keeps_refl _
  · rename_i j jumps hjs
    intro h
    obtain ⟨h1, h2⟩ := h
    have hj : 1 ≤ j := h2 j (by rw [hjs]; exact List.mem_cons_self _ _)
    simp only
    obtain ⟨e1, e2, e3⟩ := patch_quads { q with JumpStack := jumps } j q.nextIndex hj
    refine ⟨⟨?_, ?_⟩, ?_, ?_⟩
    · rw [e2]; exact h1
    · rw [e3]
      intro i hi
      exact h2 i (by rw [hjs]; exact List.mem_cons_of_mem _ hi)
    · rw [e1]
    · rw [e2]

theorem HandleWhileEnd_keeps (q : QuadrupleList) (start : Int) :
    Keeps q (q.HandleWhileEnd start).1 := by
  unfold QuadrupleList.HandleWhileEnd
  split
  · exact keeps_refl _
  · rename_i j jumps hjs
    intro h
    obtain ⟨h1, h2⟩ := h
    have hj : 1 ≤ j := h2 j (by rw [hjs]; exact List.mem_cons_self _ _)
    simp only
    obtain ⟨e1, e2, e3⟩ := patch_quads
      { q with Quads := q.Quads ++ [⟨"goto", .nil, .nil, .int start⟩], JumpStack := jumps }
      j (QuadrupleList.nextIndex
        { q with Quads := q.Quads ++ [⟨"goto", .nil, .nil, .int start⟩], JumpStack := jumps })
      hj
    refine ⟨⟨?_, ?_⟩, ?_, ?_⟩
    · rw [e2]; simp only [List.length_append]; omega
    · rw [e3]
      intro i hi
      exact h2 i (by rw [hjs]; exact List.mem_cons_of_mem _ hi)
    · rw [e1]; exact head?_append_of_pos _ _ h1
    · rw [e2]; simp only [List.length_append]; omega

/-! ### Steps of the parser -/

theorem quiet_next (p : Parser) : Quiet p p.next := by
  refine ⟨?_, ?_, ?_⟩
  · rw [next_symbolTable]; exact sameStarts_refl _
  · rw [next_codeGenerator]
  · rw [next_codeGenerator]

theorem quiet_expect (p : Parser) (kind : String) : Quiet p (p.expect kind).p := by
  unfold Parser.expect
  split
  · exact quiet_next p
  · exact quiet_refl p

theorem quiet_pushOperator (p : Parser) (op : String) : Quiet p (p.pushOperator op) :=
  ⟨sameStarts_refl _, rfl, rfl⟩

theorem rel_withGenerator (p : Parser) (q : QuadrupleList) (h : Keeps p.codeGenerator q) :
    Rel p (p.withGenerator q) :=
  ⟨sameStarts_refl _, h⟩

theorem holds_expecting (p : Parser) (kind : String) : Holds Quiet p (p.expecting kind) :=
  holds_some (quiet_expect p kind)

theorem holds_done (R : Parser → Parser → Prop) (hrefl : ∀ a, R a a) (p : Parser) :
    Holds R p p.done :=
  holds_some (hrefl p)

theorem holds_fail (R : Parser → Parser → Prop) (hrefl : ∀ a, R a a) (p : Parser)
    (err : String) : Holds R p (p.fail err) :=
  holds_some (hrefl p)

theorem holds_hook (p : Parser) (r : QuadrupleList × Option String)
    (h : Keeps p.codeGenerator r.1) : Holds Rel p (p.hook r) :=
  holds_some (rel_withGenerator p r.1 h)

/-! ### Expressions -/

theorem keeps_of_fst {q0 q : QuadrupleList} {e : Option String}
    {r : QuadrupleList × Option String} (h : r = (q, e)) (hk : Keeps q0 r.1) : Keeps q0 q := by
  subst h; exact hk

theorem quiet_getType (p : Parser) (tok : Token) : Quiet p (p.getType tok).p := by
  unfold Parser.getType
  repeat' split
  all_goals first
    | exact quiet_next p
    | exact quiet_refl p

theorem rel_parseAtom (p : Parser) (sym : String) : Rel p (parseAtom p sym).p := by
  unfold parseAtom
  simp only
  split
  · rename_i h
    have := quiet_getType p p.curr
    rw [h] at this
    exact quiet_rel this
  · rename_i h
    have h1 := quiet_getType p p.curr
    rw [h] at h1
    split
    all_goals
      rename_i hq
      exact rel_trans (quiet_rel h1)
        (rel_withGenerator _ _ (keeps_of_fst hq (HandleFactor_keeps _ _ _ _)))

/-- Whatever the five methods of the expression grammar return, no start quad has changed
and the emitter was kept. -/
theorem expression_keeps (fuel : Nat) :
    (∀ p, Holds Rel p (parseExpression fuel p)) ∧
    (∀ p, Holds Rel p (parseExp fuel p)) ∧
    (∀ l p, Holds Rel p (parseExpLoop fuel l p)) ∧
    (∀ p, Holds Rel p (parseTerm fuel p)) ∧
    (∀ p, Holds Rel p (parseFactor fuel p)) := by
  induction fuel with
  | zero =>
    refine ⟨?_, ?_, ?_, ?_, ?_⟩
    · intro p; rw [parseExpression]; exact holds_none
    · intro p; rw [parseExp]; exact holds_none
    · intro l p; rw [parseExpLoop]; exact holds_none
    · intro p; rw [parseTerm]; exact holds_none
    · intro p; rw [parseFactor]; exact holds_none
  | succ n ih =>
    obtain ⟨ihE, ihX, ihL, ihT, ihF⟩ := ih
    refine ⟨?_, ?_, ?_, ?_, ?_⟩
    · intro p
      rw [parseExpression]
      split
      · exact holds_none
      · rename_i h1; have r0 := ihX p _ h1; exact holds_some r0
      · rename_i leftType p1 h1
        have r1 : Rel p p1 := ihX p _ h1
        split
        · simp only
          have r2 : Rel p ((p1.pushOperator p1.curr.Lit).next) := rel_trans r1
            (rel_trans (quiet_rel (quiet_pushOperator _ _)) (quiet_rel (quiet_next _)))
          split
          · exact holds_none
          · rename_i h3; have r0 := ihX _ _ h3; exact holds_some (rel_trans r2 r0)
          · rename_i h3
            have r0 := ihX _ _ h3
            have r3 := rel_trans r2 r0
            split
            all_goals
              rename_i hq
              have hk := keeps_of_fst hq (HandleOp_keeps _)
              exact holds_some (rel_trans r3 (rel_withGenerator _ _ hk))
        · exact holds_some r1
    · intro p
      rw [parseExp]
      split
      · exact holds_none
      · rename_i h1; have r0 := ihT p _ h1; exact holds_some r0
      · rename_i h1
        have r0 := ihT p _ h1
        intro x hx
        exact rel_trans r0 (ihL _ _ x hx)
    · intro l p
      rw [parseExpLoop]
      split
      · simp only
        have r1 : Rel p (p.next.pushOperator p.curr.Lit) :=
          rel_trans (quiet_rel (quiet_next _)) (quiet_rel (quiet_pushOperator _ _))
        split
        · exact holds_none
        · rename_i h2; have r0 := ihT _ _ h2; exact holds_some (rel_trans r1 r0)
        · rename_i h2
          have r0 := ihT _ _ h2
          have r2 := rel_trans r1 r0
          split
          · rename_i hq
            have hk := keeps_of_fst hq (HandleOp_keeps _)
            exact holds_some (rel_trans r2 (rel_withGenerator _ _ hk))
          · rename_i hq
            have hk := keeps_of_fst hq (HandleOp_keeps _)
            intro x hx
            exact rel_trans (rel_trans r2 (rel_withGenerator _ _ hk)) (ihL _ _ x hx)
      · exact holds_some (rel_refl p)
    · intro p
      rw [parseTerm]
      split
      · exact holds_none
      · rename_i h1; have r0 := ihF p _ h1; exact holds_some r0
      · rename_i leftType p1 h1
        have r1 : Rel p p1 := ihF p _ h1
        split
        · simp only
          have r2 : Rel p (p1.next.pushOperator p1.curr.Lit) := rel_trans r1
            (rel_trans (quiet_rel (quiet_next _)) (quiet_rel (quiet_pushOperator _ _)))
          split
          · exact holds_none
          · rename_i h3
            have r0 := ihT _ _ h3
            have r3 := rel_trans r2 r0
            split
            · rename_i hq
              have hk := keeps_of_fst hq (HandleOp_keeps _)
              exact holds_some (rel_trans r3 (rel_withGenerator _ _ hk))
            · rename_i hq
              have hk := keeps_of_fst hq (HandleOp_keeps _)
              repeat' split
              all_goals exact holds_some (rel_trans r3 (rel_withGenerator _ _ hk))
        · exact holds_some r1
    · intro p
      rw [parseFactor]
      split
      · simp only
        have r1 : Rel p ((p.withGenerator p.codeGenerator.HandleOpenParen).next) :=
          rel_trans (rel_withGenerator _ _ (HandleOpenParen_keeps _)) (quiet_rel (quiet_next _))
        split
        · exact holds_none
        · rename_i h2; have r0 := ihE _ _ h2; exact holds_some (rel_trans r1 r0)
        · rename_i exprType p2 h2
          have r0 := ihE _ _ h2
          have r2 := rel_trans r1 r0
          have hk : ∀ q e, (if p2.curr.Typ = "closeParan" then p2.codeGenerator.HandleCloseParen
              else (p2.codeGenerator, none)) = (q, e) → Keeps p2.codeGenerator q := by
            intro q e hq
            split at hq
            · exact keeps_of_fst hq (HandleCloseParen_keeps p2.codeGenerator)
            · cases hq; exact keeps_refl _
          split
          · rename_i hq
            exact holds_some (rel_trans r2 (rel_withGenerator _ _ (hk _ _ hq)))
          · rename_i q hq
            have r3 : Rel p (p2.withGenerator q) :=
              rel_trans r2 (rel_withGenerator _ _ (hk _ _ hq))
            split
            all_goals
              rename_i he
              have r4 := quiet_rel (quiet_expect (p2.withGenerator q) "closeParan")
              rw [he] at r4
              exact holds_some (rel_trans r3 r4)
      · split
        · simp only
          split
          · exact holds_some (rel_refl p)
          · split
            · exact holds_some (rel_trans (quiet_rel (quiet_next p)) (rel_parseAtom _ _))
            · exact holds_some (quiet_rel (quiet_next p))
        · split
          · exact holds_some (rel_parseAtom _ _)
          · exact holds_some (rel_refl p)

/-! ### Statements -/

theorem rel_trans3 : ∀ a b c : Parser, Rel a b → Rel b c → Rel a c :=
  fun _ _ _ => rel_trans

theorem quiet_trans3 : ∀ a b c : Parser, Quiet a b → Quiet b c → Quiet a c :=
  fun _ _ _ => quiet_trans

theorem keepsP_trans3 : ∀ a b c : Parser, KeepsP a b → KeepsP b c → KeepsP a c :=
  fun _ _ _ => keepsP_trans

theorem quiet_rel2 : ∀ a b : Parser, Quiet a b → Rel a b := fun _ _ => quiet_rel

theorem rel_keepsP2 : ∀ a b : Parser, Rel a b → KeepsP a b := fun _ _ => rel_keepsP

theorem holds_expecting_rel (p : Parser) (kind : String) : Holds Rel p (p.expecting kind) :=
  holds_mono quiet_rel2 (holds_expecting p kind)

theorem holds_parseExpression (fuel : Nat) (p : Parser) :
    Holds Rel p (parseExpression fuel p) :=
  (expression_keeps fuel).1 p

theorem rel_handleArgument (p : Parser) (k : Int) : Rel p (handleArgument p k).p := by
  unfold handleArgument
  split
  · exact rel_refl p
  · simp only
    have h0 : Keeps p.codeGenerator
        { p.codeGenerator with OperandStack := ‹List Value›,
                               TypeStack := p.codeGenerator.TypeStack.drop 1 } :=
      keeps_of_eq rfl rfl
    split
    all_goals
      rename_i hq
      exact rel_withGenerator _ _ (keeps_trans h0 (keeps_of_fst hq (HandleParam_keeps _ _ _)))

theorem holds_parseArgumentLoop (fuel : Nat) :
    ∀ (k : Int) (ts : List SharedType) (p : Parser),
      Holds Rel p (parseArgumentLoop fuel k ts p) := by
  induction fuel with
  | zero => intro k ts p; rw [parseArgumentLoop]; exact holds_none
  | succ n ih =>
    intro k ts p
    rw [parseArgumentLoop]
    split
    · simp only
      split
      · exact holds_none
      · rename_i argType err p2 h2
        have r0 := holds_parseExpression n p.next _ h2
        have r2 : Rel p p2 := rel_trans (quiet_rel (quiet_next p)) r0
        split
        · exact holds_some r2
        · split
          · rename_i h3
            have r3 := rel_handleArgument p2 k
            rw [h3] at r3
            exact holds_some (rel_trans r2 r3)
          · rename_i h3
            have r3 := rel_handleArgument p2 k
            rw [h3] at r3
            intro x hx
            exact rel_trans (rel_trans r2 r3) (ih _ _ _ x hx)
    · exact holds_some (rel_refl p)

theorem holds_parseArgumentList (fuel : Nat) (p : Parser) :
    Holds Rel p (parseArgumentList fuel p) := by
  unfold parseArgumentList
  split
  · exact holds_some (rel_refl p)
  · split
    · exact holds_none
    · rename_i h1
      have r0 := holds_parseExpression fuel p _ h1
      exact holds_some r0
    · rename_i currType p1 h1
      have r1 : Rel p p1 := holds_parseExpression fuel p _ h1
      split
      · rename_i h2
        have r2 := rel_handleArgument p1 0
        rw [h2] at r2
        exact holds_some (rel_trans r1 r2)
      · rename_i h2
        have r2 := rel_handleArgument p1 0
        rw [h2] at r2
        intro x hx
        exact rel_trans (rel_trans r1 r2) (holds_parseArgumentLoop fuel _ _ _ x hx)

theorem holds_parseAssignment (fuel : Nat) (p : Parser) (id nextToken : Token) :
    Holds Rel p (parseAssignment fuel p id nextToken) := by
  unfold parseAssignment
  split
  · exact holds_some (rel_refl p)
  · split
    · exact holds_none
    · rename_i t e p1 h1
      have r0 := holds_parseExpression fuel p.next _ h1
      have r1 : Rel p p1 := rel_trans (quiet_rel (quiet_next p)) r0
      split
      · exact holds_some r1
      · split
        · exact holds_some r1
        · split
          · rename_i hq
            exact holds_some (rel_trans r1
              (rel_withGenerator _ _ (keeps_of_fst hq (HandleAssignment_keeps _ _ _))))
          · rename_i q hq
            have r2 : Rel p (p1.withGenerator q) := rel_trans r1
              (rel_withGenerator _ _ (keeps_of_fst hq (HandleAssignment_keeps _ _ _)))
            exact holds_some (rel_trans r2 (quiet_rel (quiet_expect _ _)))

theorem holds_parseFunctionCall (fuel : Nat) (p : Parser) (id : Token) :
    Holds Rel p (parseFunctionCall fuel p id) := by
  unfold parseFunctionCall
  simp only
  refine holds_bind rel_trans3 (holds_expecting_rel _ _) (fun _ p1 => ?_)
  refine holds_bind rel_trans3 (holds_hook _ _ (HandleERA_keeps _ _)) (fun _ p2 => ?_)
  refine holds_bind rel_trans3 (holds_parseArgumentList _ _) (fun _ p3 => ?_)
  refine holds_bind rel_trans3 (holds_expecting_rel _ _) (fun _ p4 => ?_)
  split
  · exact holds_fail Rel rel_refl _ _
  · split
    · exact holds_fail Rel rel_refl _ _
    · exact holds_hook _ _ (HandleGOSUB_keeps _ _ _)

theorem holds_parsePrintItem (fuel : Nat) (p : Parser) :
    Holds Rel p (parsePrintItem fuel p) := by
  unfold parsePrintItem
  split
  · refine holds_bind rel_trans3 (holds_hook _ _ (HandlePrint_keeps _ _)) (fun _ p1 => ?_)
    exact holds_some (quiet_rel (quiet_next p1))
  · refine holds_bind rel_trans3 (holds_parseExpression _ _) (fun _ p1 => ?_)
    split
    · exact holds_fail Rel rel_refl _ _
    · simp only
      refine holds_bind rel_trans3 ?_ (fun _ p2 => holds_done Rel rel_refl p2)
      refine holds_some (rel_withGenerator _ _ ?_)
      rename_i result operands _
      have h0 : Keeps p1.codeGenerator
          { p1.codeGenerator with OperandStack := operands,
                                  TypeStack := p1.codeGenerator.TypeStack.drop 1 } :=
        keeps_of_eq rfl rfl
      exact keeps_trans h0 (HandlePrint_keeps _ _)

theorem holds_parsePrintListLoop (fuel : Nat) :
    ∀ p, Holds Rel p (parsePrintListLoop fuel p) := by
  induction fuel with
  | zero => intro p; rw [parsePrintListLoop]; exact holds_none
  | succ n ih =>
    intro p
    rw [parsePrintListLoop]
    split
    · refine holds_after rel_trans3 (quiet_rel (quiet_next p)) ?_
      exact holds_bind rel_trans3 (holds_parsePrintItem _ _) (fun _ p1 => ih p1)
    · exact holds_done Rel rel_refl p

theorem holds_parsePrintList (fuel : Nat) (p : Parser) :
    Holds Rel p (parsePrintList fuel p) := by
  unfold parsePrintList
  exact holds_bind rel_trans3 (holds_parsePrintItem _ _)
    (fun _ p1 => holds_parsePrintListLoop fuel p1)

theorem holds_parsePrintStatement (fuel : Nat) (p : Parser) :
    Holds Rel p (parsePrintStatement fuel p) := by
  unfold parsePrintStatement
  refine holds_bind rel_trans3 (holds_expecting_rel _ _) (fun _ p1 => ?_)
  refine holds_bind rel_trans3 (holds_expecting_rel _ _) (fun _ p2 => ?_)
  refine holds_bind rel_trans3 (holds_parsePrintList _ _) (fun _ p3 => ?_)
  exact holds_expecting_rel _ _

/-- Whatever the five methods of the statement grammar return, no start quad has changed
and the emitter was kept. -/
theorem statement_keeps (fuel : Nat) :
    (∀ p, Holds Rel p (parseBlock fuel p)) ∧
    (∀ p, Holds Rel p (parseStatementList fuel p)) ∧
    (∀ p, Holds Rel p (parseStatement fuel p)) ∧
    (∀ p, Holds Rel p (parseWhileStatement fuel p)) ∧
    (∀ p, Holds Rel p (parseIfStatement fuel p)) := by
  induction fuel with
  | zero =>
    refine ⟨?_, ?_, ?_, ?_, ?_⟩
    · intro p; rw [parseBlock]; exact holds_none
    · intro p; rw [parseStatementList]; exact holds_none
    · intro p; rw [parseStatement]; exact holds_none
    · intro p; rw [parseWhileStatement]; exact holds_none
    · intro p; rw [parseIfStatement]; exact holds_none
  | succ n ih =>
    obtain ⟨ihB, ihL, ihS, ihW, ihI⟩ := ih
    refine ⟨?_, ?_, ?_, ?_, ?_⟩
    · intro p
      rw [parseBlock]
      refine holds_bind rel_trans3 (holds_expecting_rel _ _) (fun _ p1 => ?_)
      refine holds_bind rel_trans3 (ihL _) (fun _ p2 => ?_)
      exact holds_expecting_rel _ _
    · intro p
      rw [parseStatementList]
      split
      · exact holds_fail Rel rel_refl _ _
      · exact holds_done Rel rel_refl _
      · exact holds_bind rel_trans3 (ihS _) (fun _ p1 => ihL p1)
    · intro p
      rw [parseStatement]
      split
      · exact holds_done Rel rel_refl _
      · exact holds_fail Rel rel_refl _ _
      · split
        · exact ihI p
        · split
          · exact ihW p
          · split
            · exact holds_parsePrintStatement n p
            · split
              · simp only
                refine holds_after rel_trans3 (quiet_rel (quiet_next p)) ?_
                split
                · exact holds_parseFunctionCall _ _ _
                · split
                  · split
                    · exact holds_fail Rel rel_refl _ _
                    · exact holds_parseAssignment _ _ _ _
                  · exact holds_fail Rel rel_refl _ _
              · exact holds_done Rel rel_refl _
    · intro p
      rw [parseWhileStatement]
      refine holds_bind rel_trans3 (holds_expecting_rel _ _) (fun _ p1 => ?_)
      simp only
      refine holds_bind rel_trans3 (holds_expecting_rel _ _) (fun _ p2 => ?_)
      refine holds_bind rel_trans3 (holds_parseExpression _ _) (fun _ p3 => ?_)
      refine holds_bind rel_trans3 (holds_hook _ _ (handleGuard_keeps _)) (fun _ p4 => ?_)
      refine holds_bind rel_trans3 (holds_expecting_rel _ _) (fun _ p5 => ?_)
      refine holds_bind rel_trans3 (ihB _) (fun _ p6 => ?_)
      exact holds_hook _ _ (HandleWhileEnd_keeps _ _)
    · intro p
      rw [parseIfStatement]
      refine holds_bind rel_trans3 (holds_expecting_rel _ _) (fun _ p1 => ?_)
      refine holds_bind rel_trans3 (holds_expecting_rel _ _) (fun _ p2 => ?_)
      refine holds_bind rel_trans3 (holds_parseExpression _ _) (fun _ p3 => ?_)
      refine holds_bind rel_trans3 (holds_expecting_rel _ _) (fun _ p4 => ?_)
      refine holds_bind rel_trans3 (holds_hook _ _ (handleGuard_keeps _)) (fun _ p5 => ?_)
      refine holds_bind rel_trans3 (ihB _) (fun _ p6 => ?_)
      split
      · simp only
        refine holds_after rel_trans3 (quiet_rel (quiet_next p6)) ?_
        refine holds_bind rel_trans3 (holds_hook _ _ (HandleElse_keeps _)) (fun _ p8 => ?_)
        refine holds_bind rel_trans3 (ihB _) (fun _ p9 => ?_)
        exact holds_hook _ _ (HandleEndIf_keeps _)
      · exact holds_hook _ _ (HandleEndIf_keeps _)

/-! ### Declarations -/

theorem find?_update (l : List FunctionRecord) (fn name : String)
    (g : FunctionRecord → FunctionRecord) (hg : ∀ r, (g r).Name = r.Name) :
    (l.map (fun r => if r.Name == fn then g r else r)).find? (fun r => r.Name == name) =
      (l.find? (fun r => r.Name == name)).map (fun r => if r.Name == fn then g r else r) := by
  induction l with
  | nil => rfl
  | cons a t ih =>
    have hname : (if a.Name == fn then g a else a).Name = a.Name := by
      split
      · exact hg a
      · rfl
    simp only [List.map_cons, List.find?_cons, hname]
    split
    · rfl
    · exact ih

theorem findFunction_updateFunction (st : SymbolTable) (fn name : String)
    (g : FunctionRecord → FunctionRecord) (hg : ∀ r, (g r).Name = r.Name) :
    (st.updateFunction fn g).findFunction name =
      (st.findFunction name).map (fun r => if r.Name == fn then g r else r) := by
  unfold SymbolTable.findFunction SymbolTable.updateFunction
  exact find?_update _ _ _ _ hg

theorem sameStarts_updateFunction (st : SymbolTable) (fn : String)
    (g : FunctionRecord → FunctionRecord) (hg : ∀ r, (g r).Name = r.Name)
    (hs : ∀ r, (g r).StartQuad = r.StartQuad) : SameStarts st (st.updateFunction fn g) := by
  intro name
  unfold SymbolTable.GetFunctionStartQuad
  rw [findFunction_updateFunction st fn name g hg]
  cases st.findFunction name with
  | none => rfl
  | some r =>
    simp only [Option.map_some']
    split
    · rw [hs]
    · rfl

theorem sameStarts_of_functions (st st1 : SymbolTable) (h : st1.functions = st.functions) :
    SameStarts st st1 := by
  intro name
  unfold SymbolTable.GetFunctionStartQuad SymbolTable.findFunction
  rw [h]

theorem sameStarts_AddGlobal (st : SymbolTable) (v : Variable) :
    SameStarts st (st.AddGlobal v).1 := by
  unfold SymbolTable.AddGlobal
  split
  · exact sameStarts_refl _
  · exact sameStarts_of_functions _ _ rfl

theorem sameStarts_AddLocal (st : SymbolTable) (v : Variable) :
    SameStarts st (st.AddLocal v).1 := by
  unfold SymbolTable.AddLocal
  repeat' split
  all_goals first
    | exact sameStarts_refl _
    | exact sameStarts_updateFunction _ _ _ (fun _ => rfl) (fun _ => rfl)

theorem quiet_of_memory (p : Parser) (a : Allocator) :
    Quiet p (p.withGenerator { p.codeGenerator with MemoryManager := a }) :=
  ⟨sameStarts_refl _, rfl, rfl⟩

theorem quiet_of_table (p : Parser) (st : SymbolTable) (h : SameStarts p.symbolTable st) :
    Quiet p { p with symbolTable := st } :=
  ⟨h, rfl, rfl⟩

theorem holds_addVariablesToSymbolTable (semType : SharedType) (names : List String) :
    ∀ p, Holds Quiet p (addVariablesToSymbolTable p semType names) := by
  induction names with
  | nil => intro p; rw [addVariablesToSymbolTable]; exact holds_done Quiet quiet_refl p
  | cons name rest ih =>
    intro p
    rw [addVariablesToSymbolTable]
    simp only
    split
    · exact holds_some (quiet_of_memory p _)
    · rename_i a addr ha
      have r1 := quiet_of_memory p a
      have hadd : ∀ st e,
          (if p.symbolTable.current.isSome = true then
              (p.withGenerator { p.codeGenerator with MemoryManager := a }).symbolTable.AddLocal
                { Name := name, Typ := semType, Line := 0, Column := 0, Address := addr }
            else
              (p.withGenerator { p.codeGenerator with MemoryManager := a }).symbolTable.AddGlobal
                { Name := name, Typ := semType, Line := 0, Column := 0, Address := addr }) =
            (st, e) → SameStarts p.symbolTable st := by
        intro st e h
        split at h
        · have := sameStarts_AddLocal p.symbolTable
            { Name := name, Typ := semType, Line := 0, Column := 0, Address := addr }
          have h2 : (p.symbolTable.AddLocal
            { Name := name, Typ := semType, Line := 0, Column := 0, Address := addr }) = (st, e) := h
          rw [h2] at this
          exact this
        · have := sameStarts_AddGlobal p.symbolTable
            { Name := name, Typ := semType, Line := 0, Column := 0, Address := addr }
          have h2 : (p.symbolTable.AddGlobal
            { Name := name, Typ := semType, Line := 0, Column := 0, Address := addr }) = (st, e) := h
          rw [h2] at this
          exact this
      split
      · rename_i st err hst
        exact holds_some (quiet_trans r1 (quiet_of_table _ _ (hadd _ _ hst)))
      · rename_i st hst
        intro x hx
        exact quiet_trans (quiet_trans r1 (quiet_of_table _ _ (hadd _ _ hst))) (ih _ x hx)

theorem holds_parseProgramName (p : Parser) : Holds Quiet p (parseProgramName p) := by
  unfold parseProgramName
  refine holds_bind quiet_trans3 (holds_expecting _ _) (fun _ p1 => ?_)
  refine holds_bind quiet_trans3 (holds_expecting _ _) (fun _ p2 => ?_)
  exact holds_expecting _ _

theorem holds_parseType (p : Parser) : Holds Quiet p (parseType p) := by
  unfold parseType
  refine holds_bind quiet_trans3 (holds_expecting _ _) (fun _ p1 => ?_)
  exact holds_some (quiet_refl p1)

theorem holds_parseVarListLoop (fuel : Nat) :
    ∀ (vars : List String) (p : Parser), Holds Quiet p (parseVarListLoop fuel vars p) := by
  induction fuel with
  | zero => intro vars p; rw [parseVarListLoop]; exact holds_none
  | succ n ih =>
    intro vars p
    rw [parseVarListLoop]
    split
    · simp only
      refine holds_after quiet_trans3 (quiet_next p) ?_
      exact holds_bind quiet_trans3 (holds_expecting _ _) (fun _ p2 => ih _ p2)
    · exact holds_some (quiet_refl p)

theorem holds_parseVarList (fuel : Nat) (p : Parser) : Holds Quiet p (parseVarList fuel p) := by
  unfold parseVarList
  refine holds_bind quiet_trans3 (holds_expecting _ _) (fun _ p1 => ?_)
  refine holds_bind quiet_trans3 (holds_parseVarListLoop _ _ _) (fun vars p2 => ?_)
  refine holds_bind quiet_trans3 (holds_expecting _ _) (fun _ p3 => ?_)
  split
  · exact holds_fail Quiet quiet_refl _ _
  · refine holds_bind quiet_trans3 (holds_addVariablesToSymbolTable _ _ _) (fun _ p4 => ?_)
    refine holds_bind quiet_trans3 (holds_parseType _) (fun _ p5 => ?_)
    exact holds_done Quiet quiet_refl _

/-- The declaration of variables emits nothing, patches nothing and changes no start
quad. -/
theorem declaration_quiet (fuel : Nat) :
    (∀ p b, Holds Quiet p (parseVarDeclarationSection fuel p b)) ∧
    (∀ p b, Holds Quiet p (varDeclarationLoop fuel p b)) ∧
    (∀ p b, Holds Quiet p (parseVarDeclaration fuel p b)) := by
  induction fuel with
  | zero =>
    refine ⟨?_, ?_, ?_⟩
    · intro p b; rw [parseVarDeclarationSection]; exact holds_none
    · intro p b; rw [varDeclarationLoop]; exact holds_none
    · intro p b; rw [parseVarDeclaration]; exact holds_none
  | succ n ih =>
    obtain ⟨ihS, ihL, ihD⟩ := ih
    refine ⟨?_, ?_, ?_⟩
    · intro p b
      rw [parseVarDeclarationSection]
      split
      · split
        · exact holds_fail Quiet quiet_refl _ _
        · exact holds_done Quiet quiet_refl _
      · exact ihL p b
    · intro p b
      rw [varDeclarationLoop]
      split
      · exact holds_bind quiet_trans3 (ihD _ _) (fun _ p1 => ihL p1 b)
      · exact holds_done Quiet quiet_refl _
    · intro p b
      rw [parseVarDeclaration]
      refine holds_bind quiet_trans3 (holds_expecting _ _) (fun _ p1 => ?_)
      refine holds_bind quiet_trans3 (holds_parseVarList _ _) (fun _ p2 => ?_)
      refine holds_bind quiet_trans3 (holds_expecting _ _) (fun _ p3 => ?_)
      exact ihS p3 b

theorem holds_parseParameter (p : Parser) : Holds Quiet p (parseParameter p) := by
  unfold parseParameter
  refine holds_bind quiet_trans3 (holds_expecting _ _) (fun _ p1 => ?_)
  refine holds_bind quiet_trans3 (holds_expecting _ _) (fun _ p2 => ?_)
  exact holds_parseType _

theorem holds_allocateLocal (p : Parser) (t : SharedType) :
    Holds Quiet p (p.allocateLocal t) := by
  unfold Parser.allocateLocal
  split
  exact holds_some (quiet_of_memory p _)

theorem holds_parseParameterLoop (fuel : Nat) :
    ∀ (params : List Variable) (p : Parser),
      Holds Quiet p (parseParameterLoop fuel params p) := by
  induction fuel with
  | zero => intro params p; rw [parseParameterLoop]; exact holds_none
  | succ n ih =>
    intro params p
    rw [parseParameterLoop]
    split
    · simp only
      split
      · exact holds_none
      · rename_i currType e p2 h2
        have r0 := holds_parseParameter p.next _ h2
        have r2 : Quiet p p2 := quiet_trans (quiet_next p) r0
        split
        · exact holds_some r2
        · refine holds_after quiet_trans3 r2 ?_
          exact holds_bind quiet_trans3 (holds_allocateLocal _ _) (fun _ p3 => ih _ p3)
    · exact holds_some (quiet_refl p)

theorem holds_parseParameterList (fuel : Nat) (p : Parser) :
    Holds Quiet p (parseParameterList fuel p) := by
  unfold parseParameterList
  split
  · exact holds_some (quiet_refl p)
  · simp only
    refine holds_bind quiet_trans3 (holds_parseParameter _) (fun _ p1 => ?_)
    refine holds_bind quiet_trans3 (holds_allocateLocal _ _) (fun _ p2 => ?_)
    exact holds_parseParameterLoop _ _ _

/-! ### Functions and the program -/

theorem holds_parseFunctionBlock (fuel : Nat) (p : Parser) :
    Holds Rel p (parseFunctionBlock fuel p) := by
  unfold parseFunctionBlock
  refine holds_bind rel_trans3 (holds_expecting_rel _ _) (fun _ p1 => ?_)
  refine holds_bind rel_trans3 (holds_mono quiet_rel2 ((declaration_quiet fuel).1 _ _))
    (fun _ p2 => ?_)
  refine holds_bind rel_trans3 ((statement_keeps fuel).2.1 _) (fun _ p3 => ?_)
  exact holds_expecting_rel _ _

theorem holds_table (p : Parser) (r : SymbolTable × Option String) :
    Holds KeepsP p (p.table r) :=
  holds_some (keeps_refl _)

theorem holds_expecting_keepsP (p : Parser) (kind : String) :
    Holds KeepsP p (p.expecting kind) :=
  holds_mono rel_keepsP2 (holds_expecting_rel p kind)

theorem holds_popSegment (p : Parser) : Holds KeepsP p p.popSegment := by
  unfold Parser.popSegment
  split
  exact holds_some (keeps_of_eq rfl rfl)

/-- Whatever `parseFunctionList` and `parseFunction` return, the emitter was kept. -/
theorem function_keeps (fuel : Nat) :
    (∀ p, Holds KeepsP p (parseFunctionList fuel p)) ∧
    (∀ p, Holds KeepsP p (parseFunction fuel p)) := by
  induction fuel with
  | zero =>
    refine ⟨?_, ?_⟩
    · intro p; rw [parseFunctionList]; exact holds_none
    · intro p; rw [parseFunction]; exact holds_none
  | succ n ih =>
    obtain ⟨ihL, ihF⟩ := ih
    refine ⟨?_, ?_⟩
    · intro p
      rw [parseFunctionList]
      split
      · exact holds_bind keepsP_trans3 (ihF _) (fun _ p1 => ihL p1)
      · exact holds_done KeepsP keepsP_refl _
    · intro p
      rw [parseFunction]
      refine holds_bind keepsP_trans3 (holds_expecting_keepsP _ _) (fun _ p1 => ?_)
      simp only
      refine holds_bind keepsP_trans3 (holds_expecting_keepsP _ _) (fun _ p2 => ?_)
      refine holds_bind keepsP_trans3 (holds_expecting_keepsP _ _) (fun _ p3 => ?_)
      have r3 : KeepsP p3 p3.pushSegment := keeps_of_eq rfl rfl
      refine holds_after keepsP_trans3 r3 ?_
      refine holds_bind keepsP_trans3
        (holds_mono rel_keepsP2 (holds_mono quiet_rel2 (holds_parseParameterList _ _)))
        (fun params p4 => ?_)
      refine holds_bind keepsP_trans3 (holds_table _ _) (fun _ p5 => ?_)
      refine holds_bind keepsP_trans3 (holds_table _ _) (fun _ p6 => ?_)
      refine holds_bind keepsP_trans3 (holds_expecting_keepsP _ _) (fun _ p7 => ?_)
      refine holds_bind keepsP_trans3 (holds_table _ _) (fun _ p8 => ?_)
      refine holds_bind keepsP_trans3 (holds_mono rel_keepsP2 (holds_parseFunctionBlock _ _))
        (fun _ p9 => ?_)
      refine holds_bind keepsP_trans3
        (holds_mono rel_keepsP2 (holds_hook _ _ (HandleENDPROC_keeps _))) (fun _ p10 => ?_)
      refine holds_bind keepsP_trans3 (holds_popSegment _) (fun _ p11 => ?_)
      refine holds_bind keepsP_trans3 (holds_expecting_keepsP _ _) (fun _ p12 => ?_)
      have r12 : KeepsP p12 { p12 with symbolTable := p12.symbolTable.ExitFunctionScope } :=
        keeps_refl _
      exact holds_after keepsP_trans3 r12 (ihL _)

theorem holds_parseFunctionListOpt (fuel : Nat) (p : Parser) :
    Holds KeepsP p (parseFunctionListOpt fuel p) := by
  unfold parseFunctionListOpt
  split
  · exact holds_done KeepsP keepsP_refl _
  · exact (function_keeps fuel).1 p

theorem ok_of_err_none {r : Option (Ret Unit)} (h : r.map (fun x => x.err) = some none) :
    ∃ pf, r = some { val := (), err := none, p := pf } := by
  cases r with
  | none => cases h
  | some x =>
    obtain ⟨v, e, pf⟩ := x
    simp only [Option.map_some', Option.some.injEq] at h
    subst h
    exact ⟨pf, rfl⟩

theorem expect_ok {p p1 : Parser} {kind : String} {v : Unit}
    (h : p.expecting kind = some { val := v, err := none, p := p1 }) :
    p.curr.Typ = kind ∧ p1 = p.next := by
  unfold Parser.expecting Parser.expect at h
  split at h
  · rename_i hk
    injection h with h
    injection h with _ _ h3
    exact ⟨hk, h3.symm⟩
  · injection h with h
    injection h with _ h2
    cases h2

/-- C13: when `ParseProgram` accepts a program, starting from an emitter that has emitted
nothing and has nothing on `JumpStack`: the parser `p2` that `parseFunctionListOpt` starts
from holds one quadruple, the entry `goto`; the functions are parsed from `p2` to `p3`,
which stands on `begin`; and in the end quad 0 is `(goto, ∅, ∅, m)` with `m` the length of
the quadruple list at `p3`, when `begin` is consumed.  So the quadruples emitted for the
function bodies, those added between `p2` and `p3`, have the indices from 1 up to but not
including `m`, and the quadruples of the main section have the indices from `m` on. -/
theorem entry_goto_points_to_main (fuel : Nat) (p : Parser)
    (hq : p.codeGenerator.Quads = []) (hj : p.codeGenerator.JumpStack = [])
    (h : (ParseProgram fuel p).map (fun r => r.err) = some none) :
    ∃ p1 p2 p3 pf : Parser,
      ParseProgram fuel p = some { val := (), err := none, p := pf } ∧
      parseProgramName (p.withGenerator p.codeGenerator.HandleProgramStart) =
        some { val := (), err := none, p := p1 } ∧
      parseVarDeclarationSection fuel p1 false = some { val := (), err := none, p := p2 } ∧
      parseFunctionListOpt fuel p2 = some { val := (), err := none, p := p3 } ∧
      parseMainSection fuel p3 = some { val := (), err := none, p := pf } ∧
      p3.curr.Typ = "kwdBegin" ∧
      p2.codeGenerator.Quads.length = 1 ∧
      p2.codeGenerator.Quads.length ≤ p3.codeGenerator.Quads.length ∧
      p3.codeGenerator.Quads.length ≤ pf.codeGenerator.Quads.length ∧
      pf.codeGenerator.Quads.head? =
        some ⟨"goto", .nil, .nil, .int (p3.codeGenerator.Quads.length : Int)⟩ := by
  obtain ⟨pf, hpf⟩ := ok_of_err_none h
  have hrun := hpf
  unfold ParseProgram at hrun
  simp only at hrun
  obtain ⟨_, p1, h1, hrun⟩ := andThen_ok hrun
  obtain ⟨_, p2, h2, hrun⟩ := andThen_ok hrun
  obtain ⟨_, p3, h3, hrun⟩ := andThen_ok hrun
  obtain ⟨_, p4, h4, hrun⟩ := andThen_ok hrun
  unfold Parser.done at hrun
  injection hrun with hrun
  injection hrun with _ _ hp4
  subst hp4
  -- the emitter before the functions
  have q0 : (p.withGenerator p.codeGenerator.HandleProgramStart).codeGenerator.Quads =
      [⟨"goto", .nil, .nil, .nil⟩] := by
    show (p.codeGenerator.HandleProgramStart).Quads = _
    unfold QuadrupleList.HandleProgramStart QuadrupleList.emit
    rw [hq]; rfl
  have j0 : (p.withGenerator p.codeGenerator.HandleProgramStart).codeGenerator.JumpStack =
      [] := hj
  have r1 := holds_parseProgramName _ _ h1
  have r2 := (declaration_quiet fuel).1 _ _ _ h2
  obtain ⟨-, e2, f2⟩ := quiet_trans r1 r2
  simp only at e2 f2
  rw [q0] at e2
  rw [j0] at f2
  have g2 : Good p2.codeGenerator := by
    unfold Good
    rw [e2, f2]
    exact ⟨by simp, by simp⟩
  -- the functions
  have r3 : KeepsP p2 p3 := holds_parseFunctionListOpt fuel p2 _ h3
  obtain ⟨g3, hd3, le3⟩ := r3 g2
  -- the main section
  have hmain := h4
  unfold parseMainSection at hmain
  obtain ⟨_, pb, hb, hmain⟩ := andThen_ok hmain
  obtain ⟨hbegin, rfl⟩ := expect_ok hb
  obtain ⟨_, pc, hc, hmain⟩ := andThen_ok hmain
  obtain ⟨_, pd, hd, hmain⟩ := andThen_ok hmain
  have r5 : Rel pc pd := (statement_keeps fuel).2.1 _ _ hd
  have r6 : Rel pd p4 := holds_expecting_rel _ _ _ hmain
  -- the patch
  have hg : p3.next.codeGenerator = p3.codeGenerator := next_codeGenerator p3
  unfold Parser.patchEntry at hc
  rw [hg] at hc
  rw [e2] at hd3
  cases hquads : p3.codeGenerator.Quads with
  | nil => rw [hquads] at hd3; cases hd3
  | cons first rest =>
    rw [hquads] at hd3 hc
    simp only [List.head?_cons, Option.some.injEq] at hd3
    subst hd3
    simp only at hc
    unfold Parser.done at hc
    injection hc with hc
    injection hc with _ _ hpc
    subst hpc
    have gc : Good (p3.next.withGenerator
        { p3.codeGenerator with
          Quads := { (⟨"goto", .nil, .nil, .nil⟩ : Quadruple) with
                     Result := .int p3.codeGenerator.nextIndex } :: rest }).codeGenerator := by
      obtain ⟨g3a, g3b⟩ := g3
      exact ⟨Nat.succ_le_succ (Nat.zero_le _), g3b⟩
    obtain ⟨-, hdf, lef⟩ := (rel_trans r5 r6).2 gc
    refine ⟨p1, p2, p3, p4, hpf, h1, h2, h3, h4, hbegin, by rw [e2]; rfl, le3, ?_, ?_⟩
    · rw [hquads]
      exact lef
    · rw [hdf]
      unfold QuadrupleList.nextIndex
      rw [hquads]
      rfl

theorem entry_goto_points_to_main_witness :
    compiled 20 selfCallProgram =
      [⟨"goto", .nil, .nil, .int 4⟩, ⟨"ERA", .str "f", .nil, .nil⟩,
       ⟨"GOSUB", .str "f", .nil, .int 1⟩, ⟨"ENDPROC", .nil, .nil, .nil⟩,
       ⟨"print", .int 13000, .nil, .nil⟩] ∧
    ∃ p1 p2 p3 pf : Parser,
      ParseProgram 20 (NewParser selfCallProgram) = some { val := (), err := none, p := pf } ∧
      parseProgramName ((NewParser selfCallProgram).withGenerator
          (NewParser selfCallProgram).codeGenerator.HandleProgramStart) =
        some { val := (), err := none, p := p1 } ∧
      parseVarDeclarationSection 20 p1 false = some { val := (), err := none, p := p2 } ∧
      parseFunctionListOpt 20 p2 = some { val := (), err := none, p := p3 } ∧
      parseMainSection 20 p3 = some { val := (), err := none, p := pf } ∧
      p3.curr.Typ = "kwdBegin" ∧
      p2.codeGenerator.Quads.length = 1 ∧
      p2.codeGenerator.Quads.length ≤ p3.codeGenerator.Quads.length ∧
      p3.codeGenerator.Quads.length ≤ pf.codeGenerator.Quads.length ∧
      pf.codeGenerator.Quads.head? =
        some ⟨"goto", .nil, .nil, .int (p3.codeGenerator.Quads.length : Int)⟩ :=
  ⟨by decide,
   entry_goto_points_to_main 20 (NewParser selfCallProgram) rfl rfl (by decide)⟩

/-! ### The start quad of a function -/

theorem table_ok {p p1 : Parser} {r : SymbolTable × Option String} {v : Unit}
    (h : p.table r = some { val := v, err := none, p := p1 }) :
    r = (p1.symbolTable, none) ∧ p1.codeGenerator = p.codeGenerator ∧ p1.curr = p.curr ∧
      p1.lexer = p.lexer := by
  unfold Parser.table at h
  injection h with h
  injection h with _ h2 h3
  subst h3
  obtain ⟨st, e⟩ := r
  simp only at h2
  subst h2
  exact ⟨rfl, rfl, rfl, rfl⟩

theorem hook_ok {p p1 : Parser} {r : QuadrupleList × Option String} {v : Unit}
    (h : p.hook r = some { val := v, err := none, p := p1 }) :
    r = (p1.codeGenerator, none) ∧ p1.symbolTable = p.symbolTable := by
  unfold Parser.hook at h
  injection h with h
  injection h with _ h2 h3
  subst h3
  obtain ⟨q, e⟩ := r
  simp only at h2
  subst h2
  exact ⟨rfl, rfl⟩

/-- What `GetFunctionStartQuad` returns right after `UpdateFunctionStartQuad`. -/
theorem get_after_update (st st1 : SymbolTable) (name : String) (q : Int)
    (h : st.UpdateFunctionStartQuad name q = (st1, none)) :
    st1.GetFunctionStartQuad name = (q, none) := by
  unfold SymbolTable.UpdateFunctionStartQuad at h
  split at h
  · injection h with _ h2; cases h2
  · rename_i r hr
    injection h with h1
    subst h1
    unfold SymbolTable.GetFunctionStartQuad
    rw [findFunction_updateFunction st name name
      (fun r => { r with StartQuad := q }) (fun _ => rfl), hr]
    have hname : (r.Name == name) = true := by
      unfold SymbolTable.findFunction at hr
      have := @List.find?_some _ (fun r : FunctionRecord => r.Name == name) r st.functions hr
      exact this
    simp only [Option.map_some', hname, if_true]

/-- A call that is accepted emits, as its last quadruple, `GOSUB` with the start quad
that the table of the parser records for the name called. -/
theorem call_emits_recorded_start (fuel : Nat) (pc : Parser) (id : Token) (r : Ret Unit)
    (s : Int) (hs : pc.symbolTable.GetFunctionStartQuad id.Lit = (s, none))
    (h : parseFunctionCall fuel pc id = some r) (hok : r.err = none) :
    r.p.codeGenerator.Quads.getLast? = some ⟨"GOSUB", .str id.Lit, .nil, .int s⟩ := by
  obtain ⟨v, e, pr⟩ := r
  simp only at hok
  subst hok
  unfold parseFunctionCall at h
  simp only at h
  obtain ⟨_, p1, h1, h⟩ := andThen_ok h
  obtain ⟨_, p2, h2, h⟩ := andThen_ok h
  obtain ⟨args, p3, h3, h⟩ := andThen_ok h
  obtain ⟨_, p4, h4, h⟩ := andThen_ok h
  have r1 := holds_expecting_rel _ _ _ h1
  have r2 := holds_hook _ _ (HandleERA_keeps _ _) _ h2
  have r3 := holds_parseArgumentList _ _ _ h3
  have r4 := holds_expecting_rel _ _ _ h4
  have hsame : SameStarts pc.symbolTable p4.symbolTable :=
    (rel_trans (rel_trans r1 r2) (rel_trans r3 r4)).1
  split at h
  · unfold Parser.fail at h
    injection h with h; injection h with _ h2; cases h2
  · split at h
    · unfold Parser.fail at h
      injection h with h; injection h with _ h2; cases h2
    · rename_i startQuad hget
      rw [hsame id.Lit, hs] at hget
      injection hget with hget
      subst hget
      obtain ⟨hq, -⟩ := hook_ok h
      have : pr.codeGenerator = (p4.codeGenerator.HandleGOSUB id.Lit s).1 := by rw [hq]
      rw [this]
      unfold QuadrupleList.HandleGOSUB QuadrupleList.emit
      simp

/-! ## Arithmetic on a value that is not a number -/

/-- C22 (fails on the code): the left operand of `(+, 3000, 1000, 9000)` loads as the
string `hi`.  No case of the type switch applies, `result` stays the nil interface, and
`executeArithmetic` goes on to its last line: whatever the method `Store` of the memory
manager is, it is called with the result address and nil, and what `executeArithmetic`
returns is what that call returns.  On a manager that records the calls of `Store` and
accepts them, the call `Store(9000, nil)` is recorded and `executeArithmetic` returns
`nil`; on the memory of the specification the error returned is the one of `Store`. -/
theorem string_operand_reaches_store :
    (∀ (store : Cells → Int → Value → Cells × Option String),
      executeArithmetic { Load := specLoad, Store := store } stringSum
          (NewVirtualMachine [stringSum] stringMemory) =
        storeResult { Load := specLoad, Store := store } stringSum .nil
          (NewVirtualMachine [stringSum] stringMemory)) ∧
    executeArithmetic recordingMemory stringSum
        (NewVirtualMachine [stringSum] (stringMemory, [])) =
      .ok (NewVirtualMachine [stringSum] (stringMemory, [(9000, .nil)])) ∧
    executeArithmetic specMemory stringSum (NewVirtualMachine [stringSum] stringMemory) =
      .error (NewVirtualMachine [stringSum] stringMemory) "TypeMismatch: address 9000" :=
  ⟨fun _ => rfl, by decide, by decide⟩

/-! ## The instruction pointer stays inside the list -/

theorem storeResult_ok {M : Type} (mm : MemoryManager M) (quad : Quadruple)
    (value : Value) (vm vm1 : VirtualMachine M)
    (h : storeResult mm quad value vm = .ok vm1) :
    vm1.quads = vm.quads ∧ vm1.instructionPointer = vm.instructionPointer := by
  unfold storeResult at h
  split at h
  · split at h
    · cases h; exact ⟨rfl, rfl⟩
    · cases h
  · cases h

theorem executeArithmetic_ok {M : Type} (mm : MemoryManager M) (quad : Quadruple)
    (vm vm1 : VirtualMachine M) (h : executeArithmetic mm quad vm = .ok vm1) :
    vm1.quads = vm.quads ∧ vm1.instructionPointer = vm.instructionPointer := by
  unfold executeArithmetic at h
  repeat' split at h
  all_goals first
    | exact storeResult_ok mm quad _ vm vm1 h
    | cases h

theorem executeAssignment_ok {M : Type} (mm : MemoryManager M) (quad : Quadruple)
    (vm vm1 : VirtualMachine M) (h : executeAssignment mm quad vm = .ok vm1) :
    vm1.quads = vm.quads ∧ vm1.instructionPointer = vm.instructionPointer := by
  unfold executeAssignment at h
  repeat' split at h
  all_goals first
    | exact storeResult_ok mm quad _ vm vm1 h
    | cases h

theorem executeComparison_ok {M : Type} (mm : MemoryManager M) (quad : Quadruple)
    (vm vm1 : VirtualMachine M) (h : executeComparison mm quad vm = .ok vm1) :
    vm1.quads = vm.quads ∧ vm1.instructionPointer = vm.instructionPointer := by
  unfold executeComparison at h
  split at h
  · split at h
    · cases h
    · simp only at h
      repeat' split at h
      all_goals first
        | (have h2 := storeResult_ok mm quad _ _ vm1 h; exact h2)
        | cases h
  · cases h

theorem executePrint_ok {M : Type} (mm : MemoryManager M) (quad : Quadruple)
    (vm vm1 : VirtualMachine M) (h : executePrint mm quad vm = .ok vm1) :
    vm1.quads = vm.quads ∧ vm1.instructionPointer = vm.instructionPointer := by
  unfold executePrint at h
  repeat' split at h
  all_goals first
    | (cases h; exact ⟨rfl, rfl⟩)
    | cases h

theorem executeGoto_ok {M : Type} (quad : Quadruple) (vm vm1 : VirtualMachine M)
    (h : executeGoto quad vm = .ok vm1) :
    vm1.quads = vm.quads ∧ quad.Result = .int vm1.instructionPointer := by
  unfold executeGoto at h
  split at h
  · rename_i r hr
    cases h
    exact ⟨rfl, hr⟩
  · cases h

theorem executeGotof_ok {M : Type} (mm : MemoryManager M) (quad : Quadruple)
    (vm vm1 : VirtualMachine M) (h : executeGotof mm quad vm = .ok vm1) :
    vm1.quads = vm.quads ∧
      (vm1.instructionPointer = vm.instructionPointer ∨
        ∃ r, quad.Result = .int r ∧ vm1.instructionPointer = wrap64 (r - 1)) := by
  unfold executeGotof at h
  split at h
  · split at h
    · cases h
    · split at h
      · split at h
        · rename_i r hr
          cases h
          exact ⟨rfl, Or.inr ⟨r, hr, rfl⟩⟩
        · cases h
      · cases h
        exact ⟨rfl, Or.inl rfl⟩
  · cases h

/-- A handler that returns `nil` leaves the quadruples as they are, and the instruction
pointer too unless it is a `goto`, which sets it to its result `r`, or a `gotof`, which
may set it to `r - 1`. -/
theorem executeQuadruple_ok {M : Type} (mm : MemoryManager M) (quad : Quadruple)
    (vm vm1 : VirtualMachine M) (h : executeQuadruple mm quad vm = .ok vm1) :
    vm1.quads = vm.quads ∧
      (vm1.instructionPointer = vm.instructionPointer ∨
        (quad.Operator = "goto" ∧ quad.Result = .int vm1.instructionPointer) ∨
        (quad.Operator = "gotof" ∧
          ∃ r, quad.Result = .int r ∧ vm1.instructionPointer = wrap64 (r - 1))) := by
  unfold executeQuadruple at h
  split at h
  · have := executeArithmetic_ok mm quad vm vm1 h
    exact ⟨this.1, Or.inl this.2⟩
  · split at h
    · have := executeAssignment_ok mm quad vm vm1 h
      exact ⟨this.1, Or.inl this.2⟩
    · split at h
      · have := executeComparison_ok mm quad vm vm1 h
        exact ⟨this.1, Or.inl this.2⟩
      · split at h
        · have := executePrint_ok mm quad vm vm1 h
          exact ⟨this.1, Or.inl this.2⟩
        · split at h
          · rename_i hg
            have := executeGoto_ok quad vm vm1 h
            exact ⟨this.1, Or.inr (Or.inl ⟨hg, this.2⟩)⟩
          · split at h
            · rename_i hg
              have := executeGotof_ok mm quad vm vm1 h
              rcases this.2 with h2 | h2
              · exact ⟨this.1, Or.inl h2⟩
              · exact ⟨this.1, Or.inr (Or.inr ⟨hg, h2⟩)⟩
            · cases h
              exact ⟨rfl, Or.inl rfl⟩

theorem fetch_mem {M : Type} (vm : VirtualMachine M) (quad : Quadruple)
    (h : fetch vm = some quad) : quad ∈ vm.quads := by
  unfold fetch at h
  split at h
  · cases h
  · exact List.get?_mem h

theorem jumpsWithin_mem (bound : Int) (quads : List Quadruple) (q : Quadruple)
    (h : jumpsWithin bound quads = true) (hq : q ∈ quads)
    (hop : q.Operator = "goto" ∨ q.Operator = "gotof") :
    ∃ r, q.Result = .int r ∧ 0 ≤ r ∧ r ≤ bound := by
  unfold jumpsWithin at h
  rw [List.all_eq_true] at h
  have := h q hq
  rw [if_pos hop] at this
  split at this
  · rename_i r hr
    exact ⟨r, hr, of_decide_eq_true this⟩
  · cases this

/-- One pass through the loop body, entered with the pointer inside the list: when it
ends without error the quadruples are the same and the pointer is not negative. -/
theorem iteration_ok_nonneg {M : Type} (mm : MemoryManager M) (vm vm1 : VirtualMachine M)
    (hjump : jumpsWithin (vm.quads.length : Int) vm.quads = true)
    (hlen : (vm.quads.length : Int) < 9223372036854775807)
    (h0 : 0 ≤ vm.instructionPointer) (hrun : running vm = true)
    (h : iteration mm vm = .ok vm1) :
    vm1.quads = vm.quads ∧ 0 ≤ vm1.instructionPointer := by
  have hlt : vm.instructionPointer < (vm.quads.length : Int) := by
    simpa [running] using hrun
  unfold iteration at h
  split at h
  · cases h
  · rename_i quad hf
    have hmem := fetch_mem vm quad hf
    split at h
    · rename_i vm2 he
      cases h
      obtain ⟨hq, hip⟩ := executeQuadruple_ok mm quad vm vm2 he
      refine ⟨hq, ?_⟩
      show 0 ≤ wrap64 (vm2.instructionPointer + 1)
      rcases hip with hip | ⟨hop, hres⟩ | ⟨hop, r, hres, hip⟩
      · have hw : wrap64 (vm2.instructionPointer + 1) = vm2.instructionPointer + 1 :=
          wrap64_of_inInt64 (by unfold inInt64; omega)
        rw [hw]
        omega
      · obtain ⟨r, hr, hr0, hr1⟩ := jumpsWithin_mem _ _ quad hjump hmem (Or.inl hop)
        rw [hres] at hr
        have hr := Value.int.inj hr
        have hw : wrap64 (vm2.instructionPointer + 1) = vm2.instructionPointer + 1 :=
          wrap64_of_inInt64 (by unfold inInt64; omega)
        rw [hw]
        omega
      · obtain ⟨r1, hr, hr0, hr1⟩ := jumpsWithin_mem _ _ quad hjump hmem (Or.inr hop)
        rw [hres] at hr
        have hr := Value.int.inj hr
        subst hr
        have hw1 : wrap64 (r - 1) = r - 1 := wrap64_of_inInt64 (by unfold inInt64; omega)
        rw [hw1] at hip
        have hw : wrap64 (vm2.instructionPointer + 1) = vm2.instructionPointer + 1 :=
          wrap64_of_inInt64 (by unfold inInt64; omega)
        rw [hw]
        omega
    · cases h
    · cases h

theorem afterIterations_nonneg {M : Type} (mm : MemoryManager M) (k : Nat) :
    ∀ vm vmk : VirtualMachine M,
      jumpsWithin (vm.quads.length : Int) vm.quads = true →
      (vm.quads.length : Int) < 9223372036854775807 →
      0 ≤ vm.instructionPointer →
      afterIterations mm k vm = some vmk →
      vmk.quads = vm.quads ∧ 0 ≤ vmk.instructionPointer := by
  induction k with
  | zero =>
    intro vm vmk _ _ h0 hk
    rw [afterIterations] at hk
    cases hk
    exact ⟨rfl, h0⟩
  | succ n ih =>
    intro vm vmk hjump hlen h0 hk
    rw [afterIterations] at hk
    split at hk
    · rename_i hrun
      split at hk
      · rename_i vm1 hit
        obtain ⟨hq, h1⟩ := iteration_ok_nonneg mm vm vm1 hjump hlen h0 hrun hit
        have := ih vm1 vmk (by rw [hq]; exact hjump) (by rw [hq]; exact hlen) h1 hk
        exact ⟨this.1.trans hq, this.2⟩
      · cases hk
    · cases hk

/-- C23: every `goto` and `gotof` of the list has a result between 0 and the length of
the list, the list is shorter than the largest `int`, and the machine starts with a
pointer that is not negative (`NewVirtualMachine` sets it to 1).  Then at every iteration
of the loop of `Execute`, that is after any number `k` of passes that returned `nil`, when
the loop guard holds: the pointer with which the list is indexed is at least 0 and less
than the length of the list, so the indexing finds a quadruple, whatever the memory
manager does. -/
theorem instruction_pointer_in_range {M : Type} (mm : MemoryManager M)
    (vm vmk : VirtualMachine M) (k : Nat)
    (hjump : jumpsWithin (vm.quads.length : Int) vm.quads = true)
    (hlen : (vm.quads.length : Int) < 9223372036854775807)
    (h0 : 0 ≤ vm.instructionPointer)
    (hk : afterIterations mm k vm = some vmk) (hrun : running vmk = true) :
    0 ≤ vmk.instructionPointer ∧ vmk.instructionPointer < (vmk.quads.length : Int) ∧
      ∃ quad, fetch vmk = some quad := by
  obtain ⟨-, hk0⟩ := afterIterations_nonneg mm k vm vmk hjump hlen h0 hk
  have hlt : vmk.instructionPointer < (vmk.quads.length : Int) := by
    simpa [running] using hrun
  exact ⟨hk0, hlt, (fetch_isSome_of_in_range vmk ⟨hk0, hlt⟩).2⟩

theorem instruction_pointer_in_range_witness :
    afterIterations specMemory 1 (NewVirtualMachine jumpLoop jumpLoopMemory) =
      some jumpLoopAfterOne ∧
    (0 ≤ jumpLoopAfterOne.instructionPointer ∧
      jumpLoopAfterOne.instructionPointer < (jumpLoopAfterOne.quads.length : Int) ∧
      ∃ quad, fetch jumpLoopAfterOne = some quad) :=
  ⟨by decide,
   instruction_pointer_in_range specMemory (NewVirtualMachine jumpLoop jumpLoopMemory)
     jumpLoopAfterOne 1 (by decide) (by decide) (by decide) (by decide) (by decide)⟩

/-! ## Function segments and scopes -/

theorem saved_refl (q : QuadrupleList) : KeepsS q q := rfl

theorem saved_trans {a b c : QuadrupleList} (h1 : KeepsS a b) (h2 : KeepsS b c) :
    KeepsS a c := by
  unfold KeepsS at *
  rw [h2, h1]

theorem saved_of_eq {q q1 : QuadrupleList} (h : q1.MemoryManager = q.MemoryManager) :
    KeepsS q q1 := by
  unfold KeepsS QuadrupleList.segments
  rw [h]

theorem saved_of_fst {q0 q : QuadrupleList} {e : Option String}
    {r : QuadrupleList × Option String} (h : r = (q, e)) (hk : KeepsS q0 r.1) :
    KeepsS q0 q := by
  subst h; exact hk

theorem allocate_saved (a : Allocator) (scope : Nat) (t : SharedType) :
    (a.allocate scope t).1.saved = a.saved := by
  unfold Allocator.allocate
  split
  · rfl
  · simp only
    split
    all_goals rfl

theorem AllocateConstant_saved (a : Allocator) (lit : String) (t : SharedType) :
    (a.AllocateConstant lit t).1.saved = a.saved := by
  unfold Allocator.AllocateConstant
  split
  · rfl
  · split
    all_goals
      rename_i h
      have := allocate_saved a 3 t
      rw [h] at this
      exact this

theorem patch_memory (q : QuadrupleList) (j t : Int) :
    (q.patch j t).MemoryManager = q.MemoryManager := by
  unfold QuadrupleList.patch
  repeat' split
  all_goals rfl

theorem HandleFactor_saved (q : QuadrupleList) (lit : String) (t : SharedType)
    (st : SymbolTable) : KeepsS q (q.HandleFactor lit t st).1 := by
  unfold QuadrupleList.HandleFactor
  split
  · repeat' split
    all_goals exact saved_refl _
  · split
    all_goals
      rename_i h
      have := AllocateConstant_saved q.MemoryManager lit t
      rw [h] at this
      exact this

theorem HandleOp_saved (q : QuadrupleList) : KeepsS q q.HandleOp.1 := by
  unfold QuadrupleList.HandleOp
  split
  · simp only
    split
    · exact saved_refl _
    · rename_i resultType _
      split
      all_goals
        rename_i h
        have := allocate_saved q.MemoryManager 2 resultType
        unfold Allocator.AllocateTemp at h
        rw [h] at this
        exact this
  · exact saved_refl _

theorem HandleOpenParen_saved (q : QuadrupleList) : KeepsS q q.HandleOpenParen := rfl

theorem HandleCloseParen_saved (q : QuadrupleList) : KeepsS q q.HandleCloseParen.1 := by
  unfold QuadrupleList.HandleCloseParen
  repeat' split
  all_goals exact saved_refl _

theorem HandleAssignment_saved (q : QuadrupleList) (a : Int) (t : SharedType) :
    KeepsS q (q.HandleAssignment a t).1 := by
  unfold QuadrupleList.HandleAssignment
  split
  · simp only
    repeat' split
    all_goals exact saved_refl _
  · exact saved_refl _

theorem HandleParam_saved (q : QuadrupleList) (arg : Value) (k : Int) :
    KeepsS q (q.HandleParam arg k).1 := rfl

theorem HandleERA_saved (q : QuadrupleList) (name : String) : KeepsS q (q.HandleERA name).1 :=
  rfl

theorem HandleGOSUB_saved (q : QuadrupleList) (name : String) (s : Int) :
    KeepsS q (q.HandleGOSUB name s).1 := rfl

theorem HandleENDPROC_saved (q : QuadrupleList) : KeepsS q q.HandleENDPROC.1 := rfl

theorem HandlePrint_saved (q : QuadrupleList) (x : Value) : KeepsS q (q.HandlePrint x).1 := by
  unfold QuadrupleList.HandlePrint
  split
  · rename_i s
    split
    all_goals
      rename_i h
      have := AllocateConstant_saved q.MemoryManager s .TypeString
      rw [h] at this
      exact this
  · exact saved_refl _

theorem handleGuard_saved (q : QuadrupleList) : KeepsS q q.handleGuard.1 := by
  unfold QuadrupleList.handleGuard
  split
  all_goals exact saved_refl _

theorem HandleElse_saved (q : QuadrupleList) : KeepsS q q.HandleElse.1 := by
  unfold QuadrupleList.HandleElse
  split
  · exact saved_refl _
  · exact saved_of_eq (patch_memory _ _ _)

theorem HandleEndIf_saved (q : QuadrupleList) : KeepsS q q.HandleEndIf.1 := by
  unfold QuadrupleList.HandleEndIf
  split
  · exact saved_refl _
  · exact saved_of_eq (patch_memory _ _ _)

theorem HandleWhileEnd_saved (q : QuadrupleList) (start : Int) :
    KeepsS q (q.HandleWhileEnd start).1 := by
  unfold QuadrupleList.HandleWhileEnd
  split
  · exact saved_refl _
  · exact saved_of_eq (patch_memory _ _ _)

/-! ### Steps of the parser -/

theorem level_refl (p : Parser) : Level p p := ⟨rfl, rfl⟩

theorem level_trans {a b c : Parser} (h1 : Level a b) (h2 : Level b c) : Level a c :=
  ⟨h2.1.trans h1.1, saved_trans h1.2 h2.2⟩

theorem level_trans3 : ∀ a b c : Parser, Level a b → Level b c → Level a c :=
  fun _ _ _ => level_trans

theorem level_next (p : Parser) : Level p p.next := by
  refine ⟨?_, ?_⟩
  · rw [next_symbolTable]
  · rw [next_codeGenerator]; exact saved_refl _

theorem level_expect (p : Parser) (kind : String) : Level p (p.expect kind).p := by
  unfold Parser.expect
  split
  · exact level_next p
  · exact level_refl p

theorem level_pushOperator (p : Parser) (op : String) : Level p (p.pushOperator op) :=
  ⟨rfl, rfl⟩

theorem level_withGenerator (p : Parser) (q : QuadrupleList) (h : KeepsS p.codeGenerator q) :
    Level p (p.withGenerator q) :=
  ⟨rfl, h⟩

theorem level_expecting (p : Parser) (kind : String) : Holds Level p (p.expecting kind) :=
  holds_some (level_expect p kind)

theorem level_hook (p : Parser) (r : QuadrupleList × Option String)
    (h : KeepsS p.codeGenerator r.1) : Holds Level p (p.hook r) :=
  holds_some (level_withGenerator p r.1 h)

/-! ### Expressions keep the segments and the scope -/

theorem level_getType (p : Parser) (tok : Token) : Level p (p.getType tok).p := by
  unfold Parser.getType
  repeat' split
  all_goals first
    | exact level_next p
    | exact level_refl p

theorem level_parseAtom (p : Parser) (sym : String) : Level p (parseAtom p sym).p := by
  unfold parseAtom
  simp only
  split
  · rename_i h
    have := level_getType p p.curr
    rw [h] at this
    exact this
  · rename_i h
    have h1 := level_getType p p.curr
    rw [h] at h1
    split
    all_goals
      rename_i hq
      exact level_trans h1
        (level_withGenerator _ _ (saved_of_fst hq (HandleFactor_saved _ _ _ _)))

/-- Whatever the five methods of the expression grammar return, the scope that is open and
the stack of saved segments are as before. -/
theorem expression_level (fuel : Nat) :
    (∀ p, Holds Level p (parseExpression fuel p)) ∧
    (∀ p, Holds Level p (parseExp fuel p)) ∧
    (∀ l p, Holds Level p (parseExpLoop fuel l p)) ∧
    (∀ p, Holds Level p (parseTerm fuel p)) ∧
    (∀ p, Holds Level p (parseFactor fuel p)) := by
  induction fuel with
  | zero =>
    refine ⟨?_, ?_, ?_, ?_, ?_⟩
    · intro p; rw [parseExpression]; exact holds_none
    · intro p; rw [parseExp]; exact holds_none
    · intro l p; rw [parseExpLoop]; exact holds_none
    · intro p; rw [parseTerm]; exact holds_none
    · intro p; rw [parseFactor]; exact holds_none
  | succ n ih =>
    obtain ⟨ihE, ihX, ihL, ihT, ihF⟩ := ih
    refine ⟨?_, ?_, ?_, ?_, ?_⟩
    · intro p
      rw [parseExpression]
      split
      · exact holds_none
      · rename_i h1; have r0 := ihX p _ h1; exact holds_some r0
      · rename_i leftType p1 h1
        have r1 : Level p p1 := ihX p _ h1
        split
        · simp only
          have r2 : Level p ((p1.pushOperator p1.curr.Lit).next) := level_trans r1
            (level_trans ((level_pushOperator _ _)) ((level_next _)))
          split
          · exact holds_none
          · rename_i h3; have r0 := ihX _ _ h3; exact holds_some (level_trans r2 r0)
          · rename_i h3
            have r0 := ihX _ _ h3
            have r3 := level_trans r2 r0
            split
            all_goals
              rename_i hq
              have hk := saved_of_fst hq (HandleOp_saved _)
              exact holds_some (level_trans r3 (level_withGenerator _ _ hk))
        · exact holds_some r1
    · intro p
      rw [parseExp]
      split
      · exact holds_none
      · rename_i h1; have r0 := ihT p _ h1; exact holds_some r0
      · rename_i h1
        have r0 := ihT p _ h1
        intro x hx
        exact level_trans r0 (ihL _ _ x hx)
    · intro l p
      rw [parseExpLoop]
      split
      · simp only
        have r1 : Level p (p.next.pushOperator p.curr.Lit) :=
          level_trans ((level_next _)) ((level_pushOperator _ _))
        split
        · exact holds_none
        · rename_i h2; have r0 := ihT _ _ h2; exact holds_some (level_trans r1 r0)
        · rename_i h2
          have r0 := ihT _ _ h2
          have r2 := level_trans r1 r0
          split
          · rename_i hq
            have hk := saved_of_fst hq (HandleOp_saved _)
            exact holds_some (level_trans r2 (level_withGenerator _ _ hk))
          · rename_i hq
            have hk := saved_of_fst hq (HandleOp_saved _)
            intro x hx
            exact level_trans (level_trans r2 (level_withGenerator _ _ hk)) (ihL _ _ x hx)
      · exact holds_some (level_refl p)
    · intro p
      rw [parseTerm]
      split
      · exact holds_none
      · rename_i h1; have r0 := ihF p _ h1; exact holds_some r0
      · rename_i leftType p1 h1
        have r1 : Level p p1 := ihF p _ h1
        split
        · simp only
          have r2 : Level p (p1.next.pushOperator p1.curr.Lit) := level_trans r1
            (level_trans ((level_next _)) ((level_pushOperator _ _)))
          split
          · exact holds_none
          · rename_i h3
            have r0 := ihT _ _ h3
            have r3 := level_trans r2 r0
            split
            · rename_i hq
              have hk := saved_of_fst hq (HandleOp_saved _)
              exact holds_some (level_trans r3 (level_withGenerator _ _ hk))
            · rename_i hq
              have hk := saved_of_fst hq (HandleOp_saved _)
              repeat' split
              all_goals exact holds_some (level_trans r3 (level_withGenerator _ _ hk))
        · exact holds_some r1
    · intro p
      rw [parseFactor]
      split
      · simp only
        have r1 : Level p ((p.withGenerator p.codeGenerator.HandleOpenParen).next) :=
          level_trans (level_withGenerator _ _ (HandleOpenParen_saved _)) ((level_next _))
        split
        · exact holds_none
        · rename_i h2; have r0 := ihE _ _ h2; exact holds_some (level_trans r1 r0)
        · rename_i exprType p2 h2
          have r0 := ihE _ _ h2
          have r2 := level_trans r1 r0
          have hk : ∀ q e, (if p2.curr.Typ = "closeParan" then p2.codeGenerator.HandleCloseParen
              else (p2.codeGenerator, none)) = (q, e) → KeepsS p2.codeGenerator q := by
            intro q e hq
            split at hq
            · exact saved_of_fst hq (HandleCloseParen_saved p2.codeGenerator)
            · cases hq; exact saved_refl _
          split
          · rename_i hq
            exact holds_some (level_trans r2 (level_withGenerator _ _ (hk _ _ hq)))
          · rename_i q hq
            have r3 : Level p (p2.withGenerator q) :=
              level_trans r2 (level_withGenerator _ _ (hk _ _ hq))
            split
            all_goals
              rename_i he
              have r4 := (level_expect (p2.withGenerator q) "closeParan")
              rw [he] at r4
              exact holds_some (level_trans r3 r4)
      · split
        · simp only
          split
          · exact holds_some (level_refl p)
          · split
            · exact holds_some (level_trans ((level_next p)) (level_parseAtom _ _))
            · exact holds_some ((level_next p))
        · split
          · exact holds_some (level_parseAtom _ _)
          · exact holds_some (level_refl p)

/-! ### Statements keep the segments and the scope -/

theorem level_parseExpression (fuel : Nat) (p : Parser) :
    Holds Level p (parseExpression fuel p) :=
  (expression_level fuel).1 p

theorem level_handleArgument (p : Parser) (k : Int) : Level p (handleArgument p k).p := by
  unfold handleArgument
  split
  · exact level_refl p
  · simp only
    have h0 : KeepsS p.codeGenerator
        { p.codeGenerator with OperandStack := ‹List Value›,
                               TypeStack := p.codeGenerator.TypeStack.drop 1 } :=
      saved_refl _
    split
    all_goals
      rename_i hq
      exact level_withGenerator _ _ (saved_trans h0 (saved_of_fst hq (HandleParam_saved _ _ _)))

theorem level_parseArgumentLoop (fuel : Nat) :
    ∀ (k : Int) (ts : List SharedType) (p : Parser),
      Holds Level p (parseArgumentLoop fuel k ts p) := by
  induction fuel with
  | zero => intro k ts p; rw [parseArgumentLoop]; exact holds_none
  | succ n ih =>
    intro k ts p
    rw [parseArgumentLoop]
    split
    · simp only
      split
      · exact holds_none
      · rename_i argType err p2 h2
        have r0 := level_parseExpression n p.next _ h2
        have r2 : Level p p2 := level_trans ((level_next p)) r0
        split
        · exact holds_some r2
        · split
          · rename_i h3
            have r3 := level_handleArgument p2 k
            rw [h3] at r3
            exact holds_some (level_trans r2 r3)
          · rename_i h3
            have r3 := level_handleArgument p2 k
            rw [h3] at r3
            intro x hx
            exact level_trans (level_trans r2 r3) (ih _ _ _ x hx)
    · exact holds_some (level_refl p)

theorem level_parseArgumentList (fuel : Nat) (p : Parser) :
    Holds Level p (parseArgumentList fuel p) := by
  unfold parseArgumentList
  split
  · exact holds_some (level_refl p)
  · split
    · exact holds_none
    · rename_i h1
      have r0 := level_parseExpression fuel p _ h1
      exact holds_some r0
    · rename_i currType p1 h1
      have r1 : Level p p1 := level_parseExpression fuel p _ h1
      split
      · rename_i h2
        have r2 := level_handleArgument p1 0
        rw [h2] at r2
        exact holds_some (level_trans r1 r2)
      · rename_i h2
        have r2 := level_handleArgument p1 0
        rw [h2] at r2
        intro x hx
        exact level_trans (level_trans r1 r2) (level_parseArgumentLoop fuel _ _ _ x hx)

theorem level_parseAssignment (fuel : Nat) (p : Parser) (id nextToken : Token) :
    Holds Level p (parseAssignment fuel p id nextToken) := by
  unfold parseAssignment
  split
  · exact holds_some (level_refl p)
  · split
    · exact holds_none
    · rename_i t e p1 h1
      have r0 := level_parseExpression fuel p.next _ h1
      have r1 : Level p p1 := level_trans ((level_next p)) r0
      split
      · exact holds_some r1
      · split
        · exact holds_some r1
        · split
          · rename_i hq
            exact holds_some (level_trans r1
              (level_withGenerator _ _ (saved_of_fst hq (HandleAssignment_saved _ _ _))))
          · rename_i q hq
            have r2 : Level p (p1.withGenerator q) := level_trans r1
              (level_withGenerator _ _ (saved_of_fst hq (HandleAssignment_saved _ _ _)))
            exact holds_some (level_trans r2 ((level_expect _ _)))

theorem level_parseFunctionCall (fuel : Nat) (p : Parser) (id : Token) :
    Holds Level p (parseFunctionCall fuel p id) := by
  unfold parseFunctionCall
  simp only
  refine holds_bind level_trans3 (level_expecting _ _) (fun _ p1 => ?_)
  refine holds_bind level_trans3 (level_hook _ _ (HandleERA_saved _ _)) (fun _ p2 => ?_)
  refine holds_bind level_trans3 (level_parseArgumentList _ _) (fun _ p3 => ?_)
  refine holds_bind level_trans3 (level_expecting _ _) (fun _ p4 => ?_)
  split
  · exact holds_fail Level level_refl _ _
  · split
    · exact holds_fail Level level_refl _ _
    · exact level_hook _ _ (HandleGOSUB_saved _ _ _)

theorem level_parsePrintItem (fuel : Nat) (p : Parser) :
    Holds Level p (parsePrintItem fuel p) := by
  unfold parsePrintItem
  split
  · refine holds_bind level_trans3 (level_hook _ _ (HandlePrint_saved _ _)) (fun _ p1 => ?_)
    exact holds_some ((level_next p1))
  · refine holds_bind level_trans3 (level_parseExpression _ _) (fun _ p1 => ?_)
    split
    · exact holds_fail Level level_refl _ _
    · simp only
      refine holds_bind level_trans3 ?_ (fun _ p2 => holds_done Level level_refl p2)
      refine holds_some (level_withGenerator _ _ ?_)
      rename_i result operands _
      have h0 : KeepsS p1.codeGenerator
          { p1.codeGenerator with OperandStack := operands,
                                  TypeStack := p1.codeGenerator.TypeStack.drop 1 } :=
        saved_refl _
      exact saved_trans h0 (HandlePrint_saved _ _)

theorem level_parsePrintListLoop (fuel : Nat) :
    ∀ p, Holds Level p (parsePrintListLoop fuel p) := by
  induction fuel with
  | zero => intro p; rw [parsePrintListLoop]; exact holds_none
  | succ n ih =>
    intro p
    rw [parsePrintListLoop]
    split
    · refine holds_after level_trans3 ((level_next p)) ?_
      exact holds_bind level_trans3 (level_parsePrintItem _ _) (fun _ p1 => ih p1)
    · exact holds_done Level level_refl p

theorem level_parsePrintList (fuel : Nat) (p : Parser) :
    Holds Level p (parsePrintList fuel p) := by
  unfold parsePrintList
  exact holds_bind level_trans3 (level_parsePrintItem _ _)
    (fun _ p1 => level_parsePrintListLoop fuel p1)

theorem level_parsePrintStatement (fuel : Nat) (p : Parser) :
    Holds Level p (parsePrintStatement fuel p) := by
  unfold parsePrintStatement
  refine holds_bind level_trans3 (level_expecting _ _) (fun _ p1 => ?_)
  refine holds_bind level_trans3 (level_expecting _ _) (fun _ p2 => ?_)
  refine holds_bind level_trans3 (level_parsePrintList _ _) (fun _ p3 => ?_)
  exact level_expecting _ _

/-- Whatever the five methods of the statement grammar return, the scope that is open and
the stack of saved segments are as before. -/
theorem statement_level (fuel : Nat) :
    (∀ p, Holds Level p (parseBlock fuel p)) ∧
    (∀ p, Holds Level p (parseStatementList fuel p)) ∧
    (∀ p, Holds Level p (parseStatement fuel p)) ∧
    (∀ p, Holds Level p (parseWhileStatement fuel p)) ∧
    (∀ p, Holds Level p (parseIfStatement fuel p)) := by
  induction fuel with
  | zero =>
    refine ⟨?_, ?_, ?_, ?_, ?_⟩
    · intro p; rw [parseBlock]; exact holds_none
    · intro p; rw [parseStatementList]; exact holds_none
    · intro p; rw [parseStatement]; exact holds_none
    · intro p; rw [parseWhileStatement]; exact holds_none
    · intro p; rw [parseIfStatement]; exact holds_none
  | succ n ih =>
    obtain ⟨ihB, ihL, ihS, ihW, ihI⟩ := ih
    refine ⟨?_, ?_, ?_, ?_, ?_⟩
    · intro p
      rw [parseBlock]
      refine holds_bind level_trans3 (level_expecting _ _) (fun _ p1 => ?_)
      refine holds_bind level_trans3 (ihL _) (fun _ p2 => ?_)
      exact level_expecting _ _
    · intro p
      rw [parseStatementList]
      split
      · exact holds_fail Level level_refl _ _
      · exact holds_done Level level_refl _
      · exact holds_bind level_trans3 (ihS _) (fun _ p1 => ihL p1)
    · intro p
      rw [parseStatement]
      split
      · exact holds_done Level level_refl _
      · exact holds_fail Level level_refl _ _
      · split
        · exact ihI p
        · split
          · exact ihW p
          · split
            · exact level_parsePrintStatement n p
            · split
              · simp only
                refine holds_after level_trans3 ((level_next p)) ?_
                split
                · exact level_parseFunctionCall _ _ _
                · split
                  · split
                    · exact holds_fail Level level_refl _ _
                    · exact level_parseAssignment _ _ _ _
                  · exact holds_fail Level level_refl _ _
              · exact holds_done Level level_refl _
    · intro p
      rw [parseWhileStatement]
      refine holds_bind level_trans3 (level_expecting _ _) (fun _ p1 => ?_)
      simp only
      refine holds_bind level_trans3 (level_expecting _ _) (fun _ p2 => ?_)
      refine holds_bind level_trans3 (level_parseExpression _ _) (fun _ p3 => ?_)
      refine holds_bind level_trans3 (level_hook _ _ (handleGuard_saved _)) (fun _ p4 => ?_)
      refine holds_bind level_trans3 (level_expecting _ _) (fun _ p5 => ?_)
      refine holds_bind level_trans3 (ihB _) (fun _ p6 => ?_)
      exact level_hook _ _ (HandleWhileEnd_saved _ _)
    · intro p
      rw [parseIfStatement]
      refine holds_bind level_trans3 (level_expecting _ _) (fun _ p1 => ?_)
      refine holds_bind level_trans3 (level_expecting _ _) (fun _ p2 => ?_)
      refine holds_bind level_trans3 (level_parseExpression _ _) (fun _ p3 => ?_)
      refine holds_bind level_trans3 (level_expecting _ _) (fun _ p4 => ?_)
      refine holds_bind level_trans3 (level_hook _ _ (handleGuard_saved _)) (fun _ p5 => ?_)
      refine holds_bind level_trans3 (ihB _) (fun _ p6 => ?_)
      split
      · simp only
        refine holds_after level_trans3 ((level_next p6)) ?_
        refine holds_bind level_trans3 (level_hook _ _ (HandleElse_saved _)) (fun _ p8 => ?_)
        refine holds_bind level_trans3 (ihB _) (fun _ p9 => ?_)
        exact level_hook _ _ (HandleEndIf_saved _)
      · exact level_hook _ _ (HandleEndIf_saved _)

/-! ### Declarations keep the segments and the scope -/

theorem current_updateFunction (st : SymbolTable) (fn : String)
    (g : FunctionRecord → FunctionRecord) : (st.updateFunction fn g).current = st.current :=
  rfl

theorem current_AddGlobal (st : SymbolTable) (v : Variable) :
    (st.AddGlobal v).1.current = st.current := by
  unfold SymbolTable.AddGlobal
  split
  all_goals rfl

theorem current_AddLocal (st : SymbolTable) (v : Variable) :
    (st.AddLocal v).1.current = st.current := by
  unfold SymbolTable.AddLocal
  repeat' split
  all_goals rfl

theorem level_of_memory (p : Parser) (a : Allocator)
    (h : a.saved = p.codeGenerator.MemoryManager.saved) :
    Level p (p.withGenerator { p.codeGenerator with MemoryManager := a }) :=
  ⟨rfl, h⟩

theorem level_of_table (p : Parser) (st : SymbolTable)
    (h : st.current = p.symbolTable.current) : Level p { p with symbolTable := st } :=
  ⟨h, rfl⟩

theorem level_addVariablesToSymbolTable (semType : SharedType) (names : List String) :
    ∀ p, Holds Level p (addVariablesToSymbolTable p semType names) := by
  induction names with
  | nil => intro p; rw [addVariablesToSymbolTable]; exact holds_done Level level_refl p
  | cons name rest ih =>
    intro p
    rw [addVariablesToSymbolTable]
    simp only
    have hs := allocate_saved p.codeGenerator.MemoryManager
      (if p.symbolTable.current.isSome = true then 1 else 0) semType
    split
    · rename_i a _ err ha
      rw [ha] at hs
      exact holds_some (level_of_memory p a hs)
    · rename_i a addr ha
      rw [ha] at hs
      have r1 := level_of_memory p a hs
      have hadd : ∀ st e,
          (if p.symbolTable.current.isSome = true then
              (p.withGenerator { p.codeGenerator with MemoryManager := a }).symbolTable.AddLocal
                { Name := name, Typ := semType, Line := 0, Column := 0, Address := addr }
            else
              (p.withGenerator { p.codeGenerator with MemoryManager := a }).symbolTable.AddGlobal
                { Name := name, Typ := semType, Line := 0, Column := 0, Address := addr }) =
            (st, e) → st.current = p.symbolTable.current := by
        intro st e h
        split at h
        · have := current_AddLocal p.symbolTable
            { Name := name, Typ := semType, Line := 0, Column := 0, Address := addr }
          have h2 : (p.symbolTable.AddLocal
            { Name := name, Typ := semType, Line := 0, Column := 0, Address := addr }) = (st, e) := h
          rw [h2] at this
          exact this
        · have := current_AddGlobal p.symbolTable
            { Name := name, Typ := semType, Line := 0, Column := 0, Address := addr }
          have h2 : (p.symbolTable.AddGlobal
            { Name := name, Typ := semType, Line := 0, Column := 0, Address := addr }) = (st, e) := h
          rw [h2] at this
          exact this
      split
      · rename_i st err hst
        exact holds_some (level_trans r1 (level_of_table _ _ (hadd _ _ hst)))
      · rename_i st hst
        intro x hx
        exact level_trans (level_trans r1 (level_of_table _ _ (hadd _ _ hst))) (ih _ x hx)

theorem level_parseType (p : Parser) : Holds Level p (parseType p) := by
  unfold parseType
  refine holds_bind level_trans3 (level_expecting _ _) (fun _ p1 => ?_)
  exact holds_some (level_refl p1)

theorem level_parseVarListLoop (fuel : Nat) :
    ∀ (vars : List String) (p : Parser), Holds Level p (parseVarListLoop fuel vars p) := by
  induction fuel with
  | zero => intro vars p; rw [parseVarListLoop]; exact holds_none
  | succ n ih =>
    intro vars p
    rw [parseVarListLoop]
    split
    · simp only
      refine holds_after level_trans3 (level_next p) ?_
      exact holds_bind level_trans3 (level_expecting _ _) (fun _ p2 => ih _ p2)
    · exact holds_some (level_refl p)

theorem level_parseVarList (fuel : Nat) (p : Parser) : Holds Level p (parseVarList fuel p) := by
  unfold parseVarList
  refine holds_bind level_trans3 (level_expecting _ _) (fun _ p1 => ?_)
  refine holds_bind level_trans3 (level_parseVarListLoop _ _ _) (fun vars p2 => ?_)
  refine holds_bind level_trans3 (level_expecting _ _) (fun _ p3 => ?_)
  split
  · exact holds_fail Level level_refl _ _
  · refine holds_bind level_trans3 (level_addVariablesToSymbolTable _ _ _) (fun _ p4 => ?_)
    refine holds_bind level_trans3 (level_parseType _) (fun _ p5 => ?_)
    exact holds_done Level level_refl _

/-- The declaration of variables leaves the scope that is open and the stack of saved
segments as they are. -/
theorem declaration_level (fuel : Nat) :
    (∀ p b, Holds Level p (parseVarDeclarationSection fuel p b)) ∧
    (∀ p b, Holds Level p (varDeclarationLoop fuel p b)) ∧
    (∀ p b, Holds Level p (parseVarDeclaration fuel p b)) := by
  induction fuel with
  | zero =>
    refine ⟨?_, ?_, ?_⟩
    · intro p b; rw [parseVarDeclarationSection]; exact holds_none
    · intro p b; rw [varDeclarationLoop]; exact holds_none
    · intro p b; rw [parseVarDeclaration]; exact holds_none
  | succ n ih =>
    obtain ⟨ihS, ihL, ihD⟩ := ih
    refine ⟨?_, ?_, ?_⟩
    · intro p b
      rw [parseVarDeclarationSection]
      split
      · split
        · exact holds_fail Level level_refl _ _
        · exact holds_done Level level_refl _
      · exact ihL p b
    · intro p b
      rw [varDeclarationLoop]
      split
      · exact holds_bind level_trans3 (ihD _ _) (fun _ p1 => ihL p1 b)
      · exact holds_done Level level_refl _
    · intro p b
      rw [parseVarDeclaration]
      refine holds_bind level_trans3 (level_expecting _ _) (fun _ p1 => ?_)
      refine holds_bind level_trans3 (level_parseVarList _ _) (fun _ p2 => ?_)
      refine holds_bind level_trans3 (level_expecting _ _) (fun _ p3 => ?_)
      exact ihS p3 b

theorem level_parseParameter (p : Parser) : Holds Level p (parseParameter p) := by
  unfold parseParameter
  refine holds_bind level_trans3 (level_expecting _ _) (fun _ p1 => ?_)
  refine holds_bind level_trans3 (level_expecting _ _) (fun _ p2 => ?_)
  exact level_parseType _

theorem level_allocateLocal (p : Parser) (t : SharedType) :
    Holds Level p (p.allocateLocal t) := by
  unfold Parser.allocateLocal
  split
  rename_i a addr err h
  have hs := allocate_saved p.codeGenerator.MemoryManager 1 t
  unfold Allocator.AllocateLocal at h
  rw [h] at hs
  exact holds_some (level_of_memory p a hs)

theorem level_parseParameterLoop (fuel : Nat) :
    ∀ (params : List Variable) (p : Parser),
      Holds Level p (parseParameterLoop fuel params p) := by
  induction fuel with
  | zero => intro params p; rw [parseParameterLoop]; exact holds_none
  | succ n ih =>
    intro params p
    rw [parseParameterLoop]
    split
    · simp only
      split
      · exact holds_none
      · rename_i currType e p2 h2
        have r0 := level_parseParameter p.next _ h2
        have r2 : Level p p2 := level_trans (level_next p) r0
        split
        · exact holds_some r2
        · refine holds_after level_trans3 r2 ?_
          exact holds_bind level_trans3 (level_allocateLocal _ _) (fun _ p3 => ih _ p3)
    · exact holds_some (level_refl p)

theorem level_parseParameterList (fuel : Nat) (p : Parser) :
    Holds Level p (parseParameterList fuel p) := by
  unfold parseParameterList
  split
  · exact holds_some (level_refl p)
  · simp only
    refine holds_bind level_trans3 (level_parseParameter _) (fun _ p1 => ?_)
    refine holds_bind level_trans3 (level_allocateLocal _ _) (fun _ p2 => ?_)
    exact level_parseParameterLoop _ _ _


theorem level_parseFunctionBlock (fuel : Nat) (p : Parser) :
    Holds Level p (parseFunctionBlock fuel p) := by
  unfold parseFunctionBlock
  refine holds_bind level_trans3 (level_expecting _ _) (fun _ p1 => ?_)
  refine holds_bind level_trans3 ((declaration_level fuel).1 _ _) (fun _ p2 => ?_)
  refine holds_bind level_trans3 ((statement_level fuel).2.1 _) (fun _ p3 => ?_)
  exact level_expecting _ _

/-! ### Parameters -/

theorem allocateLocal_ok {p p1 : Parser} {t : SharedType} {addr : Int}
    (h : p.allocateLocal t = some { val := addr, err := none, p := p1 }) :
    ∃ a1, p.codeGenerator.MemoryManager.AllocateLocal t = (a1, addr, none) := by
  unfold Parser.allocateLocal at h
  split at h
  rename_i a addr1 err hal
  injection h with h
  injection h with h1 h2 h3
  subst h1 h2
  exact ⟨a, hal⟩

/-! ### Functions -/

theorem EnterFunctionScope_ok {st st1 : SymbolTable} {name : String}
    (h : st.EnterFunctionScope name = (st1, none)) : st1.current = some name := by
  unfold SymbolTable.EnterFunctionScope at h
  split at h
  · injection h with _ h2; cases h2
  · injection h with h1
    subst h1
    rfl

theorem current_UpdateFunctionStartQuad (st : SymbolTable) (name : String) (q : Int) :
    (st.UpdateFunctionStartQuad name q).1.current = st.current := by
  unfold SymbolTable.UpdateFunctionStartQuad
  split
  all_goals rfl

theorem popSegment_ok {p p1 : Parser} {v : Unit}
    (h : p.popSegment = some { val := v, err := none, p := p1 }) :
    (∃ s, p.codeGenerator.segments = s :: p1.codeGenerator.segments) ∧
      p1.symbolTable = p.symbolTable ∧ p1.codeGenerator.Quads = p.codeGenerator.Quads := by
  unfold Parser.popSegment at h
  split at h
  rename_i a err hpop
  obtain ⟨hq, hst⟩ := hook_ok h
  injection hq with hq1 hq2
  subst hq2
  unfold Allocator.PopFunctionSegment at hpop
  split at hpop
  · injection hpop with _ h2; cases h2
  · rename_i s rest hs
    injection hpop with ha
    refine ⟨⟨s, ?_⟩, hst, ?_⟩
    · unfold QuadrupleList.segments
      rw [← hq1, ← ha, hs]
    · rw [← hq1]

theorem pushSegment_segments (p : Parser) :
    p.pushSegment.codeGenerator.segments =
      ((p.codeGenerator.MemoryManager.counters.drop 4).take 8) :: p.codeGenerator.segments :=
  rfl

/-! ## The run of `parseFunction` -/

/-- A call of `parseFunction` that returns `nil` makes the steps of `FunctionRun`. -/
theorem parseFunction_run (n : Nat) (p pf : Parser)
    (h : parseFunction (n + 1) p = some { val := (), err := none, p := pf }) :
    ∃ (params : List Variable) (p4 p5 p6 p8 p9 p10 p11 : Parser),
      FunctionRun n p params p4 p5 p6 p8 p9 p10 p11 pf := by
  rw [parseFunction] at h
  obtain ⟨_, p1, h1, h⟩ := andThen_ok h
  obtain ⟨k1, rfl⟩ := expect_ok h1
  simp only at h
  obtain ⟨_, p2, h2, h⟩ := andThen_ok h
  obtain ⟨k2, rfl⟩ := expect_ok h2
  obtain ⟨_, p3, h3, h⟩ := andThen_ok h
  obtain ⟨k3, rfl⟩ := expect_ok h3
  obtain ⟨params, p4, h4, h⟩ := andThen_ok h
  obtain ⟨_, p5, h5, h⟩ := andThen_ok h
  obtain ⟨_, p6, h6, h⟩ := andThen_ok h
  obtain ⟨_, p7, h7, h⟩ := andThen_ok h
  obtain ⟨k7, rfl⟩ := expect_ok h7
  obtain ⟨_, p8, h8, h⟩ := andThen_ok h
  obtain ⟨_, p9, h9, h⟩ := andThen_ok h
  obtain ⟨_, p10, h10, h⟩ := andThen_ok h
  obtain ⟨_, p11, h11, h⟩ := andThen_ok h
  obtain ⟨_, p12, h12, h⟩ := andThen_ok h
  obtain ⟨k12, rfl⟩ := expect_ok h12
  exact ⟨params, p4, p5, p6, p8, p9, p10, p11, k1, k2, k3, h4, h5, h6, k7, h8, h9, h10, h11,
    k12, h⟩

theorem expecting_of_kind {p : Parser} {kind : String} (h : p.curr.Typ = kind) :
    p.expecting kind = some { val := (), err := none, p := p.next } := by
  unfold Parser.expecting Parser.expect
  rw [if_pos h]

/-- The steps of `FunctionRun` are a call of `parseFunction` that returns `nil`. -/
theorem parseFunction_of_run (n : Nat) (p pf : Parser) (params : List Variable)
    (p4 p5 p6 p8 p9 p10 p11 : Parser)
    (h : FunctionRun n p params p4 p5 p6 p8 p9 p10 p11 pf) :
    parseFunction (n + 1) p = some { val := (), err := none, p := pf } := by
  obtain ⟨k1, k2, k3, h4, h5, h6, k7, h8, h9, h10, h11, k12, h⟩ := h
  rw [parseFunction, expecting_of_kind k1]
  simp only [andThen]
  rw [expecting_of_kind k2]
  simp only [andThen]
  rw [expecting_of_kind k3]
  simp only [andThen]
  rw [h4]
  simp only [andThen]
  rw [h5]
  simp only [andThen]
  rw [h6]
  simp only [andThen]
  rw [expecting_of_kind k7]
  simp only [andThen]
  rw [h8]
  simp only [andThen]
  rw [h9]
  simp only [andThen]
  rw [h10]
  simp only [andThen]
  rw [h11]
  simp only [andThen]
  rw [expecting_of_kind k12]
  simp only [andThen]
  exact h

/-! ## Calls and start quads -/

theorem calm_refl (p : Parser) : Calm p p := ⟨sameStarts_refl _, rfl, rfl, rfl⟩

theorem calm_trans {a b c : Parser} (h1 : Calm a b) (h2 : Calm b c) : Calm a c :=
  ⟨sameStarts_trans h1.1 h2.1, h2.2.1.trans h1.2.1, h2.2.2.1.trans h1.2.2.1,
    h2.2.2.2.trans h1.2.2.2⟩

theorem calm_trans3 : ∀ a b c : Parser, Calm a b → Calm b c → Calm a c :=
  fun _ _ _ => calm_trans

theorem calm_next (p : Parser) : Calm p p.next := by
  refine ⟨?_, ?_, ?_, ?_⟩
  · rw [next_symbolTable]; exact sameStarts_refl _
  · rw [next_codeGenerator]
  · rw [next_codeGenerator]
  · rw [next_codeGenerator]

theorem calm_expect (p : Parser) (kind : String) : Calm p (p.expect kind).p := by
  unfold Parser.expect
  split
  · exact calm_next p
  · exact calm_refl p

theorem calm_expecting (p : Parser) (kind : String) : Holds Calm p (p.expecting kind) :=
  holds_some (calm_expect p kind)

/-! ### Declarations and parameters -/

theorem calm_of_memory (p : Parser) (a : Allocator) :
    Calm p (p.withGenerator { p.codeGenerator with MemoryManager := a }) :=
  ⟨sameStarts_refl _, rfl, rfl, rfl⟩

theorem calm_of_table (p : Parser) (st : SymbolTable) (h : SameStarts p.symbolTable st) :
    Calm p { p with symbolTable := st } :=
  ⟨h, rfl, rfl, rfl⟩

theorem calm_addVariablesToSymbolTable (semType : SharedType) (names : List String) :
    ∀ p, Holds Calm p (addVariablesToSymbolTable p semType names) := by
  induction names with
  | nil => intro p; rw [addVariablesToSymbolTable]; exact holds_done Calm calm_refl p
  | cons name rest ih =>
    intro p
    rw [addVariablesToSymbolTable]
    simp only
    split
    · exact holds_some (calm_of_memory p _)
    · rename_i a addr ha
      have r1 := calm_of_memory p a
      have hadd : ∀ st e,
          (if p.symbolTable.current.isSome = true then
              (p.withGenerator { p.codeGenerator with MemoryManager := a }).symbolTable.AddLocal
                { Name := name, Typ := semType, Line := 0, Column := 0, Address := addr }
            else
              (p.withGenerator { p.codeGenerator with MemoryManager := a }).symbolTable.AddGlobal
                { Name := name, Typ := semType, Line := 0, Column := 0, Address := addr }) =
            (st, e) → SameStarts p.symbolTable st := by
        intro st e h
        split at h
        · have := sameStarts_AddLocal p.symbolTable
            { Name := name, Typ := semType, Line := 0, Column := 0, Address := addr }
          have h2 : (p.symbolTable.AddLocal
            { Name := name, Typ := semType, Line := 0, Column := 0, Address := addr }) = (st, e) := h
          rw [h2] at this
          exact this
        · have := sameStarts_AddGlobal p.symbolTable
            { Name := name, Typ := semType, Line := 0, Column := 0, Address := addr }
          have h2 : (p.symbolTable.AddGlobal
            { Name := name, Typ := semType, Line := 0, Column := 0, Address := addr }) = (st, e) := h
          rw [h2] at this
          exact this
      split
      · rename_i st err hst
        exact holds_some (calm_trans r1 (calm_of_table _ _ (hadd _ _ hst)))
      · rename_i st hst
        intro x hx
        exact calm_trans (calm_trans r1 (calm_of_table _ _ (hadd _ _ hst))) (ih _ x hx)

theorem calm_parseType (p : Parser) : Holds Calm p (parseType p) := by
  unfold parseType
  refine holds_bind calm_trans3 (calm_expecting _ _) (fun _ p1 => ?_)
  exact holds_some (calm_refl p1)

theorem calm_parseVarListLoop (fuel : Nat) :
    ∀ (vars : List String) (p : Parser), Holds Calm p (parseVarListLoop fuel vars p) := by
  induction fuel with
  | zero => intro vars p; rw [parseVarListLoop]; exact holds_none
  | succ n ih =>
    intro vars p
    rw [parseVarListLoop]
    split
    · simp only
      refine holds_after calm_trans3 (calm_next p) ?_
      exact holds_bind calm_trans3 (calm_expecting _ _) (fun _ p2 => ih _ p2)
    · exact holds_some (calm_refl p)

theorem calm_parseVarList (fuel : Nat) (p : Parser) : Holds Calm p (parseVarList fuel p) := by
  unfold parseVarList
  refine holds_bind calm_trans3 (calm_expecting _ _) (fun _ p1 => ?_)
  refine holds_bind calm_trans3 (calm_parseVarListLoop _ _ _) (fun vars p2 => ?_)
  refine holds_bind calm_trans3 (calm_expecting _ _) (fun _ p3 => ?_)
  split
  · exact holds_fail Calm calm_refl _ _
  · refine holds_bind calm_trans3 (calm_addVariablesToSymbolTable _ _ _) (fun _ p4 => ?_)
    refine holds_bind calm_trans3 (calm_parseType _) (fun _ p5 => ?_)
    exact holds_done Calm calm_refl _

/-- The declaration of variables emits nothing, patches nothing, changes no start quad
and leaves the jump stack and the operand stack as they are. -/
theorem declaration_calm (fuel : Nat) :
    (∀ p b, Holds Calm p (parseVarDeclarationSection fuel p b)) ∧
    (∀ p b, Holds Calm p (varDeclarationLoop fuel p b)) ∧
    (∀ p b, Holds Calm p (parseVarDeclaration fuel p b)) := by
  induction fuel with
  | zero =>
    refine ⟨?_, ?_, ?_⟩
    · intro p b; rw [parseVarDeclarationSection]; exact holds_none
    · intro p b; rw [varDeclarationLoop]; exact holds_none
    · intro p b; rw [parseVarDeclaration]; exact holds_none
  | succ n ih =>
    obtain ⟨ihS, ihL, ihD⟩ := ih
    refine ⟨?_, ?_, ?_⟩
    · intro p b
      rw [parseVarDeclarationSection]
      split
      · split
        · exact holds_fail Calm calm_refl _ _
        · exact holds_done Calm calm_refl _
      · exact ihL p b
    · intro p b
      rw [varDeclarationLoop]
      split
      · exact holds_bind calm_trans3 (ihD _ _) (fun _ p1 => ihL p1 b)
      · exact holds_done Calm calm_refl _
    · intro p b
      rw [parseVarDeclaration]
      refine holds_bind calm_trans3 (calm_expecting _ _) (fun _ p1 => ?_)
      refine holds_bind calm_trans3 (calm_parseVarList _ _) (fun _ p2 => ?_)
      refine holds_bind calm_trans3 (calm_expecting _ _) (fun _ p3 => ?_)
      exact ihS p3 b

theorem calm_parseParameter (p : Parser) : Holds Calm p (parseParameter p) := by
  unfold parseParameter
  refine holds_bind calm_trans3 (calm_expecting _ _) (fun _ p1 => ?_)
  refine holds_bind calm_trans3 (calm_expecting _ _) (fun _ p2 => ?_)
  exact calm_parseType _

theorem calm_allocateLocal (p : Parser) (t : SharedType) :
    Holds Calm p (p.allocateLocal t) := by
  unfold Parser.allocateLocal
  split
  exact holds_some (calm_of_memory p _)

theorem calm_parseParameterLoop (fuel : Nat) :
    ∀ (params : List Variable) (p : Parser),
      Holds Calm p (parseParameterLoop fuel params p) := by
  induction fuel with
  | zero => intro params p; rw [parseParameterLoop]; exact holds_none
  | succ n ih =>
    intro params p
    rw [parseParameterLoop]
    split
    · simp only
      split
      · exact holds_none
      · rename_i currType e p2 h2
        have r0 := calm_parseParameter p.next _ h2
        have r2 : Calm p p2 := calm_trans (calm_next p) r0
        split
        · exact holds_some r2
        · refine holds_after calm_trans3 r2 ?_
          exact holds_bind calm_trans3 (calm_allocateLocal _ _) (fun _ p3 => ih _ p3)
    · exact holds_some (calm_refl p)

theorem calm_parseParameterList (fuel : Nat) (p : Parser) :
    Holds Calm p (parseParameterList fuel p) := by
  unfold parseParameterList
  split
  · exact holds_some (calm_refl p)
  · simp only
    refine holds_bind calm_trans3 (calm_parseParameter _) (fun _ p1 => ?_)
    refine holds_bind calm_trans3 (calm_allocateLocal _ _) (fun _ p2 => ?_)
    exact calm_parseParameterLoop _ _ _


/-! ### The hooks of the emitter and the calls -/

theorem get?_append_lt {α : Type} {l r : List α} {i : Nat} (h : i < l.length) :
    (l ++ r).get? i = l.get? i := by
  rw [List.get?_eq_getElem?, List.get?_eq_getElem?, List.getElem?_append_left h]

theorem get?_append_ge {α : Type} {l r : List α} {i : Nat} (h : l.length ≤ i) :
    (l ++ r).get? i = r.get? (i - l.length) := by
  rw [List.get?_eq_getElem?, List.get?_eq_getElem?, List.getElem?_append_right h]

theorem get?_set_same {α : Type} (l : List α) (n : Nat) (a : α) :
    (l.set n a).get? n = (l.get? n).map (fun _ => a) := by
  induction l generalizing n with
  | nil => rfl
  | cons b t ih =>
    cases n with
    | zero => rfl
    | succ k => exact ih k

theorem get?_set_other {α : Type} (l : List α) {n i : Nat} (a : α) (h : n ≠ i) :
    (l.set n a).get? i = l.get? i := by
  rw [List.get?_eq_getElem?, List.get?_eq_getElem?, List.getElem?_set_ne h]

theorem get?_some_lt {α : Type} {l : List α} {i : Nat} {a : α} (h : l.get? i = some a) :
    i < l.length := by
  by_contra hc
  rw [List.get?_eq_none.mpr (by omega)] at h
  cases h

/-- A step of the emitter that appends `extra`, pushes on `JumpStack` at most the index of
the first quadruple appended, that one not a `GOSUB`, and pushes only addresses on
`OperandStack`, keeps the state `CallsFrom` when the quadruples appended agree. -/
theorem callsFrom_step {m : Nat} {f : String} {s : Int} {q q1 : QuadrupleList}
    (h : CallsFrom m f s q) (extra : List Quadruple) (hQ : q1.Quads = q.Quads ++ extra)
    (hJ : ∀ j ∈ q1.JumpStack, j ∈ q.JumpStack ∨
      (j = (q.Quads.length : Int) ∧ ∃ quad rest, extra = quad :: rest ∧ quad.Operator ≠ "GOSUB"))
    (hO : ∀ v ∈ q1.OperandStack, v ∈ q.OperandStack ∨ isAddress v = true)
    (hE : ∀ quad ∈ extra, CallAgrees f s quad) : CallsFrom m f s q1 := by
  obtain ⟨ha, hb, hc, hd⟩ := h
  refine ⟨?_, ?_, ?_, ?_⟩
  · rw [hQ, List.length_append]; omega
  · intro i quad hi hget
    rw [hQ] at hget
    by_cases hlt : i < q.Quads.length
    · rw [get?_append_lt hlt] at hget
      exact hb i quad hi hget
    · rw [get?_append_ge (by omega)] at hget
      exact hE quad (List.get?_mem hget)
  · intro j hj
    rw [hQ, List.length_append]
    rcases hJ j hj with hold | ⟨hnew, quad, rest, hex, hop⟩
    · obtain ⟨hlt, hq⟩ := hc j hold
      refine ⟨by omega, ?_⟩
      intro quad hmj hget
      have hlt2 : j.toNat < q.Quads.length := by omega
      rw [get?_append_lt hlt2] at hget
      exact hq quad hmj hget
    · subst hnew
      refine ⟨by rw [hex]; simp, ?_⟩
      intro quad1 _ hget
      rw [Int.toNat_ofNat, get?_append_ge (le_refl _), Nat.sub_self, hex] at hget
      simp only [List.get?_cons_zero, Option.some.injEq] at hget
      subst hget
      exact hop
  · intro v hv
    rcases hO v hv with hold | hnew
    · exact hd v hold
    · exact hnew

theorem callsFrom_same {m : Nat} {f : String} {s : Int} {q q1 : QuadrupleList}
    (h : CallsFrom m f s q) (hQ : q1.Quads = q.Quads) (hJ : q1.JumpStack = q.JumpStack)
    (hO : ∀ v ∈ q1.OperandStack, v ∈ q.OperandStack ∨ isAddress v = true) :
    CallsFrom m f s q1 :=
  callsFrom_step h [] (by rw [hQ, List.append_nil]) (fun j hj => Or.inl (hJ ▸ hj)) hO
    (fun _ hq => by cases hq)

theorem callAgrees_of_operator {f : String} {s : Int} (op : String) (l r res : Value)
    (h : op ≠ "GOSUB") : CallAgrees f s ⟨op, l, r, res⟩ :=
  fun hop => absurd hop h

theorem callAgrees_of_address {f : String} {s : Int} {quad : Quadruple}
    (h : isAddress quad.LeftOp = true) : CallAgrees f s quad := by
  intro _ hl
  rw [hl] at h
  cases h

/-- Backpatching the quadruple at an index that waits on `JumpStack` keeps the state
`CallsFrom`, also when entries are taken off the stack. -/
theorem callsFrom_patch {m : Nat} {f : String} {s : Int} {q : QuadrupleList}
    (h : CallsFrom m f s q) (q1 : QuadrupleList) (j t : Int) (hj : j ∈ q.JumpStack)
    (hQ : q1.Quads = q.Quads) (hJ : ∀ k ∈ q1.JumpStack, k ∈ q.JumpStack)
    (hO : q1.OperandStack = q.OperandStack) : CallsFrom m f s (q1.patch j t) := by
  have h1 : CallsFrom m f s q1 :=
    ⟨hQ ▸ h.1, fun i quad hi hg => h.2.1 i quad hi (hQ ▸ hg),
      fun k hk => by rw [hQ]; exact h.2.2.1 k (hJ k hk), fun v hv => h.2.2.2 v (hO ▸ hv)⟩
  obtain ⟨-, -, hc0, -⟩ := h
  obtain ⟨hjlt, hjop⟩ := hc0 j hj
  rw [← hQ] at hjlt hjop
  obtain ⟨ha, hb, hc, hd⟩ := h1
  unfold QuadrupleList.patch
  split
  · exact ⟨ha, hb, hc, hd⟩
  · rename_i hneg
    split
    · exact ⟨ha, hb, hc, hd⟩
    · rename_i old hold
      have hop : ∀ (i : Nat) (quad : Quadruple),
          (q1.Quads.set j.toNat { old with Result := .int t }).get? i = some quad →
          ∃ quad0, q1.Quads.get? i = some quad0 ∧ quad0.Operator = quad.Operator ∧
            (i ≠ j.toNat → quad0 = quad) := by
        intro i quad hg
        by_cases hij : j.toNat = i
        · subst hij
          rw [get?_set_same, hold] at hg
          simp only [Option.map_some', Option.some.injEq] at hg
          subst hg
          exact ⟨old, hold, rfl, fun hne => absurd rfl hne⟩
        · rw [get?_set_other _ _ hij] at hg
          exact ⟨quad, hg, rfl, fun _ => rfl⟩
      refine ⟨?_, ?_, ?_, hd⟩
      · show m ≤ (q1.Quads.set j.toNat _).length
        rw [List.length_set]; exact ha
      · intro i quad hi hg
        obtain ⟨quad0, hg0, hop0, hsame⟩ := hop i quad hg
        by_cases hij : i = j.toNat
        · intro hgo
          exfalso
          rw [← hop0] at hgo
          subst hij
          exact hjop quad0 (by omega) hg0 hgo
        · rw [← hsame hij]
          exact hb i quad0 hi hg0
      · intro k hk
        obtain ⟨hklt, hkop⟩ := hc k hk
        refine ⟨by show k < ((q1.Quads.set j.toNat _).length : Int); rw [List.length_set]; exact hklt, ?_⟩
        intro quad hmk hg
        obtain ⟨quad0, hg0, hop0, -⟩ := hop k.toNat quad hg
        rw [← hop0]
        exact hkop quad0 hmk hg0

theorem callsFrom_of_fst {m : Nat} {f : String} {s : Int} {q0 q : QuadrupleList}
    {e : Option String} {r : QuadrupleList × Option String} (h : r = (q, e))
    (hk : CallsFrom m f s q0 → CallsFrom m f s r.1) : CallsFrom m f s q0 → CallsFrom m f s q := by
  subst h; exact hk

theorem HandleFactor_calls (m : Nat) (f : String) (s : Int) (q : QuadrupleList)
    (lit : String) (t : SharedType) (st : SymbolTable) :
    CallsFrom m f s q → CallsFrom m f s (q.HandleFactor lit t st).1 := by
  intro h
  unfold QuadrupleList.HandleFactor
  repeat' split
  all_goals
    refine callsFrom_same h rfl rfl ?_
    intro v hv
    first
      | exact Or.inl hv
      | (rcases List.mem_cons.mp hv with hv | hv
         · exact Or.inr (by rw [hv]; rfl)
         · exact Or.inl hv)

theorem HandleOp_calls (m : Nat) (f : String) (s : Int) (q : QuadrupleList) :
    CallsFrom m f s q → CallsFrom m f s q.HandleOp.1 := by
  intro h
  unfold QuadrupleList.HandleOp
  split
  · rename_i op ops right left operands rightType leftType types ho hd ht
    have hsub : ∀ v ∈ operands, v ∈ q.OperandStack := by
      intro v hv
      rw [hd]
      exact List.mem_cons_of_mem _ (List.mem_cons_of_mem _ hv)
    have hleft : isAddress left = true :=
      h.2.2.2 left (by rw [hd]; exact List.mem_cons_of_mem _ (List.mem_cons_self _ _))
    simp only
    split
    · exact callsFrom_same h rfl rfl (fun v hv => Or.inl (hsub v hv))
    · split
      · exact callsFrom_same h rfl rfl (fun v hv => Or.inl (hsub v hv))
      · rename_i a temp _
        refine callsFrom_step h [⟨op, left, right, .int temp⟩] rfl
          (fun j hj => Or.inl hj) ?_ ?_
        · intro v hv
          rcases List.mem_cons.mp hv with hv | hv
          · exact Or.inr (by rw [hv]; rfl)
          · exact Or.inl (hsub v hv)
        · intro quad hq
          rw [List.mem_singleton] at hq
          subst hq
          exact callAgrees_of_address hleft
  · exact h

theorem HandleOpenParen_calls (m : Nat) (f : String) (s : Int) (q : QuadrupleList) :
    CallsFrom m f s q → CallsFrom m f s q.HandleOpenParen :=
  fun h => callsFrom_same h rfl rfl (fun _ hv => Or.inl hv)

theorem HandleCloseParen_calls (m : Nat) (f : String) (s : Int) (q : QuadrupleList) :
    CallsFrom m f s q → CallsFrom m f s q.HandleCloseParen.1 := by
  intro h
  unfold QuadrupleList.HandleCloseParen
  repeat' split
  all_goals exact callsFrom_same h rfl rfl (fun _ hv => Or.inl hv)

theorem HandleAssignment_calls (m : Nat) (f : String) (s : Int) (q : QuadrupleList)
    (a : Int) (t : SharedType) :
    CallsFrom m f s q → CallsFrom m f s (q.HandleAssignment a t).1 := by
  intro h
  unfold QuadrupleList.HandleAssignment
  split
  · rename_i src operands srcType types hd ht
    have hsub : ∀ v ∈ operands, v ∈ q.OperandStack := by
      intro v hv
      rw [hd]
      exact List.mem_cons_of_mem _ hv
    simp only
    split
    · exact callsFrom_same h rfl rfl (fun v hv => Or.inl (hsub v hv))
    · refine callsFrom_step h [⟨"=", src, .nil, .int a⟩] rfl (fun j hj => Or.inl hj)
        (fun v hv => Or.inl (hsub v hv)) ?_
      intro quad hq
      rw [List.mem_singleton] at hq
      subst hq
      exact callAgrees_of_operator "=" _ _ _ (by decide)
  · exact h

theorem emit_calls (m : Nat) (f : String) (s : Int) (q : QuadrupleList) (quad : Quadruple)
    (hq : CallAgrees f s quad) : CallsFrom m f s q → CallsFrom m f s (q.emit quad) := by
  intro h
  refine callsFrom_step h [quad] rfl (fun j hj => Or.inl hj) (fun v hv => Or.inl hv) ?_
  intro quad1 h1
  rw [List.mem_singleton] at h1
  subst h1
  exact hq

theorem HandleParam_calls (m : Nat) (f : String) (s : Int) (q : QuadrupleList)
    (arg : Value) (k : Int) : CallsFrom m f s q → CallsFrom m f s (q.HandleParam arg k).1 :=
  emit_calls m f s q ⟨"param", arg, .nil, .int k⟩
    (callAgrees_of_operator "param" _ _ _ (by decide))

theorem HandleERA_calls (m : Nat) (f : String) (s : Int) (q : QuadrupleList)
    (name : String) : CallsFrom m f s q → CallsFrom m f s (q.HandleERA name).1 :=
  emit_calls m f s q ⟨"ERA", .str name, .nil, .nil⟩
    (callAgrees_of_operator "ERA" _ _ _ (by decide))

theorem HandleENDPROC_calls (m : Nat) (f : String) (s : Int) (q : QuadrupleList) :
    CallsFrom m f s q → CallsFrom m f s q.HandleENDPROC.1 :=
  emit_calls m f s q ⟨"ENDPROC", .nil, .nil, .nil⟩
    (callAgrees_of_operator "ENDPROC" _ _ _ (by decide))

/-- The hook `HandleGOSUB` keeps the state when it is handed the start quad `s` for the
name `f`. -/
theorem HandleGOSUB_calls (m : Nat) (f : String) (s : Int) (q : QuadrupleList)
    (name : String) (start : Int) (h : name = f → start = s) :
    CallsFrom m f s q → CallsFrom m f s (q.HandleGOSUB name start).1 := by
  refine emit_calls m f s q ⟨"GOSUB", .str name, .nil, .int start⟩ ?_
  intro _ hl
  have hname : name = f := Value.str.inj hl
  show Value.int start = Value.int s
  rw [h hname]

theorem HandlePrint_calls (m : Nat) (f : String) (s : Int) (q : QuadrupleList) (x : Value) :
    CallsFrom m f s q → CallsFrom m f s (q.HandlePrint x).1 := by
  intro h
  unfold QuadrupleList.HandlePrint
  split
  · split
    · exact callsFrom_same h rfl rfl (fun v hv => Or.inl hv)
    · rename_i a addr _
      have h1 : CallsFrom m f s ({ q with MemoryManager := a } : QuadrupleList) :=
        callsFrom_same h rfl rfl (fun v hv => Or.inl hv)
      exact emit_calls m f s _ ⟨"print", .int addr, .nil, .nil⟩
        (callAgrees_of_operator "print" _ _ _ (by decide)) h1
  · exact emit_calls m f s q ⟨"print", x, .nil, .nil⟩
      (callAgrees_of_operator "print" _ _ _ (by decide)) h

theorem handleGuard_calls (m : Nat) (f : String) (s : Int) (q : QuadrupleList) :
    CallsFrom m f s q → CallsFrom m f s q.handleGuard.1 := by
  intro h
  unfold QuadrupleList.handleGuard
  split
  · rename_i cond operands _ types hd ht
    refine callsFrom_step h [⟨"gotof", cond, .nil, .nil⟩] rfl ?_ ?_ ?_
    · intro j hj
      rcases List.mem_cons.mp hj with hj | hj
      · exact Or.inr ⟨hj, ⟨"gotof", cond, .nil, .nil⟩, [], rfl,
          (show ("gotof" : String) ≠ "GOSUB" by decide)⟩
      · exact Or.inl hj
    · intro v hv
      exact Or.inl (by rw [hd]; exact List.mem_cons_of_mem _ hv)
    · intro quad hq
      rw [List.mem_singleton] at hq
      subst hq
      exact callAgrees_of_operator "gotof" _ _ _ (by decide)
  · exact h

theorem HandleElse_calls (m : Nat) (f : String) (s : Int) (q : QuadrupleList) :
    CallsFrom m f s q → CallsFrom m f s q.HandleElse.1 := by
  intro h
  unfold QuadrupleList.HandleElse
  split
  · exact h
  · rename_i j jumps hjs
    simp only
    have ha : CallsFrom m f s
        ({ q with Quads := q.Quads ++ [⟨"goto", .nil, .nil, .nil⟩],
                  JumpStack := q.nextIndex :: q.JumpStack } : QuadrupleList) := by
      refine callsFrom_step h [⟨"goto", .nil, .nil, .nil⟩] rfl ?_ (fun v hv => Or.inl hv) ?_
      · intro k hk
        rcases List.mem_cons.mp hk with hk | hk
        · exact Or.inr ⟨hk, ⟨"goto", .nil, .nil, .nil⟩, [], rfl,
            (show ("goto" : String) ≠ "GOSUB" by decide)⟩
        · exact Or.inl hk
      · intro quad hq
        rw [List.mem_singleton] at hq
        subst hq
        exact callAgrees_of_operator "goto" _ _ _ (by decide)
    refine callsFrom_patch ha _ j _ ?_ rfl ?_ rfl
    · show j ∈ q.nextIndex :: q.JumpStack
      rw [hjs]
      exact List.mem_cons_of_mem _ (List.mem_cons_self _ _)
    · intro k hk
      show k ∈ q.nextIndex :: q.JumpStack
      rw [hjs]
      rcases List.mem_cons.mp hk with hk | hk
      · rw [hk]; exact List.mem_cons_self _ _
      · exact List.mem_cons_of_mem _ (List.mem_cons_of_mem _ hk)

theorem HandleEndIf_calls (m : Nat) (f : String) (s : Int) (q : QuadrupleList) :
    CallsFrom m f s q → CallsFrom m f s q.HandleEndIf.1 := by
  intro h
  unfold QuadrupleList.HandleEndIf
  split
  · exact h
  · rename_i j jumps hjs
    simp only
    refine callsFrom_patch h _ j _ ?_ rfl ?_ rfl
    · rw [hjs]; exact List.mem_cons_self _ _
    · intro k hk
      rw [hjs]
      exact List.mem_cons_of_mem _ hk

theorem HandleWhileEnd_calls (m : Nat) (f : String) (s : Int) (q : QuadrupleList)
    (start : Int) : CallsFrom m f s q → CallsFrom m f s (q.HandleWhileEnd start).1 := by
  intro h
  unfold QuadrupleList.HandleWhileEnd
  split
  · exact h
  · rename_i j jumps hjs
    simp only
    have ha : CallsFrom m f s
        ({ q with Quads := q.Quads ++ [⟨"goto", .nil, .nil, .int start⟩] } : QuadrupleList) := by
      refine callsFrom_step h [⟨"goto", .nil, .nil, .int start⟩] rfl (fun k hk => Or.inl hk)
        (fun v hv => Or.inl hv) ?_
      intro quad hq
      rw [List.mem_singleton] at hq
      subst hq
      exact callAgrees_of_operator "goto" _ _ _ (by decide)
    refine callsFrom_patch ha _ j _ ?_ rfl ?_ rfl
    · show j ∈ q.JumpStack
      rw [hjs]; exact List.mem_cons_self _ _
    · intro k hk
      show k ∈ q.JumpStack
      rw [hjs]
      exact List.mem_cons_of_mem _ hk

/-! ### Steps of the parser and the calls -/

theorem calls_refl {m : Nat} {f : String} {s : Int} (p : Parser) : Calls m f s p p :=
  fun h => h

theorem calls_trans {m : Nat} {f : String} {s : Int} {a b c : Parser}
    (h1 : Calls m f s a b) (h2 : Calls m f s b c) : Calls m f s a c :=
  fun h => h2 (h1 h)

theorem calls_trans3 (m : Nat) (f : String) (s : Int) :
    ∀ a b c : Parser, Calls m f s a b → Calls m f s b c → Calls m f s a c :=
  fun _ _ _ => calls_trans

theorem calls_refl1 (m : Nat) (f : String) (s : Int) : ∀ a : Parser, Calls m f s a a :=
  fun a => calls_refl a

/-- Where nothing was emitted, no start quad changed and the stacks are the same, the
calls agree as before. -/
theorem calm_calls {m : Nat} {f : String} {s : Int} {a b : Parser} (h : Calm a b) :
    Calls m f s a b := by
  intro ⟨hst, hc⟩
  obtain ⟨h1, h2, h3, h4⟩ := h
  refine ⟨by rw [h1]; exact hst, callsFrom_same hc h2 h3 ?_⟩
  intro v hv
  exact Or.inl (h4 ▸ hv)

theorem calm_calls2 (m : Nat) (f : String) (s : Int) : ∀ a b : Parser, Calm a b → Calls m f s a b :=
  fun _ _ => calm_calls

theorem calm_pushOperator (p : Parser) (op : String) : Calm p (p.pushOperator op) :=
  ⟨sameStarts_refl _, rfl, rfl, rfl⟩

theorem calm_getType (p : Parser) (tok : Token) : Calm p (p.getType tok).p := by
  unfold Parser.getType
  repeat' split
  all_goals first
    | exact calm_next p
    | exact calm_refl p

theorem calls_withGenerator {m : Nat} {f : String} {s : Int} (p : Parser) (q : QuadrupleList)
    (h : CallsFrom m f s p.codeGenerator → CallsFrom m f s q) :
    Calls m f s p (p.withGenerator q) :=
  fun hp => ⟨hp.1, h hp.2⟩

theorem calls_expecting (m : Nat) (f : String) (s : Int) (p : Parser) (kind : String) :
    Holds (Calls m f s) p (p.expecting kind) :=
  holds_mono (calm_calls2 m f s) (calm_expecting p kind)

theorem calls_hook {m : Nat} {f : String} {s : Int} (p : Parser)
    (r : QuadrupleList × Option String)
    (h : CallsFrom m f s p.codeGenerator → CallsFrom m f s r.1) :
    Holds (Calls m f s) p (p.hook r) :=
  holds_some (calls_withGenerator p r.1 h)

theorem callsFrom_comp {m : Nat} {f : String} {s : Int} {a b c : QuadrupleList}
    (h1 : CallsFrom m f s a → CallsFrom m f s b) (h2 : CallsFrom m f s b → CallsFrom m f s c) :
    CallsFrom m f s a → CallsFrom m f s c :=
  fun h => h2 (h1 h)

/-- Taking operands off the operand stack keeps the state. -/
theorem callsFrom_pop {m : Nat} {f : String} {s : Int} (q : QuadrupleList)
    (operands : List Value) (types : List SharedType)
    (h : ∀ v ∈ operands, v ∈ q.OperandStack) :
    CallsFrom m f s q →
      CallsFrom m f s { q with OperandStack := operands, TypeStack := types } :=
  fun hq => callsFrom_same hq rfl rfl (fun v hv => Or.inl (h v hv))

/-! ### Expressions and the calls -/

theorem calls_parseAtom (m0 : Nat) (fn : String) (sq : Int) (p : Parser) (sym : String) : Calls m0 fn sq p (parseAtom p sym).p := by
  unfold parseAtom
  simp only
  split
  · rename_i h
    have := calm_getType p p.curr
    rw [h] at this
    exact calm_calls this
  · rename_i h
    have h1 := calm_getType p p.curr
    rw [h] at h1
    split
    all_goals
      rename_i hq
      exact calls_trans (calm_calls h1)
        (calls_withGenerator _ _ (callsFrom_of_fst hq (HandleFactor_calls m0 fn sq _ _ _ _)))

/-- Whatever the five methods of the expression grammar return, the calls of `fn` agree
with the start quad `sq` as before. -/
theorem expression_calls (m0 : Nat) (fn : String) (sq : Int) (fuel : Nat) :
    (∀ p, Holds (Calls m0 fn sq) p (parseExpression fuel p)) ∧
    (∀ p, Holds (Calls m0 fn sq) p (parseExp fuel p)) ∧
    (∀ l p, Holds (Calls m0 fn sq) p (parseExpLoop fuel l p)) ∧
    (∀ p, Holds (Calls m0 fn sq) p (parseTerm fuel p)) ∧
    (∀ p, Holds (Calls m0 fn sq) p (parseFactor fuel p)) := by
  induction fuel with
  | zero =>
    refine ⟨?_, ?_, ?_, ?_, ?_⟩
    · intro p; rw [parseExpression]; exact holds_none
    · intro p; rw [parseExp]; exact holds_none
    · intro l p; rw [parseExpLoop]; exact holds_none
    · intro p; rw [parseTerm]; exact holds_none
    · intro p; rw [parseFactor]; exact holds_none
  | succ n ih =>
    obtain ⟨ihE, ihX, ihL, ihT, ihF⟩ := ih
    refine ⟨?_, ?_, ?_, ?_, ?_⟩
    · intro p
      rw [parseExpression]
      split
      · exact holds_none
      · rename_i h1; have r0 := ihX p _ h1; exact holds_some r0
      · rename_i leftType p1 h1
        have r1 : Calls m0 fn sq p p1 := ihX p _ h1
        split
        · simp only
          have r2 : Calls m0 fn sq p ((p1.pushOperator p1.curr.Lit).next) := calls_trans r1
            (calls_trans (calm_calls (calm_pushOperator _ _)) (calm_calls (calm_next _)))
          split
          · exact holds_none
          · rename_i h3; have r0 := ihX _ _ h3; exact holds_some (calls_trans r2 r0)
          · rename_i h3
            have r0 := ihX _ _ h3
            have r3 := calls_trans r2 r0
            split
            all_goals
              rename_i hq
              have hk := callsFrom_of_fst hq (HandleOp_calls m0 fn sq _)
              exact holds_some (calls_trans r3 (calls_withGenerator _ _ hk))
        · exact holds_some r1
    · intro p
      rw [parseExp]
      split
      · exact holds_none
      · rename_i h1; have r0 := ihT p _ h1; exact holds_some r0
      · rename_i h1
        have r0 := ihT p _ h1
        intro x hx
        exact calls_trans r0 (ihL _ _ x hx)
    · intro l p
      rw [parseExpLoop]
      split
      · simp only
        have r1 : Calls m0 fn sq p (p.next.pushOperator p.curr.Lit) :=
          calls_trans (calm_calls (calm_next _)) (calm_calls (calm_pushOperator _ _))
        split
        · exact holds_none
        · rename_i h2; have r0 := ihT _ _ h2; exact holds_some (calls_trans r1 r0)
        · rename_i h2
          have r0 := ihT _ _ h2
          have r2 := calls_trans r1 r0
          split
          · rename_i hq
            have hk := callsFrom_of_fst hq (HandleOp_calls m0 fn sq _)
            exact holds_some (calls_trans r2 (calls_withGenerator _ _ hk))
          · rename_i hq
            have hk := callsFrom_of_fst hq (HandleOp_calls m0 fn sq _)
            intro x hx
            exact calls_trans (calls_trans r2 (calls_withGenerator _ _ hk)) (ihL _ _ x hx)
      · exact holds_some (calls_refl p)
    · intro p
      rw [parseTerm]
      split
      · exact holds_none
      · rename_i h1; have r0 := ihF p _ h1; exact holds_some r0
      · rename_i leftType p1 h1
        have r1 : Calls m0 fn sq p p1 := ihF p _ h1
        split
        · simp only
          have r2 : Calls m0 fn sq p (p1.next.pushOperator p1.curr.Lit) := calls_trans r1
            (calls_trans (calm_calls (calm_next _)) (calm_calls (calm_pushOperator _ _)))
          split
          · exact holds_none
          · rename_i h3
            have r0 := ihT _ _ h3
            have r3 := calls_trans r2 r0
            split
            · rename_i hq
              have hk := callsFrom_of_fst hq (HandleOp_calls m0 fn sq _)
              exact holds_some (calls_trans r3 (calls_withGenerator _ _ hk))
            · rename_i hq
              have hk := callsFrom_of_fst hq (HandleOp_calls m0 fn sq _)
              repeat' split
              all_goals exact holds_some (calls_trans r3 (calls_withGenerator _ _ hk))
        · exact holds_some r1
    · intro p
      rw [parseFactor]
      split
      · simp only
        have r1 : Calls m0 fn sq p ((p.withGenerator p.codeGenerator.HandleOpenParen).next) :=
          calls_trans (calls_withGenerator _ _ (HandleOpenParen_calls m0 fn sq _)) (calm_calls (calm_next _))
        split
        · exact holds_none
        · rename_i h2; have r0 := ihE _ _ h2; exact holds_some (calls_trans r1 r0)
        · rename_i exprType p2 h2
          have r0 := ihE _ _ h2
          have r2 := calls_trans r1 r0
          have hk : ∀ q e, (if p2.curr.Typ = "closeParan" then p2.codeGenerator.HandleCloseParen
              else (p2.codeGenerator, none)) = (q, e) →
              (CallsFrom m0 fn sq p2.codeGenerator → CallsFrom m0 fn sq q) := by
            intro q e hq
            split at hq
            · exact callsFrom_of_fst hq (HandleCloseParen_calls m0 fn sq p2.codeGenerator)
            · cases hq; exact fun h => h
          split
          · rename_i hq
            exact holds_some (calls_trans r2 (calls_withGenerator _ _ (hk _ _ hq)))
          · rename_i q hq
            have r3 : Calls m0 fn sq p (p2.withGenerator q) :=
              calls_trans r2 (calls_withGenerator _ _ (hk _ _ hq))
            split
            all_goals
              rename_i he
              have r4 := @calm_calls m0 fn sq _ _ (calm_expect (p2.withGenerator q) "closeParan")
              rw [he] at r4
              exact holds_some (calls_trans r3 r4)
      · split
        · simp only
          split
          · exact holds_some (calls_refl p)
          · split
            · exact holds_some (calls_trans (calm_calls (calm_next p)) (calls_parseAtom m0 fn sq _ _))
            · exact holds_some (calm_calls (calm_next p))
        · split
          · exact holds_some (calls_parseAtom m0 fn sq _ _)
          · exact holds_some (calls_refl p)

theorem calls_parseExpression (m0 : Nat) (fn : String) (sq : Int) (fuel : Nat) (p : Parser) :
    Holds (Calls m0 fn sq) p (parseExpression fuel p) :=
  (expression_calls m0 fn sq fuel).1 p

theorem calls_handleArgument (m0 : Nat) (fn : String) (sq : Int) (p : Parser) (k : Int) : Calls m0 fn sq p (handleArgument p k).p := by
  unfold handleArgument
  split
  · exact calls_refl p
  · rename_i arg operands hd
    simp only
    have h0 : CallsFrom m0 fn sq p.codeGenerator → CallsFrom m0 fn sq
        { p.codeGenerator with OperandStack := operands,
                               TypeStack := p.codeGenerator.TypeStack.drop 1 } :=
      callsFrom_pop _ _ _ (fun v hv => by rw [hd]; exact List.mem_cons_of_mem _ hv)
    split
    all_goals
      rename_i hq
      exact calls_withGenerator _ _ (callsFrom_comp h0 (callsFrom_of_fst hq (HandleParam_calls m0 fn sq _ _ _)))

theorem calls_parseArgumentLoop (m0 : Nat) (fn : String) (sq : Int) (fuel : Nat) :
    ∀ (k : Int) (ts : List SharedType) (p : Parser),
      Holds (Calls m0 fn sq) p (parseArgumentLoop fuel k ts p) := by
  induction fuel with
  | zero => intro k ts p; rw [parseArgumentLoop]; exact holds_none
  | succ n ih =>
    intro k ts p
    rw [parseArgumentLoop]
    split
    · simp only
      split
      · exact holds_none
      · rename_i argType err p2 h2
        have r0 := calls_parseExpression m0 fn sq n p.next _ h2
        have r2 : Calls m0 fn sq p p2 := calls_trans (calm_calls (calm_next p)) r0
        split
        · exact holds_some r2
        · split
          · rename_i h3
            have r3 := calls_handleArgument m0 fn sq p2 k
            rw [h3] at r3
            exact holds_some (calls_trans r2 r3)
          · rename_i h3
            have r3 := calls_handleArgument m0 fn sq p2 k
            rw [h3] at r3
            intro x hx
            exact calls_trans (calls_trans r2 r3) (ih _ _ _ x hx)
    · exact holds_some (calls_refl p)

theorem calls_parseArgumentList (m0 : Nat) (fn : String) (sq : Int) (fuel : Nat) (p : Parser) :
    Holds (Calls m0 fn sq) p (parseArgumentList fuel p) := by
  unfold parseArgumentList
  split
  · exact holds_some (calls_refl p)
  · split
    · exact holds_none
    · rename_i h1
      have r0 := calls_parseExpression m0 fn sq fuel p _ h1
      exact holds_some r0
    · rename_i currType p1 h1
      have r1 : Calls m0 fn sq p p1 := calls_parseExpression m0 fn sq fuel p _ h1
      split
      · rename_i h2
        have r2 := calls_handleArgument m0 fn sq p1 0
        rw [h2] at r2
        exact holds_some (calls_trans r1 r2)
      · rename_i h2
        have r2 := calls_handleArgument m0 fn sq p1 0
        rw [h2] at r2
        intro x hx
        exact calls_trans (calls_trans r1 r2) (calls_parseArgumentLoop m0 fn sq fuel _ _ _ x hx)

theorem calls_parseAssignment (m0 : Nat) (fn : String) (sq : Int) (fuel : Nat) (p : Parser) (id nextToken : Token) :
    Holds (Calls m0 fn sq) p (parseAssignment fuel p id nextToken) := by
  unfold parseAssignment
  split
  · exact holds_some (calls_refl p)
  · split
    · exact holds_none
    · rename_i t e p1 h1
      have r0 := calls_parseExpression m0 fn sq fuel p.next _ h1
      have r1 : Calls m0 fn sq p p1 := calls_trans (calm_calls (calm_next p)) r0
      split
      · exact holds_some r1
      · split
        · exact holds_some r1
        · split
          · rename_i hq
            exact holds_some (calls_trans r1
              (calls_withGenerator _ _ (callsFrom_of_fst hq (HandleAssignment_calls m0 fn sq _ _ _))))
          · rename_i q hq
            have r2 : Calls m0 fn sq p (p1.withGenerator q) := calls_trans r1
              (calls_withGenerator _ _ (callsFrom_of_fst hq (HandleAssignment_calls m0 fn sq _ _ _)))
            exact holds_some (calls_trans r2 (calm_calls (calm_expect _ _)))

theorem calls_parseFunctionCall (m0 : Nat) (fn : String) (sq : Int) (fuel : Nat) (p : Parser) (id : Token) :
    Holds (Calls m0 fn sq) p (parseFunctionCall fuel p id) := by
  unfold parseFunctionCall
  simp only
  refine holds_bind (calls_trans3 m0 fn sq) (calls_expecting m0 fn sq _ _) (fun _ p1 => ?_)
  refine holds_bind (calls_trans3 m0 fn sq) (calls_hook _ _ (HandleERA_calls m0 fn sq _ _)) (fun _ p2 => ?_)
  refine holds_bind (calls_trans3 m0 fn sq) (calls_parseArgumentList m0 fn sq _ _) (fun _ p3 => ?_)
  refine holds_bind (calls_trans3 m0 fn sq) (calls_expecting m0 fn sq _ _) (fun _ p4 => ?_)
  split
  · exact holds_fail (Calls m0 fn sq) (calls_refl1 m0 fn sq) _ _
  · split
    · exact holds_fail (Calls m0 fn sq) (calls_refl1 m0 fn sq) _ _
    · rename_i startQuad hget
      refine holds_some ?_
      intro hp
      refine ⟨hp.1, HandleGOSUB_calls m0 fn sq _ _ _ ?_ hp.2⟩
      intro hname
      rw [hname, hp.1] at hget
      injection hget with hget
      exact hget.symm

theorem calls_parsePrintItem (m0 : Nat) (fn : String) (sq : Int) (fuel : Nat) (p : Parser) :
    Holds (Calls m0 fn sq) p (parsePrintItem fuel p) := by
  unfold parsePrintItem
  split
  · refine holds_bind (calls_trans3 m0 fn sq) (calls_hook _ _ (HandlePrint_calls m0 fn sq _ _)) (fun _ p1 => ?_)
    exact holds_some (calm_calls (calm_next p1))
  · refine holds_bind (calls_trans3 m0 fn sq) (calls_parseExpression m0 fn sq _ _) (fun _ p1 => ?_)
    split
    · exact holds_fail (Calls m0 fn sq) (calls_refl1 m0 fn sq) _ _
    · simp only
      refine holds_bind (calls_trans3 m0 fn sq) ?_ (fun _ p2 => holds_done (Calls m0 fn sq) (calls_refl1 m0 fn sq) p2)
      refine holds_some (calls_withGenerator _ _ ?_)
      rename_i result operands hd
      have h0 : CallsFrom m0 fn sq p1.codeGenerator → CallsFrom m0 fn sq
          { p1.codeGenerator with OperandStack := operands,
                                  TypeStack := p1.codeGenerator.TypeStack.drop 1 } :=
        callsFrom_pop _ _ _ (fun v hv => by rw [hd]; exact List.mem_cons_of_mem _ hv)
      exact callsFrom_comp h0 (HandlePrint_calls m0 fn sq _ _)

theorem calls_parsePrintListLoop (m0 : Nat) (fn : String) (sq : Int) (fuel : Nat) :
    ∀ p, Holds (Calls m0 fn sq) p (parsePrintListLoop fuel p) := by
  induction fuel with
  | zero => intro p; rw [parsePrintListLoop]; exact holds_none
  | succ n ih =>
    intro p
    rw [parsePrintListLoop]
    split
    · refine holds_after (calls_trans3 m0 fn sq) (calm_calls (calm_next p)) ?_
      exact holds_bind (calls_trans3 m0 fn sq) (calls_parsePrintItem m0 fn sq _ _) (fun _ p1 => ih p1)
    · exact holds_done (Calls m0 fn sq) (calls_refl1 m0 fn sq) p

theorem calls_parsePrintList (m0 : Nat) (fn : String) (sq : Int) (fuel : Nat) (p : Parser) :
    Holds (Calls m0 fn sq) p (parsePrintList fuel p) := by
  unfold parsePrintList
  exact holds_bind (calls_trans3 m0 fn sq) (calls_parsePrintItem m0 fn sq _ _)
    (fun _ p1 => calls_parsePrintListLoop m0 fn sq fuel p1)

theorem calls_parsePrintStatement (m0 : Nat) (fn : String) (sq : Int) (fuel : Nat) (p : Parser) :
    Holds (Calls m0 fn sq) p (parsePrintStatement fuel p) := by
  unfold parsePrintStatement
  refine holds_bind (calls_trans3 m0 fn sq) (calls_expecting m0 fn sq _ _) (fun _ p1 => ?_)
  refine holds_bind (calls_trans3 m0 fn sq) (calls_expecting m0 fn sq _ _) (fun _ p2 => ?_)
  refine holds_bind (calls_trans3 m0 fn sq) (calls_parsePrintList m0 fn sq _ _) (fun _ p3 => ?_)
  exact calls_expecting m0 fn sq _ _

/-- Whatever the five methods of the statement grammar return, the calls of `fn` agree
with the start quad `sq` as before. -/
theorem statement_calls (m0 : Nat) (fn : String) (sq : Int) (fuel : Nat) :
    (∀ p, Holds (Calls m0 fn sq) p (parseBlock fuel p)) ∧
    (∀ p, Holds (Calls m0 fn sq) p (parseStatementList fuel p)) ∧
    (∀ p, Holds (Calls m0 fn sq) p (parseStatement fuel p)) ∧
    (∀ p, Holds (Calls m0 fn sq) p (parseWhileStatement fuel p)) ∧
    (∀ p, Holds (Calls m0 fn sq) p (parseIfStatement fuel p)) := by
  induction fuel with
  | zero =>
    refine ⟨?_, ?_, ?_, ?_, ?_⟩
    · intro p; rw [parseBlock]; exact holds_none
    · intro p; rw [parseStatementList]; exact holds_none
    · intro p; rw [parseStatement]; exact holds_none
    · intro p; rw [parseWhileStatement]; exact holds_none
    · intro p; rw [parseIfStatement]; exact holds_none
  | succ n ih =>
    obtain ⟨ihB, ihL, ihS, ihW, ihI⟩ := ih
    refine ⟨?_, ?_, ?_, ?_, ?_⟩
    · intro p
      rw [parseBlock]
      refine holds_bind (calls_trans3 m0 fn sq) (calls_expecting m0 fn sq _ _) (fun _ p1 => ?_)
      refine holds_bind (calls_trans3 m0 fn sq) (ihL _) (fun _ p2 => ?_)
      exact calls_expecting m0 fn sq _ _
    · intro p
      rw [parseStatementList]
      split
      · exact holds_fail (Calls m0 fn sq) (calls_refl1 m0 fn sq) _ _
      · exact holds_done (Calls m0 fn sq) (calls_refl1 m0 fn sq) _
      · exact holds_bind (calls_trans3 m0 fn sq) (ihS _) (fun _ p1 => ihL p1)
    · intro p
      rw [parseStatement]
      split
      · exact holds_done (Calls m0 fn sq) (calls_refl1 m0 fn sq) _
      · exact holds_fail (Calls m0 fn sq) (calls_refl1 m0 fn sq) _ _
      · split
        · exact ihI p
        · split
          · exact ihW p
          · split
            · exact calls_parsePrintStatement m0 fn sq n p
            · split
              · simp only
                refine holds_after (calls_trans3 m0 fn sq) (calm_calls (calm_next p)) ?_
                split
                · exact calls_parseFunctionCall m0 fn sq _ _ _
                · split
                  · split
                    · exact holds_fail (Calls m0 fn sq) (calls_refl1 m0 fn sq) _ _
                    · exact calls_parseAssignment m0 fn sq _ _ _ _
                  · exact holds_fail (Calls m0 fn sq) (calls_refl1 m0 fn sq) _ _
              · exact holds_done (Calls m0 fn sq) (calls_refl1 m0 fn sq) _
    · intro p
      rw [parseWhileStatement]
      refine holds_bind (calls_trans3 m0 fn sq) (calls_expecting m0 fn sq _ _) (fun _ p1 => ?_)
      simp only
      refine holds_bind (calls_trans3 m0 fn sq) (calls_expecting m0 fn sq _ _) (fun _ p2 => ?_)
      refine holds_bind (calls_trans3 m0 fn sq) (calls_parseExpression m0 fn sq _ _) (fun _ p3 => ?_)
      refine holds_bind (calls_trans3 m0 fn sq) (calls_hook _ _ (handleGuard_calls m0 fn sq _)) (fun _ p4 => ?_)
      refine holds_bind (calls_trans3 m0 fn sq) (calls_expecting m0 fn sq _ _) (fun _ p5 => ?_)
      refine holds_bind (calls_trans3 m0 fn sq) (ihB _) (fun _ p6 => ?_)
      exact calls_hook _ _ (HandleWhileEnd_calls m0 fn sq _ _)
    · intro p
      rw [parseIfStatement]
      refine holds_bind (calls_trans3 m0 fn sq) (calls_expecting m0 fn sq _ _) (fun _ p1 => ?_)
      refine holds_bind (calls_trans3 m0 fn sq) (calls_expecting m0 fn sq _ _) (fun _ p2 => ?_)
      refine holds_bind (calls_trans3 m0 fn sq) (calls_parseExpression m0 fn sq _ _) (fun _ p3 => ?_)
      refine holds_bind (calls_trans3 m0 fn sq) (calls_expecting m0 fn sq _ _) (fun _ p4 => ?_)
      refine holds_bind (calls_trans3 m0 fn sq) (calls_hook _ _ (handleGuard_calls m0 fn sq _)) (fun _ p5 => ?_)
      refine holds_bind (calls_trans3 m0 fn sq) (ihB _) (fun _ p6 => ?_)
      split
      · simp only
        refine holds_after (calls_trans3 m0 fn sq) (calm_calls (calm_next p6)) ?_
        refine holds_bind (calls_trans3 m0 fn sq) (calls_hook _ _ (HandleElse_calls m0 fn sq _)) (fun _ p8 => ?_)
        refine holds_bind (calls_trans3 m0 fn sq) (ihB _) (fun _ p9 => ?_)
        exact calls_hook _ _ (HandleEndIf_calls m0 fn sq _)
      · exact calls_hook _ _ (HandleEndIf_calls m0 fn sq _)

/-! ### The body of a function and the calls -/

theorem calls_parseFunctionBlock (m : Nat) (f : String) (s : Int) (fuel : Nat) (p : Parser) :
    Holds (Calls m f s) p (parseFunctionBlock fuel p) := by
  unfold parseFunctionBlock
  refine holds_bind (calls_trans3 m f s) (calls_expecting m f s _ _) (fun _ p1 => ?_)
  refine holds_bind (calls_trans3 m f s)
    (holds_mono (calm_calls2 m f s) ((declaration_calm fuel).1 _ _)) (fun _ p2 => ?_)
  refine holds_bind (calls_trans3 m f s) ((statement_calls m f s fuel).2.1 _) (fun _ p3 => ?_)
  exact calls_expecting m f s _ _

/-- From `func` to the start of the body nothing is emitted and the stacks of the emitter
stay as they are. -/
theorem functionRun_head {n : Nat} {p : Parser} {params : List Variable}
    {p4 p5 p6 p8 p9 p10 p11 pf : Parser}
    (h : FunctionRun n p params p4 p5 p6 p8 p9 p10 p11 pf) :
    p8.codeGenerator.Quads = p.codeGenerator.Quads ∧
    p8.codeGenerator.JumpStack = p.codeGenerator.JumpStack ∧
    p8.codeGenerator.OperandStack = p.codeGenerator.OperandStack := by
  obtain ⟨-, -, -, h4, h5, h6, -, h8, -⟩ := h
  have c4 : Calm p.next.next.next.pushSegment p4 := calm_parseParameterList n _ _ h4
  obtain ⟨-, q4, j4, o4⟩ := c4
  obtain ⟨-, g5, -, -⟩ := table_ok h5
  obtain ⟨-, g6, -, -⟩ := table_ok h6
  obtain ⟨-, g8, -, -⟩ := table_ok h8
  have g7 : p6.next.codeGenerator = p6.codeGenerator := next_codeGenerator p6
  have g0 : p.next.next.next.pushSegment.codeGenerator.Quads = p.codeGenerator.Quads ∧
      p.next.next.next.pushSegment.codeGenerator.JumpStack = p.codeGenerator.JumpStack ∧
      p.next.next.next.pushSegment.codeGenerator.OperandStack =
        p.codeGenerator.OperandStack := by
    unfold Parser.pushSegment Parser.withGenerator
    simp only
    rw [next_codeGenerator, next_codeGenerator, next_codeGenerator]
    exact ⟨rfl, rfl, rfl⟩
  rw [g8, g7, g6, g5, q4, j4, o4]
  exact g0

/-- C14: when `parseFunction` accepts a function on a parser whose jump stack holds
indices of quadruples emitted and whose operand stack holds addresses, the steps it made
are those of `FunctionRun`, with `p8` the parser on which the body is parsed and `p9` the
parser the body returns.  From `func` to `p8` nothing is emitted, so the first quadruple
of the body gets the index `len(Quads)` of the parser at `func`; at `p8`, before the
body is parsed, the table records this index as the start quad of the function; the body
leaves the record as it is, and every `GOSUB` quadruple on the name of the function that
stands at this index or after it once the body is parsed, that is every call of the
function in its own body, carries this index as its result. -/
theorem start_quad_recorded_before_body (fuel : Nat) (p : Parser)
    (hj : ∀ j ∈ p.codeGenerator.JumpStack, j < (p.codeGenerator.Quads.length : Int))
    (ho : ∀ v ∈ p.codeGenerator.OperandStack, isAddress v = true)
    (h : (parseFunction (fuel + 1) p).map (fun r => r.err) = some none) :
    ∃ (params : List Variable) (p4 p5 p6 p8 p9 p10 p11 pf : Parser),
      parseFunction (fuel + 1) p = some { val := (), err := none, p := pf } ∧
      FunctionRun fuel p params p4 p5 p6 p8 p9 p10 p11 pf ∧
      p8.codeGenerator.Quads = p.codeGenerator.Quads ∧
      p8.symbolTable.GetFunctionStartQuad p.next.curr.Lit =
        ((p.codeGenerator.Quads.length : Int), none) ∧
      p9.symbolTable.GetFunctionStartQuad p.next.curr.Lit =
        ((p.codeGenerator.Quads.length : Int), none) ∧
      p.codeGenerator.Quads.length ≤ p9.codeGenerator.Quads.length ∧
      ∀ (i : Nat) (quad : Quadruple), p.codeGenerator.Quads.length ≤ i →
        p9.codeGenerator.Quads.get? i = some quad →
        quad.Operator = "GOSUB" → quad.LeftOp = .str p.next.curr.Lit →
        quad.Result = .int (p.codeGenerator.Quads.length : Int) := by
  obtain ⟨pf, hpf⟩ := ok_of_err_none h
  obtain ⟨params, p4, p5, p6, p8, p9, p10, p11, hrun⟩ := parseFunction_run fuel p pf hpf
  obtain ⟨hq, hjs, hos⟩ := functionRun_head hrun
  have hrun0 := hrun
  obtain ⟨-, -, -, -, -, -, -, h8, h9, -⟩ := hrun0
  obtain ⟨hupd, hcg, -, -⟩ := table_ok h8
  have hget := get_after_update _ _ _ _ hupd
  have hlen : p6.next.codeGenerator.nextIndex = (p.codeGenerator.Quads.length : Int) := by
    unfold QuadrupleList.nextIndex
    rw [← hcg, hq]
  rw [hlen] at hget
  have hstart : CallsFrom p.codeGenerator.Quads.length p.next.curr.Lit
      (p.codeGenerator.Quads.length : Int) p8.codeGenerator := by
    refine ⟨by rw [hq], ?_, ?_, ?_⟩
    · intro i quad hi hquad
      have := get?_some_lt hquad
      rw [hq] at this
      omega
    · intro j hjm
      rw [hjs] at hjm
      refine ⟨by rw [hq]; exact hj j hjm, ?_⟩
      intro quad hge
      have := hj j hjm
      omega
    · intro v hv
      rw [hos] at hv
      exact ho v hv
  have hbody := calls_parseFunctionBlock p.codeGenerator.Quads.length p.next.curr.Lit
    (p.codeGenerator.Quads.length : Int) fuel p8 _ h9 ⟨hget, hstart⟩
  obtain ⟨hget9, hm, hall, -, -⟩ := hbody
  exact ⟨params, p4, p5, p6, p8, p9, p10, p11, pf, hpf, hrun, hq, hget, hget9, hm,
    fun i quad hi hquad => hall i quad hi hquad⟩

theorem start_quad_recorded_before_body_witness :
    (parseFunction 20 selfCallFunction).map (fun r => r.p.codeGenerator.Quads) =
      some [⟨"goto", .nil, .nil, .nil⟩, ⟨"ENDPROC", .nil, .nil, .nil⟩,
        ⟨"ERA", .str "f", .nil, .nil⟩, ⟨"GOSUB", .str "f", .nil, .int 2⟩,
        ⟨"ENDPROC", .nil, .nil, .nil⟩] ∧
    selfCallFunction.next.curr.Lit = "f" ∧
    selfCallFunction.codeGenerator.Quads.length = 2 ∧
    ∃ (params : List Variable) (p4 p5 p6 p8 p9 p10 p11 pf : Parser),
      parseFunction (19 + 1) selfCallFunction = some { val := (), err := none, p := pf } ∧
      FunctionRun 19 selfCallFunction params p4 p5 p6 p8 p9 p10 p11 pf ∧
      p8.codeGenerator.Quads = selfCallFunction.codeGenerator.Quads ∧
      p8.symbolTable.GetFunctionStartQuad selfCallFunction.next.curr.Lit =
        ((selfCallFunction.codeGenerator.Quads.length : Int), none) ∧
      p9.symbolTable.GetFunctionStartQuad selfCallFunction.next.curr.Lit =
        ((selfCallFunction.codeGenerator.Quads.length : Int), none) ∧
      selfCallFunction.codeGenerator.Quads.length ≤ p9.codeGenerator.Quads.length ∧
      ∀ (i : Nat) (quad : Quadruple), selfCallFunction.codeGenerator.Quads.length ≤ i →
        p9.codeGenerator.Quads.get? i = some quad →
        quad.Operator = "GOSUB" → quad.LeftOp = .str selfCallFunction.next.curr.Lit →
        quad.Result = .int (selfCallFunction.codeGenerator.Quads.length : Int) :=
  ⟨by decide, by decide, by decide,
    start_quad_recorded_before_body 19 selfCallFunction (by decide) (by decide) (by decide)⟩

/-! ## Parameters and `AllocateLocal` -/

theorem allocateLocal_run {p p1 : Parser} {t : SharedType} {addr : Int}
    (h : p.allocateLocal t = some { val := addr, err := none, p := p1 }) :
    p.codeGenerator.MemoryManager.AllocateLocal t =
      (p1.codeGenerator.MemoryManager, addr, none) := by
  unfold Parser.allocateLocal at h
  split at h
  rename_i a addr1 err hal
  injection h with h
  injection h with h1 h2 h3
  subst h1 h2 h3
  exact hal

theorem generator_expecting (p : Parser) (kind : String) :
    Holds (fun a b => b.codeGenerator = a.codeGenerator) p (p.expecting kind) := by
  unfold Parser.expecting Parser.expect
  split
  · exact holds_some (next_codeGenerator p)
  · exact holds_some rfl

/-- The method `parseParameter` leaves the emitter as it is. -/
theorem generator_parseParameter (p : Parser) :
    Holds (fun a b => b.codeGenerator = a.codeGenerator) p (parseParameter p) := by
  unfold parseParameter parseType
  refine holds_bind (fun _ _ _ h1 h2 => h2.trans h1) (generator_expecting _ _) (fun _ p1 => ?_)
  refine holds_bind (fun _ _ _ h1 h2 => h2.trans h1) (generator_expecting _ _) (fun _ p2 => ?_)
  refine holds_bind (fun _ _ _ h1 h2 => h2.trans h1) (generator_expecting _ _) (fun _ p3 => ?_)
  exact holds_some rfl

theorem allocateLocals_cons {a a1 a2 : Allocator} {t : SharedType} {addr : Int}
    {ts : List SharedType} {addrs : List Int}
    (h1 : a.AllocateLocal t = (a1, addr, none))
    (h2 : allocateLocals a1 ts = some (addrs, a2)) :
    allocateLocals a (t :: ts) = some (addr :: addrs, a2) := by
  rw [allocateLocals, h1]
  simp only
  rw [h2]
  rfl

/-- The parameters that the loop of `parseParameterList` adds got their addresses from
calls of `AllocateLocal` made one after the other on the memory manager of the parser. -/
theorem parseParameterLoop_allocates (fuel : Nat) :
    ∀ (params : List Variable) (p : Parser) (r : Ret (List Variable)),
      parseParameterLoop fuel params p = some r → r.err = none →
      ∃ more : List Variable, r.val = params ++ more ∧
        allocateLocals p.codeGenerator.MemoryManager (more.map (fun v => v.Typ)) =
          some (more.map (fun v => v.Address), r.p.codeGenerator.MemoryManager) := by
  induction fuel with
  | zero => intro params p r h; rw [parseParameterLoop] at h; cases h
  | succ n ih =>
    intro params p r h hok
    rw [parseParameterLoop] at h
    split at h
    · simp only at h
      split at h
      · cases h
      · rename_i currType e p2 h2
        have g2 : p2.codeGenerator = p.codeGenerator :=
          (generator_parseParameter p.next _ h2).trans (next_codeGenerator p)
        split at h
        · cases h; cases hok
        · rename_i semType hsem
          cases hal : p2.allocateLocal semType with
          | none => rw [hal] at h; cases h
          | some x =>
            obtain ⟨addr, e3, p3⟩ := x
            rw [hal] at h
            cases e3 with
            | some err => cases h; cases hok
            | none =>
              have h : parseParameterLoop n
                  (params ++ [{ Name := p.next.curr.Lit, Typ := semType,
                                Line := p.next.curr.Line, Column := p.next.curr.Column,
                                Address := addr }]) p3 = some r := h
              have hall := allocateLocal_run hal
              rw [g2] at hall
              obtain ⟨more, hval, hmore⟩ := ih _ p3 r h hok
              refine ⟨{ Name := p.next.curr.Lit, Typ := semType,
                        Line := p.next.curr.Line, Column := p.next.curr.Column,
                        Address := addr } :: more, ?_, ?_⟩
              · rw [hval, List.append_assoc]
                rfl
              · exact allocateLocals_cons hall hmore
    · cases h
      exact ⟨[], (List.append_nil _).symm, rfl⟩

/-- The parameters that `parseParameterList` returns got their addresses from calls of
`AllocateLocal` made one after the other, in the order of the parameters, on the memory
manager of the parser, which is left as the last call returned it. -/
theorem parseParameterList_allocates (fuel : Nat) (p p4 : Parser) (params : List Variable)
    (h : parseParameterList fuel p = some { val := params, err := none, p := p4 }) :
    allocateLocals p.codeGenerator.MemoryManager (params.map (fun v => v.Typ)) =
      some (params.map (fun v => v.Address), p4.codeGenerator.MemoryManager) := by
  unfold parseParameterList at h
  split at h
  · injection h with h
    injection h with h1 _ h3
    subst h1 h3
    rfl
  · simp only at h
    cases hp : parseParameter p with
    | none => rw [hp] at h; cases h
    | some x =>
      obtain ⟨currType, e1, p1⟩ := x
      rw [hp] at h
      cases e1 with
      | some err => cases h
      | none =>
        have g1 : p1.codeGenerator = p.codeGenerator := generator_parseParameter p _ hp
        have h : andThen (p1.allocateLocal (returnSemanticType currType).1) (fun addr p2 =>
            parseParameterLoop fuel
              [{ Name := p.curr.Lit, Typ := (returnSemanticType currType).1,
                 Line := p.curr.Line, Column := p.curr.Column, Address := addr }] p2) =
            some { val := params, err := none, p := p4 } := h
        cases hal : p1.allocateLocal (returnSemanticType currType).1 with
        | none => rw [hal] at h; cases h
        | some y =>
          obtain ⟨addr, e2, p2⟩ := y
          rw [hal] at h
          cases e2 with
          | some err => cases h
          | none =>
            have h : parseParameterLoop fuel
                [{ Name := p.curr.Lit, Typ := (returnSemanticType currType).1,
                   Line := p.curr.Line, Column := p.curr.Column, Address := addr }] p2 =
                some { val := params, err := none, p := p4 } := h
            have hall := allocateLocal_run hal
            rw [g1] at hall
            obtain ⟨more, hval, hmore⟩ := parseParameterLoop_allocates fuel _ p2 _ h rfl
            simp only at hval hmore
            rw [hval]
            exact allocateLocals_cons hall hmore

/-! ## Function segments and scopes -/

/-- The stack of saved segments and the scope along the steps of `FunctionRun`: one entry
is pushed before the parameters, the parameters and the body are parsed on the pushed
stack, the body in the scope of the function, the pop after `ENDPROC` takes the entry
off again, and the functions that follow are parsed in the global scope. -/
theorem functionRun_levels {n : Nat} {p : Parser} {params : List Variable}
    {p4 p5 p6 p8 p9 p10 p11 pf : Parser}
    (h : FunctionRun n p params p4 p5 p6 p8 p9 p10 p11 pf) :
    p.next.next.next.pushSegment.codeGenerator.segments =
      ((p.codeGenerator.MemoryManager.counters.drop 4).take 8) ::
        p.codeGenerator.segments ∧
    p.next.next.next.pushSegment.codeGenerator.MemoryManager =
      p.codeGenerator.MemoryManager.PushNewFunctionSegment ∧
    p4.codeGenerator.segments = p.next.next.next.pushSegment.codeGenerator.segments ∧
    p8.symbolTable.current = some p.next.curr.Lit ∧
    p8.codeGenerator.segments = p.next.next.next.pushSegment.codeGenerator.segments ∧
    p9.symbolTable.current = some p.next.curr.Lit ∧
    p9.codeGenerator.segments = p.next.next.next.pushSegment.codeGenerator.segments ∧
    p10.codeGenerator.segments = p.next.next.next.pushSegment.codeGenerator.segments ∧
    p11.codeGenerator.segments = p.codeGenerator.segments ∧
    p11.symbolTable.current = some p.next.curr.Lit ∧
    ({ p11.next with symbolTable := p11.next.symbolTable.ExitFunctionScope } :
      Parser).symbolTable.current = none ∧
    ({ p11.next with symbolTable := p11.next.symbolTable.ExitFunctionScope } :
      Parser).codeGenerator.segments = p.codeGenerator.segments := by
  obtain ⟨-, -, -, h4, h5, h6, -, h8, h9, h10, h11, -, -⟩ := h
  have hpush : p.next.next.next.pushSegment.codeGenerator.segments =
      ((p.codeGenerator.MemoryManager.counters.drop 4).take 8) ::
        p.codeGenerator.segments := by
    rw [pushSegment_segments, next_codeGenerator, next_codeGenerator, next_codeGenerator]
  have hmem : p.next.next.next.pushSegment.codeGenerator.MemoryManager =
      p.codeGenerator.MemoryManager.PushNewFunctionSegment := by
    unfold Parser.pushSegment Parser.withGenerator
    simp only
    rw [next_codeGenerator, next_codeGenerator, next_codeGenerator]
  have r4 : Level p.next.next.next.pushSegment p4 := level_parseParameterList n _ _ h4
  obtain ⟨-, c5, -, -⟩ := table_ok h5
  obtain ⟨e6, c6, -, -⟩ := table_ok h6
  have s6 := EnterFunctionScope_ok e6
  obtain ⟨e8, c8, -, -⟩ := table_ok h8
  have s8 : p8.symbolTable.current = some p.next.curr.Lit := by
    have := current_UpdateFunctionStartQuad p6.next.symbolTable p.next.curr.Lit
      p6.next.codeGenerator.nextIndex
    rw [e8] at this
    rw [this, next_symbolTable]
    exact s6
  have g8 : p8.codeGenerator.segments =
      p.next.next.next.pushSegment.codeGenerator.segments := by
    rw [c8, next_codeGenerator, c6, c5]
    exact r4.2
  have r9 : Level p8 p9 := level_parseFunctionBlock n p8 _ h9
  have s9 : p9.symbolTable.current = some p.next.curr.Lit := r9.1.trans s8
  have g9 : p9.codeGenerator.segments =
      p.next.next.next.pushSegment.codeGenerator.segments := r9.2.trans g8
  obtain ⟨e10, t10⟩ := hook_ok h10
  have c10 : p10.codeGenerator = p9.codeGenerator.HandleENDPROC.1 := by rw [e10]
  have g10 : p10.codeGenerator.segments =
      p.next.next.next.pushSegment.codeGenerator.segments := by
    rw [c10]
    exact (HandleENDPROC_saved p9.codeGenerator).trans g9
  obtain ⟨⟨s, hs⟩, t11, -⟩ := popSegment_ok h11
  have g11 : p11.codeGenerator.segments = p.codeGenerator.segments := by
    rw [g10, hpush] at hs
    injection hs with _ hs2
    exact hs2.symm
  have s11 : p11.symbolTable.current = some p.next.curr.Lit := by
    rw [t11, t10]
    exact s9
  refine ⟨hpush, hmem, r4.2, s8, g8, s9, g9, g10, g11, s11, rfl, ?_⟩
  show p11.next.codeGenerator.segments = _
  rw [next_codeGenerator]
  exact g11

/-- When `parseFunctionList` or `parseFunction` returns `nil`, the stack of saved
segments is the one the call started with and the scope that is open is the global
one. -/
theorem functions_balanced (fuel : Nat) :
    (∀ p pf : Parser, p.symbolTable.current = none →
      parseFunctionList fuel p = some { val := (), err := none, p := pf } →
      pf.codeGenerator.segments = p.codeGenerator.segments ∧ pf.symbolTable.current = none) ∧
    (∀ p pf : Parser,
      parseFunction fuel p = some { val := (), err := none, p := pf } →
      pf.codeGenerator.segments = p.codeGenerator.segments ∧
        pf.symbolTable.current = none) := by
  induction fuel with
  | zero =>
    refine ⟨?_, ?_⟩
    · intro p pf _ h; rw [parseFunctionList] at h; cases h
    · intro p pf h; rw [parseFunction] at h; cases h
  | succ n ih =>
    obtain ⟨ihL, ihF⟩ := ih
    refine ⟨?_, ?_⟩
    · intro p pf hscope h
      rw [parseFunctionList] at h
      split at h
      · obtain ⟨_, p1, h1, h⟩ := andThen_ok h
        obtain ⟨g1, s1⟩ := ihF p p1 h1
        obtain ⟨g2, s2⟩ := ihL p1 pf s1 h
        exact ⟨g2.trans g1, s2⟩
      · unfold Parser.done at h
        injection h with h
        injection h with _ _ h3
        subst h3
        exact ⟨rfl, hscope⟩
    · intro p pf h
      obtain ⟨params, p4, p5, p6, p8, p9, p10, p11, hrun⟩ := parseFunction_run n p pf h
      obtain ⟨-, -, -, -, -, -, -, -, -, -, sr, gr⟩ := functionRun_levels hrun
      obtain ⟨-, -, -, -, -, -, -, -, -, -, -, -, hr⟩ := hrun
      obtain ⟨g, s⟩ := ihL _ pf sr hr
      exact ⟨g.trans gr, s⟩

/-- C21: `parseFunctionList` is called in the global scope and returns `nil`.  Then the
stack of saved function segments is the one it started with and the scope that is open
is the global one again.  When there is a function to parse, the call of `parseFunction`
on it made the steps of `FunctionRun`, and along them: `PushNewFunctionSegment`, called
after `func`, the name and `(`, puts one entry on the stack; the addresses of the
parameters are what `AllocateLocal` returned, called for the types of the parameters in
their order on the memory manager as the push left it, and the parameters leave the
pushed stack as it is; the body is parsed in the scope of the function on the pushed
stack and leaves both as they are; `ENDPROC` is emitted on the pushed stack;
`PopFunctionSegment` then leaves the stack the call started with, still in the scope of
the function; `ExitFunctionScope` opens the global scope, in which `parseFunctionList`
parses the functions that follow and returns `nil`, so that the same holds of them. -/
theorem function_segments_balanced (fuel : Nat) (p : Parser)
    (hscope : p.symbolTable.current = none)
    (h : (parseFunctionList fuel p).map (fun r => r.err) = some none) :
    ∃ pf : Parser,
      parseFunctionList fuel p = some { val := (), err := none, p := pf } ∧
      pf.codeGenerator.segments = p.codeGenerator.segments ∧
      pf.symbolTable.current = none ∧
      (p.curr.Typ = "kwdFunc" →
        ∃ (n : Nat) (params : List Variable) (p4 p5 p6 p8 p9 p10 p11 p1 : Parser),
          fuel = n + 2 ∧
          FunctionRun n p params p4 p5 p6 p8 p9 p10 p11 p1 ∧
          parseFunctionList (n + 1) p1 = some { val := (), err := none, p := pf } ∧
          p.next.next.next.pushSegment.codeGenerator.segments =
            ((p.codeGenerator.MemoryManager.counters.drop 4).take 8) ::
              p.codeGenerator.segments ∧
          allocateLocals p.codeGenerator.MemoryManager.PushNewFunctionSegment
              (params.map (fun v => v.Typ)) =
            some (params.map (fun v => v.Address), p4.codeGenerator.MemoryManager) ∧
          p4.codeGenerator.segments =
            p.next.next.next.pushSegment.codeGenerator.segments ∧
          p8.symbolTable.current = some p.next.curr.Lit ∧
          p8.codeGenerator.segments = p.next.next.next.pushSegment.codeGenerator.segments ∧
          p9.symbolTable.current = some p.next.curr.Lit ∧
          p9.codeGenerator.segments = p.next.next.next.pushSegment.codeGenerator.segments ∧
          p10.codeGenerator.segments =
            p.next.next.next.pushSegment.codeGenerator.segments ∧
          p11.codeGenerator.segments = p.codeGenerator.segments ∧
          p11.symbolTable.current = some p.next.curr.Lit ∧
          ({ p11.next with symbolTable := p11.next.symbolTable.ExitFunctionScope } :
            Parser).symbolTable.current = none ∧
          ({ p11.next with symbolTable := p11.next.symbolTable.ExitFunctionScope } :
            Parser).codeGenerator.segments = p.codeGenerator.segments) := by
  obtain ⟨pf, hpf⟩ := ok_of_err_none h
  obtain ⟨g, s⟩ := (functions_balanced fuel).1 p pf hscope hpf
  refine ⟨pf, hpf, g, s, ?_⟩
  intro hfunc
  cases fuel with
  | zero => rw [parseFunctionList] at hpf; cases hpf
  | succ m =>
    have hrun := hpf
    rw [parseFunctionList, if_pos hfunc] at hrun
    obtain ⟨_, p1, h1, hrun⟩ := andThen_ok hrun
    cases m with
    | zero => rw [parseFunction] at h1; cases h1
    | succ n =>
      obtain ⟨params, p4, p5, p6, p8, p9, p10, p11, hsteps⟩ := parseFunction_run n p p1 h1
      obtain ⟨a1, a2, a3, a4, a5, a6, a7, a8, a9, a10, a11, a12⟩ := functionRun_levels hsteps
      have hsteps0 := hsteps
      obtain ⟨-, -, -, h4, -⟩ := hsteps0
      have hall := parseParameterList_allocates n _ _ _ h4
      rw [a2] at hall
      exact ⟨n, params, p4, p5, p6, p8, p9, p10, p11, p1, rfl, hsteps, hrun, a1, hall, a3, a4,
        a5, a6, a7, a8, a9, a10, a11, a12⟩

theorem function_segments_balanced_witness :
    (parseFunctionList 20 twoParameterFunction).map
        (fun r => (r.p.symbolTable.functions.map
          (fun f => f.Parameters.map (fun v => (v.Typ, v.Address))),
          r.p.codeGenerator.segments, r.p.symbolTable.current)) =
      some ([[(.TypeInt, 5000), (.TypeFloat, 6000)]], [], none) ∧
    twoParameterFunction.pushSegment.codeGenerator.segments = [[0, 0, 0, 0, 0, 0, 0, 0]] ∧
    (allocateLocals twoParameterFunction.codeGenerator.MemoryManager.PushNewFunctionSegment
        [.TypeInt, .TypeFloat]).map (fun r => r.1) = some [5000, 6000] ∧
    ∃ pf : Parser,
      parseFunctionList 20 twoParameterFunction = some { val := (), err := none, p := pf } ∧
      pf.codeGenerator.segments = twoParameterFunction.codeGenerator.segments ∧
      pf.symbolTable.current = none ∧
      (twoParameterFunction.curr.Typ = "kwdFunc" →
        ∃ (n : Nat) (params : List Variable) (p4 p5 p6 p8 p9 p10 p11 p1 : Parser),
          20 = n + 2 ∧
          FunctionRun n twoParameterFunction params p4 p5 p6 p8 p9 p10 p11 p1 ∧
          parseFunctionList (n + 1) p1 = some { val := (), err := none, p := pf } ∧
          twoParameterFunction.next.next.next.pushSegment.codeGenerator.segments =
            ((twoParameterFunction.codeGenerator.MemoryManager.counters.drop 4).take 8) ::
              twoParameterFunction.codeGenerator.segments ∧
          allocateLocals twoParameterFunction.codeGenerator.MemoryManager.PushNewFunctionSegment
              (params.map (fun v => v.Typ)) =
            some (params.map (fun v => v.Address), p4.codeGenerator.MemoryManager) ∧
          p4.codeGenerator.segments =
            twoParameterFunction.next.next.next.pushSegment.codeGenerator.segments ∧
          p8.symbolTable.current = some twoParameterFunction.next.curr.Lit ∧
          p8.codeGenerator.segments =
            twoParameterFunction.next.next.next.pushSegment.codeGenerator.segments ∧
          p9.symbolTable.current = some twoParameterFunction.next.curr.Lit ∧
          p9.codeGenerator.segments =
            twoParameterFunction.next.next.next.pushSegment.codeGenerator.segments ∧
          p10.codeGenerator.segments =
            twoParameterFunction.next.next.next.pushSegment.codeGenerator.segments ∧
          p11.codeGenerator.segments = twoParameterFunction.codeGenerator.segments ∧
          p11.symbolTable.current = some twoParameterFunction.next.curr.Lit ∧
          ({ p11.next with symbolTable := p11.next.symbolTable.ExitFunctionScope } :
            Parser).symbolTable.current = none ∧
          ({ p11.next with symbolTable := p11.next.symbolTable.ExitFunctionScope } :
            Parser).codeGenerator.segments = twoParameterFunction.codeGenerator.segments) :=
  ⟨by decide, by decide, by decide,
    function_segments_balanced 20 twoParameterFunction (by decide) (by decide)⟩

end Pogo
